import Mathlib

/-!
# Arena server: battle state, rooms, sessions, settlement and matchmaking

Definitions that follow the Go sources under `src/`, and theorems about them.

Conventions

* A Go map is an association list (`gomap`).  The order of the list stands for
  one iteration order of the map; results that must not depend on the order
  are stated for every permutation.  A map of pointers binds every key to an
  object of its own, as the constructors of the sources allocate them.
* `float32` coordinates are rationals (exact arithmetic, no rounding, no NaN).
  The battle functions are repeated with not-a-number and the infinities in
  `battle.ieee` and with the rounding of `float32` and `float64` in
  `battle.fp`.
* A method call is one step.  Where the calls of several goroutines meet on
  one session, the steps of `Session.Send` are interleaved (`session.Run`).
* `int32` fields are integers; the guards of the code keep every subtraction
  away from the wrap-around.  The `int64` tick and the `uint64` sequence
  counter are incremented without a guard and wrap explicitly.
* Time is an integer number of nanoseconds read from an explicit clock.
* A buffered channel is the list of its pending elements, oldest first,
  together with its capacity.
* Metric emission is left out, except the two counters of `Client.Send`.
-/

namespace gomap

variable {κ : Type} {α : Type} [DecidableEq κ]

/-- Map read `m[k]`; `none` is the zero value (nil) of a missing key. -/
def get (k : κ) : List (κ × α) → Option α
  | [] => none
  | (k', v) :: rest => if k' = k then some v else get k rest

/-- Write through the pointer stored under `k`: the object is replaced by `f`
of itself; a map without the key is left alone. -/
def modify (k : κ) (f : α → α) : List (κ × α) → List (κ × α)
  | [] => []
  | (k', v) :: rest => if k' = k then (k', f v) :: rest else (k', v) :: modify k f rest

/-- Map write `m[k] = v`: overwrites the binding of an existing key, adds the
key otherwise. -/
def put (k : κ) (v : α) : List (κ × α) → List (κ × α)
  | [] => [(k, v)]
  | (k', v') :: rest => if k' = k then (k', v) :: rest else (k', v') :: put k v rest

/-- Builtin `delete(m, k)`. -/
def delete (k : κ) (m : List (κ × α)) : List (κ × α) :=
  m.filter (fun e => decide (e.1 ≠ k))

/-- Keys of the map. -/
def keys (m : List (κ × α)) : List κ := m.map Prod.fst

end gomap

namespace protocol

def MsgUnknown : Int := 0
def MsgPing : Int := 1
def MsgPong : Int := 2
def MsgLoginReq : Int := 10
def MsgLoginResp : Int := 11
def MsgReconnectReq : Int := 12
def MsgReconnectResp : Int := 13
def MsgMatchReq : Int := 20
def MsgMatchResp : Int := 21
def MsgPlayerInput : Int := 30
def MsgSkillCast : Int := 31
def MsgRoomSnapshot : Int := 40
def MsgRoomOver : Int := 41
def MsgErrorResp : Int := 90

def CurrentVersion : Int := 1

structure Ping where
  ClientTs : Int
deriving DecidableEq

structure Pong where
  ClientTs : Int
  ServerTs : Int
deriving DecidableEq

structure LoginReq where
  Username : String
deriving DecidableEq

structure LoginResp where
  PlayerId : String
  AccessToken : String
  ReconnectToken : String
deriving DecidableEq

structure ReconnectReq where
  ReconnectToken : String
deriving DecidableEq

structure ReconnectResp where
  PlayerId : String
  RoomId : String
  Ok : Bool
  Reason : String
deriving DecidableEq

structure MatchResp where
  MatchId : String
  RoomId : String
  Players : List String
deriving DecidableEq

structure PlayerInput where
  Dx : ℚ
  Dy : ℚ
deriving DecidableEq

structure SkillCast where
  SkillId : Int
  TargetId : String
deriving DecidableEq

structure PlayerSnapshot where
  PlayerId : String
  X : ℚ
  Y : ℚ
  Hp : Int
  SkillCd : Int
deriving DecidableEq

structure RoomSnapshot where
  RoomId : String
  Tick : Int
  Players : List PlayerSnapshot
deriving DecidableEq

structure RoomOver where
  RoomId : String
  WinnerId : String
deriving DecidableEq

structure ErrorResp where
  Code : Int
  Message : String
deriving DecidableEq

/-- The bodies the server sends (`proto.Message` values passed to `Encode`). -/
inductive Message
  | pong (m : Pong)
  | loginResp (m : LoginResp)
  | reconnectResp (m : ReconnectResp)
  | matchResp (m : MatchResp)
  | roomSnapshot (m : RoomSnapshot)
  | roomOver (m : RoomOver)
  | errorResp (m : ErrorResp)
deriving DecidableEq

/-- Wire envelope.  `β` is the representation of the body bytes. -/
structure Envelope (β : Type) where
  Typ : Int
  Seq : Nat
  Body : β
  Version : Int
deriving DecidableEq

/-- An outbound frame, the `[]byte` returned by `Encode`, represented by the
envelope it encodes; the body bytes are represented by the message they encode
(`none` for a nil body). -/
abbrev Frame := Envelope (Option Message)

/-- The body bytes of an inbound envelope, represented by what
`proto.Unmarshal` makes of them for each request type (`none`: an error). -/
structure InBody where
  asPing : Option Ping
  asLoginReq : Option LoginReq
  asReconnectReq : Option ReconnectReq
  asPlayerInput : Option PlayerInput
  asSkillCast : Option SkillCast
deriving DecidableEq

/-- The protobuf library, which is not part of the repository: whether
`proto.Marshal` accepts a body, and the length in bytes of an encoded frame. -/
structure Lib where
  marshalOK : Message → Bool
  frameLen : Frame → Nat

/-- `Encode`: `none` is the error of `proto.Marshal(body)`. -/
def Encode (L : Lib) (msgType : Int) (body : Option Message) (seq : Nat) : Option Frame :=
  match body with
  | some m =>
    if L.marshalOK m then
      some { Typ := msgType, Seq := seq, Body := some m, Version := CurrentVersion }
    else none
  | none => some { Typ := msgType, Seq := seq, Body := none, Version := CurrentVersion }

end protocol

namespace battle

def defaultHP : Int := 100
def arenaMin : ℚ := -100
def arenaMax : ℚ := 100
def skillDamage : Int := 10
def skillCooldown : Int := 20
def skillRange : ℚ := 20
def maxMovePerTick : ℚ := 5

/-- Authoritative server state of one player. -/
structure PlayerState where
  ID : String
  X : ℚ
  Y : ℚ
  HP : Int
  SkillCD : Int
deriving DecidableEq

/-- Mutable battle state: the player map and the tick counter. -/
structure State where
  Players : List (String × PlayerState)
  Tick : Int
deriving DecidableEq

/-- The loop of `NewState`: `i` is the index of the next id. -/
def newStateLoop : List String → Nat → List (String × PlayerState) →
    List (String × PlayerState)
  | [], _, players => players
  | id :: rest, i, players =>
    newStateLoop rest (i + 1)
      (gomap.put id
        { ID := id, X := -50 + (i : ℚ) * 100, Y := 0, HP := defaultHP, SkillCD := 0 }
        players)

def NewState (playerIDs : List String) : State :=
  { Players := newStateLoop playerIDs 0 [], Tick := 0 }

def clampFloat32 (v min max : ℚ) : ℚ :=
  if v < min then min else if v > max then max else v

def ApplyInput (s : State) (playerID : String) (input : Option protocol.PlayerInput) : State :=
  match gomap.get playerID s.Players, input with
  | some p, some inp =>
    if p.HP ≤ 0 then s
    else
      let dx := clampFloat32 inp.Dx (-maxMovePerTick) maxMovePerTick
      let dy := clampFloat32 inp.Dy (-maxMovePerTick) maxMovePerTick
      { s with
        Players := gomap.modify playerID
          (fun q => { q with
            X := clampFloat32 (q.X + dx) arenaMin arenaMax,
            Y := clampFloat32 (q.Y + dy) arenaMin arenaMax })
          s.Players }
  | _, _ => s

/-- The radicand of `distance`: `dx*dx + dy*dy`. -/
def distanceSq (x1 y1 x2 y2 : ℚ) : ℚ :=
  (x1 - x2) * (x1 - x2) + (y1 - y2) * (y1 - y2)

/-- The test `distance(x1, y1, x2, y2) > skillRange`.  The square root of the
source is not a rational function, so the comparison is decided on the
squares; `sqrt_distanceSq_gt_iff` shows that this is the same test.  The
coordinates and the distance are exact here; `fp.distance` is the same
computation with the roundings of `float32` and `float64`. -/
def outOfRange (x1 y1 x2 y2 : ℚ) : Bool :=
  decide (distanceSq x1 y1 x2 y2 > skillRange * skillRange)

def ApplySkill (s : State) (casterID : String) (skill : Option protocol.SkillCast) : State :=
  match gomap.get casterID s.Players, skill with
  | some caster, some sk =>
    if caster.HP ≤ 0 then s
    else if caster.SkillCD > 0 then s
    else if sk.TargetId = "" ∨ sk.TargetId = casterID then s
    else
      match gomap.get sk.TargetId s.Players with
      | none => s
      | some target =>
        if target.HP ≤ 0 then s
        else if outOfRange caster.X caster.Y target.X target.Y then s
        else
          let hit := gomap.modify sk.TargetId
            (fun t => { t with
              HP := if t.HP - skillDamage < 0 then 0 else t.HP - skillDamage })
            s.Players
          { s with
            Players := gomap.modify casterID
              (fun c => { c with SkillCD := skillCooldown }) hit }
  | _, _ => s

/-- Two's complement wrap of an `int64` result. -/
def wrapInt64 (n : Int) : Int := (n + 2 ^ 63) % 2 ^ 64 - 2 ^ 63

def TickForward (s : State) : State :=
  { Players := s.Players.map
      (fun e => (e.1, if e.2.SkillCD > 0 then { e.2 with SkillCD := e.2.SkillCD - 1 } else e.2)),
    Tick := wrapInt64 (s.Tick + 1) }

def Snapshot (s : State) (roomID : String) : protocol.RoomSnapshot :=
  { RoomId := roomID,
    Tick := s.Tick,
    Players := s.Players.map
      (fun e => { PlayerId := e.2.ID, X := e.2.X, Y := e.2.Y, Hp := e.2.HP, SkillCd := e.2.SkillCD }) }

/-- The loop of `Winner` with its locals `alive` and `count`. -/
def winnerLoop : List (String × PlayerState) → String → Nat → String × Bool
  | [], alive, count => if count = 0 then ("", true) else (alive, true)
  | e :: rest, alive, count =>
    if e.2.HP > 0 then
      if count + 1 > 1 then ("", false) else winnerLoop rest e.2.ID (count + 1)
    else winnerLoop rest alive count

def Winner (s : State) : String × Bool := winnerLoop s.Players "" 0

end battle

namespace store

/-- The interface `Idempotency` over a store with state `σ`; the clock reading
of the call is explicit, the result is the new state, the flag and the error
(`none` for nil). -/
structure Idempotency (σ : Type) where
  SetIfNotExists : σ → (now : Int) → (key : String) → (ttl : Int) → σ × Bool × Option String

/-- Process-local fallback: key ↦ expiry instant. -/
structure MemoryIdem where
  items : List (String × Int)
deriving DecidableEq

def NewMemoryIdem : MemoryIdem := { items := [] }

def MemoryIdem.SetIfNotExists (m : MemoryIdem) (now : Int) (key : String) (ttl : Int) :
    MemoryIdem × Bool × Option String :=
  match gomap.get key m.items with
  | some exp =>
    if now < exp then (m, false, none)
    else ({ items := gomap.put key (now + ttl) m.items }, true, none)
  | none => ({ items := gomap.put key (now + ttl) m.items }, true, none)

/-- One pass of `cleanupLoop` at clock reading `now`: every key whose expiry
lies before `now` is deleted. -/
def MemoryIdem.cleanup (m : MemoryIdem) (now : Int) : MemoryIdem :=
  { items := m.items.filter (fun e => ! decide (e.2 < now)) }

/-- `MemoryIdem` as an `Idempotency`. -/
def memoryIdem : Idempotency MemoryIdem := { SetIfNotExists := MemoryIdem.SetIfNotExists }

end store

namespace room

inductive EventType
  | EventJoin
  | EventLeave
  | EventInput
  | EventSkill
deriving DecidableEq

structure Event where
  Typ : EventType
  PlayerID : String
  Input : Option protocol.PlayerInput
  Skill : Option protocol.SkillCast
deriving DecidableEq

/-- A room: `events` is the content of the event channel (capacity 128),
`done` tells whether the done channel is closed. -/
structure Room where
  id : String
  matchID : String
  players : List String
  events : List Event
  state : battle.State
  done : Bool
deriving DecidableEq

def eventsCap : Nat := 128

def NewRoom (id matchID : String) (players : List String) : Room :=
  { id := id, matchID := matchID, players := players, events := [],
    state := battle.NewState players, done := false }

def Room.Stop (r : Room) : Room := if r.done then r else { r with done := true }

/-- Non-blocking enqueue: a full channel drops the event (and logs). -/
def Room.SendEvent (r : Room) (ev : Event) : Room :=
  if r.events.length < eventsCap then { r with events := r.events ++ [ev] } else r

/-- The effect of `Room.handleEvent` on the battle state of the room. -/
def handleEvent (s : battle.State) (ev : Event) : battle.State :=
  match ev.Typ with
  | .EventJoin => s
  | .EventLeave =>
    { s with Players := gomap.modify ev.PlayerID (fun p => { p with HP := 0 }) s.Players }
  | .EventInput => battle.ApplyInput s ev.PlayerID ev.Input
  | .EventSkill => battle.ApplySkill s ev.PlayerID ev.Skill

/-- A call `sender.Send(playerID, msgType, msg)` made by a room. -/
structure Sent where
  playerID : String
  msgType : Int
  msg : protocol.Message
deriving DecidableEq

def Room.broadcastSnapshot (r : Room) : List Sent :=
  r.players.map fun pid =>
    { playerID := pid, msgType := protocol.MsgRoomSnapshot,
      msg := .roomSnapshot (battle.Snapshot r.state r.id) }

/-- Five minutes in nanoseconds. -/
def settleTTL : Int := 5 * 60 * 1000000000

/-- `broadcastRoomOver` at clock reading `now`: the new store state and the
calls made on the sender. -/
def Room.broadcastRoomOver {σ : Type} (I : store.Idempotency σ) (r : Room) (st : σ) (now : Int)
    (winner : String) : σ × List Sent :=
  let key := "settle:" ++ r.matchID
  let res := I.SetIfNotExists st now key settleTTL
  let ok := if res.2.2.isSome then true else res.2.1
  if !ok then (res.1, [])
  else
    (res.1, r.players.map fun pid =>
      { playerID := pid, msgType := protocol.MsgRoomOver,
        msg := .roomOver { RoomId := r.id, WinnerId := winner } })

/-- The case of the `select` in `Room.loop` that fires: an event is received,
the ticker fires (at clock reading `now`), or the done channel is read. -/
inductive Select
  | event
  | tick (now : Int)
  | done
deriving DecidableEq

/-- What a run of `Room.loop` has done: the room and the store it leaves, the
calls made on the sender, the number of calls of `broadcastRoomOver`, and
whether the loop has returned. -/
structure LoopResult (σ : Type) where
  room : Room
  idem : σ
  sent : List Sent
  settlements : Nat
  returned : Bool

/-- `Room.loop` driven by the sequence of `select` cases that fire.  A case
whose channel is not ready (no pending event, done not closed) cannot fire and
is skipped. -/
def Room.loop {σ : Type} (I : store.Idempotency σ) (r : Room) (st : σ) :
    List Select → LoopResult σ
  | [] => { room := r, idem := st, sent := [], settlements := 0, returned := false }
  | .event :: rest =>
    match r.events with
    | [] => Room.loop I r st rest
    | ev :: evs => Room.loop I { r with events := evs, state := handleEvent r.state ev } st rest
  | .tick now :: rest =>
    let r1 := { r with state := battle.TickForward r.state }
    let snaps := r1.broadcastSnapshot
    let w := battle.Winner r1.state
    if w.2 then
      let over := r1.broadcastRoomOver I st now w.1
      { room := r1, idem := over.1, sent := snaps ++ over.2, settlements := 1, returned := true }
    else
      let res := Room.loop I r1 st rest
      { res with sent := snaps ++ res.sent }
  | .done :: rest =>
    if r.done then
      { room := r, idem := st, sent := [], settlements := 0, returned := true }
    else Room.loop I r st rest

end room

namespace battle

/-- One mutation of a battle state: a direct call of a battle operation or an
event handled by the room that owns the state. -/
inductive Op
  | input (playerID : String) (inp : Option protocol.PlayerInput)
  | skill (casterID : String) (sk : Option protocol.SkillCast)
  | tick
  | event (ev : room.Event)

def applyOp (s : State) : Op → State
  | .input pid inp => ApplyInput s pid inp
  | .skill cid sk => ApplySkill s cid sk
  | .tick => TickForward s
  | .event ev => room.handleEvent s ev

/-- The state reached from `NewState playerIDs` by the operations `ops`. -/
def run (playerIDs : List String) (ops : List Op) : State :=
  ops.foldl applyOp (NewState playerIDs)

end battle

namespace room

/-- Something that touches the in-memory idempotency store: a settlement
attempt (`broadcastRoomOver`) by some room at some clock reading, or a pass of
the store's `cleanupLoop`. -/
inductive Activity
  | settle (r : Room) (now : Int) (winner : String)
  | sweep (now : Int)

/-- The clock reading of an activity. -/
def Activity.time : Activity → Int
  | .settle _ now _ => now
  | .sweep now => now

/-- Runs the activities in order on the in-memory store and lists, for each of
them, the calls it makes on the sender. -/
def runActivities (st : store.MemoryIdem) : List Activity → List (List Sent)
  | [] => []
  | .settle r now winner :: rest =>
    let res := r.broadcastRoomOver store.memoryIdem st now winner
    res.2 :: runActivities res.1 rest
  | .sweep now :: rest => [] :: runActivities (st.cleanup now) rest

end room

namespace session

/-- A session; `sender` is the handle of the connection bound to it (`none`
for nil), `seq` the `uint64` counter of outbound envelopes. -/
structure Session where
  PlayerID : String
  Username : String
  RoomID : String
  ReconnectToken : String
  Online : Bool
  LastSeen : Int
  sender : Option Nat
  seq : Nat
deriving DecidableEq

/-- `SetSender` at clock reading `now`: the session after the call, and the
previous sender when the call closes it. -/
def Session.SetSender (s : Session) (sender : Option Nat) (now : Int) : Session × Option Nat :=
  let old := s.sender
  ({ s with sender := sender, Online := true, LastSeen := now },
    if old ≠ none ∧ old ≠ sender then old else none)

def Session.ClearSender (s : Session) (now : Int) : Session :=
  { s with sender := none, Online := false, LastSeen := now }

/-- Outcome of `Session.Send`: the error "session offline"; the error of
`Encode`, called with `seq`; or the call `sender.Send(payload)`, whose error
is returned to the caller. -/
inductive SendResult
  | offline
  | encodeError (seq : Nat)
  | handed (sender : Nat) (payload : protocol.Frame)
deriving DecidableEq

/-- One call of `Send` that runs alone, from its first line to its last.  The
calls of several goroutines on one session are interleaved by `Run.step`. -/
def Session.Send (L : protocol.Lib) (s : Session) (msgType : Int)
    (msg : Option protocol.Message) : Session × SendResult :=
  match s.Online, s.sender with
  | true, some c =>
    let seq := (s.seq + 1) % 2 ^ 64
    match protocol.Encode L msgType msg seq with
    | none => ({ s with seq := seq }, .encodeError seq)
    | some payload => ({ s with seq := seq }, .handed c payload)
  | _, _ => (s, .offline)

def Session.GetRoomID (s : Session) : String := s.RoomID

/-- A call on a session. -/
inductive Call
  | send (msgType : Int) (msg : Option protocol.Message)
  | setSender (sender : Option Nat) (now : Int)
  | clearSender (now : Int)

/-- Makes the calls in order; lists the outcome of every `Send`. -/
def Session.calls (L : protocol.Lib) (s : Session) : List Call → Session × List SendResult
  | [] => (s, [])
  | .send msgType msg :: rest =>
    let r := s.Send L msgType msg
    let out := Session.calls L r.1 rest
    (out.1, r.2 :: out.2)
  | .setSender sender now :: rest => Session.calls L (s.SetSender sender now).1 rest
  | .clearSender now :: rest => Session.calls L (s.ClearSender now) rest

/-- The seq values given to `Encode` by the sends that passed the online
check, in order. -/
def encodedSeqs : List SendResult → List Nat
  | [] => []
  | .offline :: rest => encodedSeqs rest
  | .encodeError seq :: rest => seq :: encodedSeqs rest
  | .handed _ payload :: rest => payload.Seq :: encodedSeqs rest

/-- The seq values of the envelopes handed to a sender, in order. -/
def handedSeqs : List SendResult → List Nat
  | [] => []
  | .handed _ payload :: rest => payload.Seq :: handedSeqs rest
  | _ :: rest => handedSeqs rest

end session

namespace session

/-- The session registry: `sessions` maps a player id to its session. -/
structure Manager where
  sessions : List (String × Session)
  reconnectTTL : Int
deriving DecidableEq

def Manager.Create (m : Manager) (playerID username reconnectToken : String) (sender : Nat)
    (now : Int) : Manager :=
  { m with
    sessions := gomap.put playerID
      { PlayerID := playerID, Username := username, RoomID := "",
        ReconnectToken := reconnectToken, Online := true, LastSeen := now,
        sender := some sender, seq := 0 }
      m.sessions }

/-- `Bind` at clock reading `now`: the registry after the call, the session
found (`none` for a missing one), and the connection closed by `SetSender`. -/
def Manager.Bind (m : Manager) (playerID : String) (sender : Nat) (now : Int) :
    Manager × Option Session × Option Nat :=
  match gomap.get playerID m.sessions with
  | none => (m, none, none)
  | some s =>
    let r := s.SetSender (some sender) now
    ({ m with sessions := gomap.modify playerID (fun _ => r.1) m.sessions }, some r.1, r.2)

def Manager.SetRoom (m : Manager) (playerID roomID : String) : Manager :=
  { m with sessions := gomap.modify playerID (fun s => { s with RoomID := roomID }) m.sessions }

def Manager.MarkOffline (m : Manager) (playerID : String) (now : Int) : Manager :=
  { m with sessions := gomap.modify playerID (fun s => s.ClearSender now) m.sessions }

def Manager.Remove (m : Manager) (playerID : String) : Manager :=
  { m with sessions := gomap.delete playerID m.sessions }

def Manager.Get (m : Manager) (playerID : String) : Option Session :=
  gomap.get playerID m.sessions

def Manager.IsOnline (m : Manager) (playerID : String) : Bool :=
  match m.Get playerID with
  | none => false
  | some s => s.Online

/-- `Manager.Send` up to the call of the sender: the registry after the call
and the outcome of `Session.Send` (`none` for `ErrNotFound`). -/
def Manager.Send (L : protocol.Lib) (m : Manager) (playerID : String) (msgType : Int)
    (msg : Option protocol.Message) : Manager × Option SendResult :=
  match m.Get playerID with
  | none => (m, none)
  | some s =>
    let r := s.Send L msgType msg
    ({ m with sessions := gomap.modify playerID (fun _ => r.1) m.sessions }, some r.2)

end session

namespace metrics

/-- The two counters written by `Client.Send`. -/
structure Metrics where
  SendBytes : Nat
  DroppedMessages : Nat
deriving DecidableEq

end metrics

namespace auth

/-- The methods of `auth.Manager` used by the dispatcher; the clock reading is
explicit.  A generation error leaves the empty token, a parse error is
`none`. -/
structure Manager where
  GenerateAccessToken : (playerID username : String) → (ttl now : Int) → String
  GenerateReconnectToken : (playerID : String) → (ttl now : Int) → String
  ParseReconnectToken : (token : String) → (now : Int) → Option String

end auth

namespace netws

/-- Go errors returned on the outbound paths (`nil` is `none` of
`Option Err`); `panic` stands for a run-time panic (send on a closed channel,
nil connection). -/
inductive Err
  | sendQueueFull
  | sessionNotFound
  | sessionOffline
  | encode
  | panic
deriving DecidableEq

/-- A connection: `send` is the content of the outbound channel of capacity
`sendCap`; `sendClosed` and `connClosed` tell whether `CloseSend` and `Close`
have been called. -/
structure Client where
  playerID : String
  send : List protocol.Frame
  sendCap : Nat
  sendClosed : Bool
  connClosed : Bool
  winStart : Int
  winCount : Int
deriving DecidableEq

def NewClient (sendQueue : Nat) (now : Int) : Client :=
  { playerID := "", send := [], sendCap := sendQueue, sendClosed := false, connClosed := false,
    winStart := now, winCount := 0 }

def Client.SetPlayerID (c : Client) (id : String) : Client := { c with playerID := id }

def Client.PlayerID (c : Client) : String := c.playerID

/-- One second in nanoseconds. -/
def second : Int := 1000000000

def Client.AllowMessage (c : Client) (now : Int) (maxPerSecond : Int) : Client × Bool :=
  if maxPerSecond ≤ 0 then (c, true)
  else
    let c1 := if now - c.winStart ≥ second then { c with winStart := now, winCount := 0 } else c
    let c2 := { c1 with winCount := c1.winCount + 1 }
    (c2, decide (c2.winCount ≤ maxPerSecond))

def Client.Send (L : protocol.Lib) (c : Client) (m : Option metrics.Metrics)
    (data : protocol.Frame) : Client × Option metrics.Metrics × Option Err :=
  if c.sendClosed then (c, m, some .panic)
  else if c.send.length < c.sendCap then
    ({ c with send := c.send ++ [data] },
      m.map (fun x => { x with SendBytes := x.SendBytes + L.frameLen data }), none)
  else (c, m.map (fun x => { x with DroppedMessages := x.DroppedMessages + 1 }), some .sendQueueFull)

def Client.Close (c : Client) : Client := { c with connClosed := true }

def Client.CloseSend (c : Client) : Client := { c with sendClosed := true }

/-- The server with everything its dispatcher reaches: configuration, metrics
sink (`none` for nil), the connections by handle, the session registry, the
matchmaker's enqueue channel and the rooms of the room manager. -/
structure Server where
  MaxMsgPerSecond : Int
  ReconnectTTL : Int
  MatchQueueSize : Nat
  metrics : Option metrics.Metrics
  clients : List (Nat × Client)
  sessions : session.Manager
  enqueueCh : List String
  rooms : List (String × room.Room)

/-- The call `c.Send(payload)` on the connection with handle `cid`. -/
def Server.clientSend (L : protocol.Lib) (w : Server) (cid : Nat) (payload : protocol.Frame) :
    Server × Option Err :=
  match gomap.get cid w.clients with
  | none => (w, some .panic)
  | some c =>
    let r := c.Send L w.metrics payload
    ({ w with clients := gomap.modify cid (fun _ => r.1) w.clients, metrics := r.2.1 }, r.2.2)

def Server.sendDirect (L : protocol.Lib) (w : Server) (cid : Nat) (msgType : Int)
    (msg : protocol.Message) : Server × Option Err :=
  match protocol.Encode L msgType (some msg) 0 with
  | none => (w, some .encode)
  | some payload => w.clientSend L cid payload

def Server.sendError (L : protocol.Lib) (w : Server) (cid : Nat) (code : Int) (message : String) :
    Server :=
  (w.sendDirect L cid protocol.MsgErrorResp (.errorResp { Code := code, Message := message })).1

/-- `sessions.Send(playerID, msgType, msg)` with the session manager as it is
wired in the server: the sender of a session is a connection. -/
def Server.sessionsSend (L : protocol.Lib) (w : Server) (playerID : String) (msgType : Int)
    (msg : protocol.Message) : Server × Option Err :=
  let r := w.sessions.Send L playerID msgType (some msg)
  let w1 := { w with sessions := r.1 }
  match r.2 with
  | none => (w1, some .sessionNotFound)
  | some .offline => (w1, some .sessionOffline)
  | some (.encodeError _) => (w1, some .encode)
  | some (.handed c payload) => w1.clientSend L c payload

/-- `rooms.SendEvent(roomID, ev)`: a missing room drops the event. -/
def Server.roomsSendEvent (w : Server) (roomID : String) (ev : room.Event) : Server :=
  { w with rooms := gomap.modify roomID (fun r => r.SendEvent ev) w.rooms }

/-- `matcher.Enqueue(playerID)`: non-blocking push on the enqueue channel. -/
def Server.matcherEnqueue (w : Server) (playerID : String) : Server × Bool :=
  if w.enqueueCh.length < w.MatchQueueSize then
    ({ w with enqueueCh := w.enqueueCh ++ [playerID] }, true)
  else (w, false)

def Server.setPlayerID (w : Server) (cid : Nat) (id : String) : Server :=
  { w with clients := gomap.modify cid (fun c => c.SetPlayerID id) w.clients }

/-- Ten minutes in nanoseconds. -/
def accessTTL : Int := 10 * 60 * 1000000000

/-- `handleLogin`; `uuidName` and `uuidPlayer` are the results of the calls of
`uuid.NewString`. -/
def Server.handleLogin (L : protocol.Lib) (A : auth.Manager) (w : Server) (cid : Nat)
    (body : protocol.InBody) (now : Int) (uuidName uuidPlayer : String) : Server :=
  match body.asLoginReq with
  | none => w.sendError L cid 400 "bad login"
  | some req =>
    let username := if req.Username = "" then "player-" ++ uuidName.take 8 else req.Username
    let playerID := uuidPlayer
    let accessToken := A.GenerateAccessToken playerID username accessTTL now
    let reconnectToken := A.GenerateReconnectToken playerID w.ReconnectTTL now
    let w1 := { w with
      sessions := w.sessions.Create playerID username reconnectToken cid now }
    let w2 := w1.setPlayerID cid playerID
    (w2.sessionsSend L playerID protocol.MsgLoginResp
      (.loginResp { PlayerId := playerID, AccessToken := accessToken,
                    ReconnectToken := reconnectToken })).1

def Server.handleReconnect (L : protocol.Lib) (A : auth.Manager) (w : Server) (cid : Nat)
    (body : protocol.InBody) (now : Int) : Server :=
  match body.asReconnectReq with
  | none => w.sendError L cid 400 "bad reconnect"
  | some req =>
    match A.ParseReconnectToken req.ReconnectToken now with
    | none =>
      (w.sendDirect L cid protocol.MsgReconnectResp
        (.reconnectResp { PlayerId := "", RoomId := "", Ok := false, Reason := "invalid token" })).1
    | some playerID =>
      let b := w.sessions.Bind playerID cid now
      match b.2.1 with
      | none =>
        (w.sendDirect L cid protocol.MsgReconnectResp
          (.reconnectResp
            { PlayerId := "", RoomId := "", Ok := false, Reason := "session not found" })).1
      | some sess =>
        let w1 := { w with
          sessions := b.1,
          clients := match b.2.2 with
            | none => w.clients
            | some old => gomap.modify old (fun c => c.Close) w.clients }
        let w2 := w1.setPlayerID cid playerID
        let w3 := (w2.sendDirect L cid protocol.MsgReconnectResp
          (.reconnectResp
            { PlayerId := playerID, RoomId := sess.RoomID, Ok := true, Reason := "" })).1
        if sess.RoomID ≠ "" then
          w3.roomsSendEvent sess.RoomID
            { Typ := .EventJoin, PlayerID := playerID, Input := none, Skill := none }
        else w3

def Server.handleMatch (L : protocol.Lib) (w : Server) (playerID : String) : Server :=
  let r := w.matcherEnqueue playerID
  if !r.2 then
    (r.1.sessionsSend L playerID protocol.MsgErrorResp
      (.errorResp { Code := 429, Message := "match queue full" })).1
  else r.1

def Server.forwardInput (w : Server) (playerID : String) (input : protocol.PlayerInput) : Server :=
  match w.sessions.Get playerID with
  | none => w
  | some sess =>
    let roomID := sess.GetRoomID
    if roomID = "" then w
    else
      w.roomsSendEvent roomID
        { Typ := .EventInput, PlayerID := playerID, Input := some input, Skill := none }

def Server.forwardSkill (w : Server) (playerID : String) (skill : protocol.SkillCast) : Server :=
  match w.sessions.Get playerID with
  | none => w
  | some sess =>
    let roomID := sess.GetRoomID
    if roomID = "" then w
    else
      w.roomsSendEvent roomID
        { Typ := .EventSkill, PlayerID := playerID, Input := none, Skill := some skill }

/-- `handleMessage` for the frame `data` read on the connection with handle
`cid` at clock reading `now`; `data` is the result of `DecodeEnvelope` (`none`
for an error). -/
def Server.handleMessage (L : protocol.Lib) (A : auth.Manager) (w : Server) (cid : Nat)
    (data : Option (protocol.Envelope protocol.InBody)) (now : Int)
    (uuidName uuidPlayer : String) : Server :=
  match gomap.get cid w.clients with
  | none => w
  | some c =>
    let a := c.AllowMessage now w.MaxMsgPerSecond
    let w0 := { w with clients := gomap.modify cid (fun _ => a.1) w.clients }
    if !a.2 then w0.sendError L cid 429 "rate limited"
    else
      match data with
      | none => w0.sendError L cid 400 "bad envelope"
      | some env =>
        if env.Version ≠ 0 ∧ env.Version ≠ protocol.CurrentVersion then
          w0.sendError L cid 426 "protocol version mismatch"
        else if env.Typ = protocol.MsgPing then
          match env.Body.asPing with
          | none => w0.sendError L cid 400 "bad ping"
          | some req =>
            (w0.sendDirect L cid protocol.MsgPong
              (.pong { ClientTs := req.ClientTs, ServerTs := now / 1000000 })).1
        else if env.Typ = protocol.MsgLoginReq then
          w0.handleLogin L A cid env.Body now uuidName uuidPlayer
        else if env.Typ = protocol.MsgReconnectReq then
          w0.handleReconnect L A cid env.Body now
        else
          let playerID := a.1.PlayerID
          if playerID = "" then w0.sendError L cid 401 "not logged in"
          else if env.Typ = protocol.MsgMatchReq then w0.handleMatch L playerID
          else if env.Typ = protocol.MsgPlayerInput then
            match env.Body.asPlayerInput with
            | none => w0.sendError L cid 400 "bad input"
            | some input => w0.forwardInput playerID input
          else if env.Typ = protocol.MsgSkillCast then
            match env.Body.asSkillCast with
            | none => w0.sendError L cid 400 "bad skill"
            | some skill => w0.forwardSkill playerID skill
          else w0.sendError L cid 400 "unknown message"

end netws

namespace scenario

/-- A protobuf library that marshals every body. -/
def lib : protocol.Lib := { marshalOK := fun _ => true, frameLen := fun _ => 0 }

/-- A token service for the login of the scenario (no reconnect tokens are
parsed in it). -/
def authMgr : auth.Manager :=
  { GenerateAccessToken := fun _ _ _ _ => "access",
    GenerateReconnectToken := fun _ _ _ => "reconnect",
    ParseReconnectToken := fun _ _ => none }

/-- A server with the default configuration and one fresh connection, of
handle 1. -/
def server0 : netws.Server :=
  { MaxMsgPerSecond := 60, ReconnectTTL := 30000000000, MatchQueueSize := 10240,
    metrics := none,
    clients := [(1, netws.NewClient 256 0)],
    sessions := { sessions := [], reconnectTTL := 30000000000 },
    enqueueCh := [], rooms := [] }

def noBody : protocol.InBody :=
  { asPing := none, asLoginReq := none, asReconnectReq := none, asPlayerInput := none,
    asSkillCast := none }

/-- LOGIN_REQ{username: "bob"}. -/
def loginFrame : protocol.Envelope protocol.InBody :=
  { Typ := protocol.MsgLoginReq, Seq := 0,
    Body := { noBody with asLoginReq := some { Username := "bob" } }, Version := 1 }

/-- PING{client_ts: 5}. -/
def pingFrame : protocol.Envelope protocol.InBody :=
  { Typ := protocol.MsgPing, Seq := 0,
    Body := { noBody with asPing := some { ClientTs := 5 } }, Version := 1 }

/-- The server after connection 1 has logged in (player id "p1") and has then
sent a PING. -/
def afterLoginAndPing : netws.Server :=
  netws.Server.handleMessage lib authMgr
    (netws.Server.handleMessage lib authMgr server0 1 (some loginFrame) 0 "u1" "p1")
    1 (some pingFrame) 1000000 "u2" "p2"

end scenario

namespace matcher

/-- What the matchmaker loop does, in order: an id read from the enqueue
channel is discarded (already in `enqueuedAt`) or stamped and appended to the
queue; `IsOnline(pid)` is called and answers `online` (on `false` the id is
deleted from `enqueuedAt`); a room is created for `players`, each of which is
then given the room and sent MATCH_RESP. -/
inductive Step
  | discarded (pid : String)
  | appended (pid : String)
  | checked (pid : String) (online : Bool)
  | room (players : List String)
deriving DecidableEq

/-- The session manager as the matchmaker sees it: the answer of `IsOnline`
may depend on everything that happened before the call. -/
abbrev Oracle := List Step → String → Bool

/-- The locals of the inner loop that selects a batch. -/
structure Batch where
  queue : List String
  players : List String
  enqueuedAt : List String
  log : List Step

/-- The loop `for len(queue) > 0 && len(players) < playersPerRoom`. -/
def scan (playersPerRoom : Int) (online : Oracle) :
    List String → List String → List String → List Step → Batch
  | [], players, enq, log => { queue := [], players := players, enqueuedAt := enq, log := log }
  | p :: queue, players, enq, log =>
    if (players.length : Int) < playersPerRoom then
      if online log p then
        scan playersPerRoom online queue (players ++ [p]) enq (log ++ [.checked p true])
      else
        scan playersPerRoom online queue players (enq.filter (fun q => decide (q ≠ p)))
          (log ++ [.checked p false])
    else { queue := p :: queue, players := players, enqueuedAt := enq, log := log }

/-- State of the matchmaker loop: the keys of the map `enqueuedAt` (its time
values only feed the match-duration metric), the local `queue`, what has been
done so far, and whether the loop has stopped making progress (the batch loop
was cut off by lack of fuel, or the goroutine panicked). -/
structure Matcher where
  enqueuedAt : List String
  queue : List String
  log : List Step
  stuck : Bool

/-- The loop `for len(queue) >= playersPerRoom`, run for at most `fuel`
iterations. -/
def formBatches (playersPerRoom : Int) (online : Oracle) :
    Nat → List String → List String → List Step → Matcher
  | 0, queue, enq, log =>
    { enqueuedAt := enq, queue := queue, log := log,
      stuck := decide ((queue.length : Int) ≥ playersPerRoom) }
  | fuel + 1, queue, enq, log =>
    if (queue.length : Int) ≥ playersPerRoom then
      let b := scan playersPerRoom online queue [] enq log
      if (b.players.length : Int) < playersPerRoom then
        { enqueuedAt := b.enqueuedAt, queue := b.players ++ b.queue, log := b.log, stuck := false }
      else
        formBatches playersPerRoom online fuel b.queue
          (b.players.foldl (fun enq p => enq.filter (fun q => decide (q ≠ p))) b.enqueuedAt)
          (b.log ++ [.room b.players])
    else { enqueuedAt := enq, queue := queue, log := log, stuck := false }

/-- One iteration of `for pid := range m.enqueueCh`. -/
def consume (playersPerRoom : Int) (online : Oracle) (fuel : Nat) (m : Matcher) (pid : String) :
    Matcher :=
  if m.stuck then m
  else if pid ∈ m.enqueuedAt then { m with log := m.log ++ [.discarded pid] }
  else
    formBatches playersPerRoom online fuel (m.queue ++ [pid]) (m.enqueuedAt ++ [pid])
      (m.log ++ [.appended pid])

/-- The matchmaker loop on the ids it reads from the enqueue channel, each of
which was accepted by `Enqueue`.  With a negative `playersPerRoom` the first
statement, `make([]string, 0, playersPerRoom*2)`, panics and no id is read. -/
def loop (playersPerRoom : Int) (online : Oracle) (fuel : Nat) (ids : List String) : Matcher :=
  if playersPerRoom < 0 then { enqueuedAt := [], queue := [], log := [], stuck := true }
  else
    ids.foldl (consume playersPerRoom online fuel)
      { enqueuedAt := [], queue := [], log := [], stuck := false }

/-- In the history `log` the id `p` is pending: it was appended to the queue
and has since been neither evicted (found offline) nor placed in a room. -/
def Pending (p : String) (log : List Step) : Prop :=
  ∃ l1 l2, log = l1 ++ Step.appended p :: l2 ∧ Step.checked p false ∉ l2 ∧
    ∀ ps, Step.room ps ∈ l2 → p ∉ ps

/-- The history `log` ends with a run of `IsOnline` calls in which `IsOnline p`
was called and the session manager answered true. -/
def Scanned (online : Oracle) (p : String) (log : List Step) : Prop :=
  ∃ l3 l4, log = l3 ++ Step.checked p true :: l4 ∧ online l3 p = true ∧
    ∀ e ∈ l4, ∃ q b, e = Step.checked q b

/-- Every room of the history was made of ids that were pending and had just
been found online. -/
def RoomsJustified (online : Oracle) (log : List Step) : Prop :=
  ∀ pre ps post, log = pre ++ Step.room ps :: post →
    ∀ p ∈ ps, Pending p pre ∧ Scanned online p pre

end matcher

namespace matcher

/-- Invariant of the batch selection, for ids accepted from the list `A`: the
ids selected so far and the ids still queued are distinct, all of them are in
`enqueuedAt` and pending, the selected ones were just found online, every room
made so far is justified, and only ids of `A` were ever appended. -/
def ScanInv (online : Oracle) (A queue players enq : List String) (log : List Step) : Prop :=
  RoomsJustified online log ∧ (players ++ queue).Nodup ∧
    (∀ p ∈ queue, p ∈ enq ∧ Pending p log) ∧
    (∀ p ∈ players, p ∈ enq ∧ Pending p log ∧ Scanned online p log) ∧
    (∀ p, Step.appended p ∈ log → p ∈ A)

/-- Invariant of the matchmaker loop between two batch selections. -/
def LoopInv (online : Oracle) (A : List String) (m : Matcher) : Prop :=
  ScanInv online A m.queue [] m.enqueuedAt m.log

end matcher

namespace store

/-- A call on the in-memory store: `SetIfNotExists(key, ttl)` or a pass of
`cleanupLoop`, at the clock reading `now`. -/
inductive Call
  | set (key : String) (now ttl : Int)
  | sweep (now : Int)
deriving DecidableEq

def Call.time : Call → Int
  | .set _ now _ => now
  | .sweep now => now

/-- Makes the calls in order; lists what every `SetIfNotExists` returned (flag
and error), `none` for a sweep. -/
def MemoryIdem.calls (m : MemoryIdem) : List Call → MemoryIdem × List (Option (Bool × Option String))
  | [] => (m, [])
  | .set key now ttl :: rest =>
    let r := m.SetIfNotExists now key ttl
    let out := MemoryIdem.calls r.1 rest
    (out.1, some r.2 :: out.2)
  | .sweep now :: rest =>
    let out := MemoryIdem.calls (m.cleanup now) rest
    (out.1, none :: out.2)

end store

namespace netws

/-- `AllowMessage(limit)` called at each of the clock readings in turn; lists
the answers. -/
def Client.allowAll (c : Client) (limit : Int) : List Int → Client × List Bool
  | [] => (c, [])
  | t :: ts =>
    let r := c.AllowMessage t limit
    let out := Client.allowAll r.1 limit ts
    (out.1, r.2 :: out.2)

end netws

namespace netws

/-- An operation on the outbound queue of a connection: a call of `Send`, or
the write loop receiving the oldest queued message to write it on the
socket. -/
inductive QueueOp
  | send (data : protocol.Frame)
  | recv
deriving DecidableEq

/-- What a sequence of queue operations leaves: the connection, the metrics,
the error returned by each `Send`, the data of the sends that returned no
error, and the messages written on the socket, each list in order. -/
structure QueueRun where
  client : Client
  metrics : Option metrics.Metrics
  results : List (Option Err)
  accepted : List protocol.Frame
  written : List protocol.Frame

/-- Runs the queue operations in order.  A receive on an empty queue blocks
and is skipped. -/
def Client.queueOps (L : protocol.Lib) (c : Client) (m : Option metrics.Metrics) :
    List QueueOp → QueueRun
  | [] => { client := c, metrics := m, results := [], accepted := [], written := [] }
  | .send data :: rest =>
    let r := c.Send L m data
    let out := Client.queueOps L r.1 r.2.1 rest
    { out with
      results := r.2.2 :: out.results,
      accepted := if r.2.2 = none then data :: out.accepted else out.accepted }
  | .recv :: rest =>
    match c.send with
    | [] => Client.queueOps L c m rest
    | d :: queue =>
      let out := Client.queueOps L { c with send := queue } m rest
      { out with written := d :: out.written }

/-- The data of the `Send` calls of a sequence of queue operations. -/
def sentData : List QueueOp → List protocol.Frame
  | [] => []
  | .send data :: rest => data :: sentData rest
  | .recv :: rest => sentData rest

end netws

namespace netws

/-- The rate window of a connection: its start and its counter. -/
def Client.window (c : Client) : Int × Int := (c.winStart, c.winCount)

/-- Two servers have the same rate limit and the same connections with the
same rate windows. -/
def Server.SameWindows (w w' : Server) : Prop :=
  w'.MaxMsgPerSecond = w.MaxMsgPerSecond ∧
    ∀ k, (gomap.get k w'.clients).map Client.window = (gomap.get k w.clients).map Client.window

/-- An inbound frame as `handleMessage` gets it: the result of decoding it,
the clock reading, and the results of the calls of `uuid.NewString` that the
handler may make. -/
structure Inbound where
  data : Option (protocol.Envelope protocol.InBody)
  now : Int
  uuidName : String
  uuidPlayer : String

/-- `handleMessage` for consecutive inbound frames of the connection `cid`. -/
def Server.handleAll (L : protocol.Lib) (A : auth.Manager) (w : Server) (cid : Nat) :
    List Inbound → Server
  | [] => w
  | msg :: rest =>
    Server.handleAll L A (w.handleMessage L A cid msg.data msg.now msg.uuidName msg.uuidPlayer)
      cid rest

end netws

namespace netws

/-- The server right after the rate check of `handleMessage` on the
connection `cid` at clock reading `now`: the call of `AllowMessage` has
updated the rate window of that connection. -/
def Server.rateChecked (w : Server) (cid : Nat) (now : Int) : Server :=
  { w with
    clients := gomap.modify cid (fun c => (c.AllowMessage now w.MaxMsgPerSecond).1) w.clients }

end netws

namespace scenario

/-- MATCH_REQ with an empty body. -/
def matchFrame : protocol.Envelope protocol.InBody :=
  { Typ := protocol.MsgMatchReq, Seq := 0, Body := noBody, Version := 1 }

/-- An envelope whose type, 99, is outside the enumeration of message types. -/
def unknownFrame : protocol.Envelope protocol.InBody :=
  { Typ := 99, Seq := 0, Body := noBody, Version := 1 }

end scenario

namespace scenario

/-- The server after connection 1 has logged in as player "p1". -/
def afterLogin : netws.Server :=
  netws.Server.handleMessage lib authMgr server0 1 (some loginFrame) 0 "u1" "p1"

/-- Connection 1 after its login: the LOGIN_RESP is queued. -/
def loggedInClient : netws.Client :=
  { playerID := "p1",
    send := [{ Typ := protocol.MsgLoginResp, Seq := 1,
               Body := some (.loginResp { PlayerId := "p1", AccessToken := "access",
                                          ReconnectToken := "reconnect" }),
               Version := 1 }],
    sendCap := 256, sendClosed := false, connClosed := false, winStart := 0, winCount := 1 }

end scenario

namespace scenario

/-- A PING arriving at clock reading `now`. -/
def pingAt (now : Int) : netws.Inbound :=
  { data := some pingFrame, now := now, uuidName := "u", uuidPlayer := "p" }

/-- Sixty PINGs on the connection created at time 0: thirty at 950 ms, thirty
at 1000 ms. -/
def burst : List netws.Inbound :=
  List.replicate 30 (pingAt 950000000) ++ List.replicate 30 (pingAt 1000000000)

/-- The server after the burst and a 61st PING at 1000 ms. -/
def afterBurst : netws.Server :=
  netws.Server.handleMessage lib authMgr (netws.Server.handleAll lib authMgr server0 1 burst) 1
    (some pingFrame) 1000000000 "u" "p"

end scenario

namespace matcher

/-- The calls of `IsOnline` in a history with their answers, in order. -/
def answers : List Step → List (String × Bool)
  | [] => []
  | .checked p b :: rest => (p, b) :: answers rest
  | _ :: rest => answers rest

/-- The player lists of the rooms created in a history, in order. -/
def roomsOf : List Step → List (List String)
  | [] => []
  | .room ps :: rest => ps :: roomsOf rest
  | _ :: rest => roomsOf rest

/-- The ids that were answered online, in the order of the calls. -/
def onlineIds (sc : List (String × Bool)) : List String :=
  (sc.filter (fun x => x.2)).map Prod.fst

/-- The steps of a run of `IsOnline` calls. -/
def checks (sc : List (String × Bool)) : List Step :=
  sc.map (fun x => Step.checked x.1 x.2)

/-- Every `IsOnline` call among the steps `new`, which follow the history
`log`, got the answer the session manager gives at the time of the call. -/
def Answered (online : Oracle) (log new : List Step) : Prop :=
  ∀ pre p b post, new = pre ++ Step.checked p b :: post → b = online (log ++ pre) p

end matcher

namespace scenario

/-- A matchmaker between two passes with a and b pending. -/
def pendingAB : matcher.Matcher :=
  { enqueuedAt := ["a", "b"], queue := ["a", "b"], log := [], stuck := false }

/-- The session manager answers that every player but b is online. -/
def offlineB : matcher.Oracle := fun _ p => decide (p ≠ "b")

end scenario

namespace netws

/-- The beginning of `ServeHTTP`: the upgraded socket becomes the connection
with the fresh handle `cid`, made by `NewClient` at clock reading `now`. -/
def Server.accept (w : Server) (cid : Nat) (sendQueue : Nat) (now : Int) : Server :=
  { w with clients := gomap.put cid (NewClient sendQueue now) w.clients }

/-- The end of `ServeHTTP`, run when `ReadLoop` returns because the socket of
connection `cid` is closed, at clock reading `now`: `CloseSend`, `Close`, then
for a connection with a player id a Leave event for the room of its session,
and `MarkOffline`. -/
def Server.socketClosed (w : Server) (cid : Nat) (now : Int) : Server :=
  match gomap.get cid w.clients with
  | none => w
  | some c =>
    let w1 := { w with clients := gomap.modify cid (fun c => c.CloseSend.Close) w.clients }
    let pid := c.PlayerID
    if pid ≠ "" then
      let w2 :=
        match w1.sessions.Get pid with
        | none => w1
        | some sess =>
          let roomID := sess.GetRoomID
          if roomID ≠ "" then
            w1.roomsSendEvent roomID
              { Typ := .EventLeave, PlayerID := pid, Input := none, Skill := none }
          else w1
      { w2 with sessions := w2.sessions.MarkOffline pid now }
    else w1

/-- `Manager.CreateRoom`; `roomID` is the result of `uuid.NewString`. -/
def Server.CreateRoom (w : Server) (roomID matchID : String) (players : List String) : Server :=
  { w with rooms := gomap.put roomID (room.NewRoom roomID matchID players) w.rooms }

/-- The loop of the matchmaker over the players of a room it has created:
`SetRoom`, then MATCH_RESP through the session. -/
def Server.announceMatch (L : protocol.Lib) (w : Server) (roomID matchID : String)
    (players : List String) : Server :=
  players.foldl
    (fun w p =>
      (Server.sessionsSend L { w with sessions := w.sessions.SetRoom p roomID } p
        protocol.MsgMatchResp
        (.matchResp { MatchId := matchID, RoomId := roomID, Players := players })).1)
    w

/-- The calls a room makes on its sender, which is the session manager. -/
def Server.deliver (L : protocol.Lib) (w : Server) (sent : List room.Sent) : Server :=
  sent.foldl (fun w s => (w.sessionsSend L s.playerID s.msgType s.msg).1) w

/-- `Manager.closeRoom` with the callback given to `NewManager` by the
application: the room is removed from the registry and every player of it
gets the empty room id. -/
def Server.closeRoom (w : Server) (roomID : String) (players : List String) : Server :=
  { w with
    rooms := gomap.delete roomID w.rooms,
    sessions := players.foldl (fun m pid => m.SetRoom pid "") w.sessions }

/-- The loop of the room `roomID` of the registry, driven by the `select`
cases `sels`: the sender calls reach the sessions, and a loop that returns
runs the deferred `closeRoom`. -/
def Server.roomRun {σ : Type} (L : protocol.Lib) (I : store.Idempotency σ) (w : Server) (st : σ)
    (roomID : String) (sels : List room.Select) : Server × σ :=
  match gomap.get roomID w.rooms with
  | none => (w, st)
  | some r =>
    let res := r.loop I st sels
    let w1 := { w with rooms := gomap.modify roomID (fun _ => res.room) w.rooms }
    let w2 := w1.deliver L res.sent
    if res.returned then (w2.closeRoom roomID res.room.players, res.idem) else (w2, res.idem)

end netws

namespace scenario

/-- A token service whose reconnect token for a player is "reconnect-" followed
by the player id; the tokens of p1 and p2 parse. -/
def authTokens : auth.Manager :=
  { GenerateAccessToken := fun _ _ _ _ => "access",
    GenerateReconnectToken := fun playerID _ _ => "reconnect-" ++ playerID,
    ParseReconnectToken := fun token _ =>
      if token = "reconnect-p1" then some "p1"
      else if token = "reconnect-p2" then some "p2"
      else none }

/-- LOGIN_REQ{username: "amy"}. -/
def loginAmy : protocol.Envelope protocol.InBody :=
  { Typ := protocol.MsgLoginReq, Seq := 0,
    Body := { noBody with asLoginReq := some { Username := "amy" } }, Version := 1 }

/-- RECONNECT_REQ with the reconnect token of p1. -/
def reconnectFrame : protocol.Envelope protocol.InBody :=
  { Typ := protocol.MsgReconnectReq, Seq := 0,
    Body := { noBody with asReconnectReq := some { ReconnectToken := "reconnect-p1" } },
    Version := 1 }

/-- Two connections log in as p1 and p2, the matchmaker puts them in the room
R of match M, and the room ticks twice. -/
def inRoom : netws.Server × store.MemoryIdem :=
  let w1 := netws.Server.handleMessage lib authTokens
    (server0.accept 2 256 0) 1 (some loginFrame) 0 "u1" "p1"
  let w2 := netws.Server.handleMessage lib authTokens w1 2 (some loginAmy) 0 "u2" "p2"
  let w3 := (w2.CreateRoom "R" "M" ["p1", "p2"]).announceMatch lib "R" "M" ["p1", "p2"]
  w3.roomRun lib store.memoryIdem store.NewMemoryIdem "R"
    [.tick 50000000, .tick 100000000]

/-- The socket of p1 closes 120 ms after the start; the room receives the
resulting event and ticks once more. -/
def afterDrop : netws.Server × store.MemoryIdem :=
  (inRoom.1.socketClosed 1 120000000).roomRun lib store.memoryIdem inRoom.2 "R"
    [.event, .tick 150000000]

/-- One second after the start p1 opens a second socket, connection 3, and
sends RECONNECT_REQ with its reconnect token. -/
def afterReconnect : netws.Server :=
  netws.Server.handleMessage lib authTokens (afterDrop.1.accept 3 256 1000000000) 3
    (some reconnectFrame) 1000000000 "u3" "p3"

end scenario

namespace room

end room

namespace scenario

end scenario

namespace battle

/-- The number of `TickForward` calls among the operations. -/
def ticks : List Op → Nat
  | [] => 0
  | .tick :: rest => ticks rest + 1
  | _ :: rest => ticks rest

end battle

namespace auth

/-- The registered claims the token service fills, with the `username` of
`AccessClaims` (`none` in `ReconnectClaims`); dates are clock readings in
nanoseconds, `none` for a nil date. -/
structure Claims where
  Username : Option String
  Subject : String
  ExpiresAt : Option Int
  IssuedAt : Option Int
deriving DecidableEq

/-- The JWT library with the signing method HS256, as far as it depends on
the key: `SignedString` gives the token (`none` for an error); `verify` parses
a token and checks its signature with the key, and gives the claims of a well
formed token whose signature verifies. -/
structure JWT where
  SignedString : (key : String) → Claims → Option String
  verify : (key : String) → (token : String) → Option Claims

/-- `jwt.NewNumericDate`: the time truncated to the second. -/
def NewNumericDate (t : Int) : Int := t / 1000000000 * 1000000000

def sign (J : JWT) (secret : String) (claims : Claims) : Option String :=
  J.SignedString secret claims

/-- The claims made by `GenerateReconnectToken` at clock reading `now`. -/
def reconnectClaims (playerID : String) (ttl now : Int) : Claims :=
  { Username := none, Subject := playerID,
    ExpiresAt := some (NewNumericDate (now + ttl)), IssuedAt := some (NewNumericDate now) }

def GenerateAccessToken (J : JWT) (secret playerID username : String) (ttl now : Int) :
    Option String :=
  sign J secret
    { Username := some username, Subject := playerID,
      ExpiresAt := some (NewNumericDate (now + ttl)), IssuedAt := some (NewNumericDate now) }

def GenerateReconnectToken (J : JWT) (secret playerID : String) (ttl now : Int) : Option String :=
  sign J secret (reconnectClaims playerID ttl now)

/-- `jwt.ParseWithClaims` with the key function of the service, which returns
the secret, and the default validator, at clock reading `now`: the signature
must verify, and a token with an expiry date is valid only while the clock
reads before it.  `none` is an error. -/
def ParseWithClaims (J : JWT) (key token : String) (now : Int) : Option Claims :=
  match J.verify key token with
  | none => none
  | some claims =>
    match claims.ExpiresAt with
    | none => some claims
    | some exp => if now < exp then some claims else none

def ParseReconnectToken (J : JWT) (secret token : String) (now : Int) : Option String :=
  match ParseWithClaims J secret token now with
  | none => none
  | some claims => some claims.Subject

/-- `NewManager(secret)` as the dispatcher uses it: it ignores the error of
the generators, which leaves the empty token. -/
def NewManager (J : JWT) (secret : String) : Manager :=
  { GenerateAccessToken := fun playerID username ttl now =>
      (GenerateAccessToken J secret playerID username ttl now).getD "",
    GenerateReconnectToken := fun playerID ttl now =>
      (GenerateReconnectToken J secret playerID ttl now).getD "",
    ParseReconnectToken := fun token now => ParseReconnectToken J secret token now }

end auth

namespace scenario

/-- While connection 1 of p1 is still open in the room R, p1 opens connection
3 at 200 ms and sends RECONNECT_REQ with its reconnect token on it. -/
def rebound : netws.Server :=
  netws.Server.handleMessage lib authTokens (inRoom.1.accept 3 256 200000000) 3
    (some reconnectFrame) 200000000 "u3" "p3"

/-- The read loop of connection 1, closed by the rebind, returns at 210 ms and
the socket-closure handling of connection 1 runs. -/
def afterSuperseded : netws.Server := rebound.socketClosed 1 210000000

end scenario

/-! ## Coordinates with the special values of floating point

The battle functions once more, on coordinates that may be not-a-number or
infinite, as a `float32` decoded from the wire may be.  Finite values stay
exact. -/

namespace battle.ieee

/-- A `float32` or `float64` value: not-a-number, an infinity, or a finite
value. -/
inductive Float
  | nan
  | negInf
  | fin (v : ℚ)
  | posInf
deriving DecidableEq

/-- The comparison `a < b`, false as soon as an operand is not-a-number. -/
def Float.lt : Float → Float → Bool
  | .nan, _ => false
  | _, .nan => false
  | .negInf, .negInf => false
  | .negInf, _ => true
  | .fin _, .negInf => false
  | .fin a, .fin b => decide (a < b)
  | .fin _, .posInf => true
  | .posInf, _ => false

def Float.neg : Float → Float
  | .nan => .nan
  | .negInf => .posInf
  | .fin v => .fin (-v)
  | .posInf => .negInf

def Float.add : Float → Float → Float
  | .nan, _ => .nan
  | _, .nan => .nan
  | .posInf, .negInf => .nan
  | .negInf, .posInf => .nan
  | .posInf, _ => .posInf
  | _, .posInf => .posInf
  | .negInf, _ => .negInf
  | _, .negInf => .negInf
  | .fin a, .fin b => .fin (a + b)

def Float.sub (a b : Float) : Float := a.add b.neg

/-- The product; an infinity times zero is not-a-number. -/
def Float.mul : Float → Float → Float
  | .nan, _ => .nan
  | _, .nan => .nan
  | .fin a, .fin b => .fin (a * b)
  | .fin a, .posInf => if a = 0 then .nan else if 0 < a then .posInf else .negInf
  | .fin a, .negInf => if a = 0 then .nan else if 0 < a then .negInf else .posInf
  | .posInf, .fin b => if b = 0 then .nan else if 0 < b then .posInf else .negInf
  | .negInf, .fin b => if b = 0 then .nan else if 0 < b then .negInf else .posInf
  | .posInf, .posInf => .posInf
  | .negInf, .negInf => .posInf
  | .posInf, .negInf => .negInf
  | .negInf, .posInf => .negInf

/-- A finite number inside the arena. -/
def Float.inArena : Float → Bool
  | .fin v => decide (arenaMin ≤ v ∧ v ≤ arenaMax)
  | _ => false

structure PlayerInput where
  Dx : Float
  Dy : Float
deriving DecidableEq

structure PlayerState where
  ID : String
  X : Float
  Y : Float
  HP : Int
  SkillCD : Int
deriving DecidableEq

structure State where
  Players : List (String × PlayerState)
  Tick : Int
deriving DecidableEq

def newStateLoop : List String → Nat → List (String × PlayerState) →
    List (String × PlayerState)
  | [], _, players => players
  | id :: rest, i, players =>
    newStateLoop rest (i + 1)
      (gomap.put id
        { ID := id, X := .fin (-50 + (i : ℚ) * 100), Y := .fin 0, HP := defaultHP, SkillCD := 0 }
        players)

def NewState (playerIDs : List String) : State :=
  { Players := newStateLoop playerIDs 0 [], Tick := 0 }

def clampFloat32 (v min max : Float) : Float :=
  if v.lt min then min else if max.lt v then max else v

def ApplyInput (s : State) (playerID : String) (input : Option PlayerInput) : State :=
  match gomap.get playerID s.Players, input with
  | some p, some inp =>
    if p.HP ≤ 0 then s
    else
      let dx := clampFloat32 inp.Dx (.fin (-maxMovePerTick)) (.fin maxMovePerTick)
      let dy := clampFloat32 inp.Dy (.fin (-maxMovePerTick)) (.fin maxMovePerTick)
      { s with
        Players := gomap.modify playerID
          (fun q => { q with
            X := clampFloat32 (q.X.add dx) (.fin arenaMin) (.fin arenaMax),
            Y := clampFloat32 (q.Y.add dy) (.fin arenaMin) (.fin arenaMax) })
          s.Players }
  | _, _ => s

/-- The radicand of `distance`: `dx*dx + dy*dy`. -/
def distanceSq (x1 y1 x2 y2 : Float) : Float :=
  let dx := x1.sub x2
  let dy := y1.sub y2
  (dx.mul dx).add (dy.mul dy)

/-- The test `distance(x1, y1, x2, y2) > skillRange`, on the squares: the
square root is monotone and keeps not-a-number and the positive infinity. -/
def outOfRange (x1 y1 x2 y2 : Float) : Bool :=
  Float.lt (.fin (skillRange * skillRange)) (distanceSq x1 y1 x2 y2)

def ApplySkill (s : State) (casterID : String) (skill : Option protocol.SkillCast) : State :=
  match gomap.get casterID s.Players, skill with
  | some caster, some sk =>
    if caster.HP ≤ 0 then s
    else if caster.SkillCD > 0 then s
    else if sk.TargetId = "" ∨ sk.TargetId = casterID then s
    else
      match gomap.get sk.TargetId s.Players with
      | none => s
      | some target =>
        if target.HP ≤ 0 then s
        else if outOfRange caster.X caster.Y target.X target.Y then s
        else
          let hit := gomap.modify sk.TargetId
            (fun t => { t with
              HP := if t.HP - skillDamage < 0 then 0 else t.HP - skillDamage })
            s.Players
          { s with
            Players := gomap.modify casterID
              (fun c => { c with SkillCD := skillCooldown }) hit }
  | _, _ => s

end battle.ieee

namespace scenario

/-- The battle of p1 and p2 after p1 has sent PLAYER_INPUT with dx not a
number and dy 0. -/
def afterNaN : battle.ieee.State :=
  battle.ieee.ApplyInput (battle.ieee.NewState ["p1", "p2"]) "p1"
    (some { Dx := .nan, Dy := .fin 0 })

end scenario

namespace room

/-- What happens to a room while its loop runs: some goroutine calls
`SendEvent`, or a case of the `select` in the loop fires. -/
inductive Step
  | send (ev : Event)
  | select (c : Select)

/-- The room loop together with the `SendEvent` calls made while it runs.
Once the loop has returned nothing is handled any more. -/
def Room.run {σ : Type} (I : store.Idempotency σ) : Room → σ → List Step → LoopResult σ
  | r, st, [] => { room := r, idem := st, sent := [], settlements := 0, returned := false }
  | r, st, .send ev :: rest => Room.run I (r.SendEvent ev) st rest
  | r, st, .select c :: rest =>
    let one := r.loop I st [c]
    if one.returned then one
    else
      let res := Room.run I one.room one.idem rest
      { res with sent := one.sent ++ res.sent, settlements := one.settlements + res.settlements }

end room

namespace netws

/-- The first statement of the end of `ServeHTTP`, `client.CloseSend()`, on
its own: the outbound channel of connection `cid` is closed while the session
still has the connection as its sender. -/
def Server.closeSend (w : Server) (cid : Nat) : Server :=
  { w with clients := gomap.modify cid (fun c => c.CloseSend) w.clients }

end netws

namespace scenario

/-- In the room R that has ticked twice, the socket of p1 closes and the end of
`ServeHTTP` has run `CloseSend` on connection 1, not yet `MarkOffline`. -/
def closing : netws.Server := inRoom.1.closeSend 1

/-- The snapshot the room R broadcasts at its third tick. -/
def thirdSnapshot : protocol.Message :=
  .roomSnapshot (battle.Snapshot (battle.run ["p1", "p2"] [.tick, .tick, .tick]) "R")

end scenario

/-! ## Sends of several goroutines on one session

`Session.Send` above is a call that runs alone.  The room loops, the matchmaker
and the read loops call it on one session at the same time, and it holds no
lock between reading the sender, drawing the seq and calling the sender; here
these are separate steps that interleave. -/

namespace session

/-- A call of `Send` between two of its steps: it has read the sender under the
read lock and passed the online check, or it has also drawn its seq and encoded
the envelope. -/
inductive InFlight
  | checked (sender : Nat) (msgType : Int) (msg : Option protocol.Message)
  | encoded (sender : Nat) (payload : protocol.Frame)
deriving DecidableEq

/-- A step of some goroutine on the session.  `start` is the read of `sender`
and `Online` under the read lock, with the return of "session offline" when
the check fails; `draw` is `atomic.AddUint64(&s.seq, 1)` followed by `Encode`,
with the return of its error; `handoff` is the call `sender.Send(payload)`.
`call` names the call of `Send` the step belongs to. -/
inductive Step
  | start (call : Nat) (msgType : Int) (msg : Option protocol.Message)
  | draw (call : Nat)
  | handoff (call : Nat)
  | setSender (sender : Option Nat) (now : Int)
  | clearSender (now : Int)

/-- The session with the calls of `Send` in flight, the seq values drawn so far
and the envelopes handed to a sender so far, each list in order. -/
structure Run where
  session : Session
  inflight : Nat → Option InFlight
  drawn : List Nat
  handed : List (Nat × protocol.Frame)

def Run.init (s : Session) : Run :=
  { session := s, inflight := fun _ => none, drawn := [], handed := [] }

/-- One step.  A step that its call cannot take (the call is not in flight, or
not at that point) changes nothing. -/
def Run.step (L : protocol.Lib) (r : Run) : Step → Run
  | .start call msgType msg =>
    match r.inflight call with
    | some _ => r
    | none =>
      match r.session.Online, r.session.sender with
      | true, some c =>
        { r with inflight := fun k => if k = call then some (.checked c msgType msg)
                                      else r.inflight k }
      | _, _ => r
  | .draw call =>
    match r.inflight call with
    | some (.checked c msgType msg) =>
      let seq := (r.session.seq + 1) % 2 ^ 64
      { r with
        session := { r.session with seq := seq },
        drawn := r.drawn ++ [seq],
        inflight := fun k =>
          if k = call then (protocol.Encode L msgType msg seq).map (fun p => .encoded c p)
          else r.inflight k }
    | _ => r
  | .handoff call =>
    match r.inflight call with
    | some (.encoded c payload) =>
      { r with
        inflight := fun k => if k = call then none else r.inflight k,
        handed := r.handed ++ [(c, payload)] }
    | _ => r
  | .setSender sender now => { r with session := (r.session.SetSender sender now).1 }
  | .clearSender now => { r with session := r.session.ClearSender now }

def Run.steps (L : protocol.Lib) (r : Run) (l : List Step) : Run := l.foldl (Run.step L) r

/-- The seq values of the envelopes handed to a sender, in the order of the
hand-offs. -/
def Run.handedSeqs (r : Run) : List Nat := r.handed.map (fun x => x.2.Seq)

end session

namespace scenario

/-- The session of p1 after its login on connection 1: the LOGIN_RESP has
taken seq 1. -/
def freshSession : session.Session :=
  { PlayerID := "p1", Username := "bob", RoomID := "", ReconnectToken := "reconnect",
    Online := true, LastSeen := 0, sender := some 1, seq := 1 }

/-- Two goroutines send on the session at once: the matchmaker sends
MATCH_RESP (call 1) and the read loop sends ERROR_RESP 429 (call 2).  Call 1
draws its seq first, call 2 draws and reaches the connection first. -/
def racingSends : List session.Step :=
  [.start 1 protocol.MsgMatchResp
      (some (.matchResp { MatchId := "M", RoomId := "R", Players := ["p1", "p2"] })),
    .start 2 protocol.MsgErrorResp
      (some (.errorResp { Code := 429, Message := "match queue full" })),
    .draw 1, .draw 2, .handoff 2, .handoff 1]

end scenario

namespace session

/-- Invariant of the runs that start from a session whose counter is `a`: the
counter has advanced by the number of draws, the seq values drawn are the
consecutive values after `a`, every envelope encoded or handed over carries a
seq that was drawn, and below the wrap-around of the counter no two of them
carry the same seq. -/
def Run.Inv (a : Nat) (r : Run) : Prop :=
  r.session.seq = (if r.drawn.length = 0 then a else (a + r.drawn.length) % 2 ^ 64) ∧
  r.drawn = (List.range r.drawn.length).map (fun i => (a + i + 1) % 2 ^ 64) ∧
  (∀ x ∈ r.handed, x.2.Seq ∈ r.drawn) ∧
  (∀ call c p, r.inflight call = some (.encoded c p) → p.Seq ∈ r.drawn) ∧
  (a + r.drawn.length < 2 ^ 64 →
    r.handedSeqs.Nodup ∧
    (∀ call c p, r.inflight call = some (.encoded c p) → p.Seq ∉ r.handedSeqs) ∧
    (∀ call1 call2 c1 p1 c2 p2, call1 ≠ call2 →
      r.inflight call1 = some (.encoded c1 p1) → r.inflight call2 = some (.encoded c2 p2) →
      p1.Seq ≠ p2.Seq))

end session

/-! ## Coordinates with the rounding of floating point

The battle functions once more, with every `float32` and `float64` operation
rounded to the nearest value of its format, ties to even.  Values stay finite
and the range of the exponent is not bounded: inside the arena no operation
overflows, and the sum or difference of two `float32` values and the product
of two widened `float32` values never round in the subnormal range. -/

namespace battle.fp

/-- The number of binary digits of `n`, for `n` below `2 ^ fuel`. -/
def bitsLoop : Nat → Nat → Nat
  | 0, _ => 0
  | fuel + 1, n => if n = 0 then 0 else bitsLoop fuel (n / 2) + 1

/-- The position of the leading binary digit. -/
def log2 (n : Nat) : Nat := bitsLoop 4096 n - 1

/-- The power `2 ^ z` for an integer `z`. -/
def pow2 (z : Int) : ℚ :=
  if 0 ≤ z then ((2 ^ z.toNat : Nat) : ℚ) else 1 / ((2 ^ (-z).toNat : Nat) : ℚ)

/-- The binary exponent of a value other than zero: the `e` with
`2 ^ e ≤ |q| < 2 ^ (e + 1)`. -/
def exponent (q : ℚ) : Int :=
  let e : Int := (log2 q.num.natAbs : Int) - (log2 q.den : Int)
  if pow2 e ≤ |q| then e else e - 1

/-- The value nearest to `q` with a significand of `p` binary digits, ties to
the even significand: `p = 24` is `float32`, `p = 53` is `float64`. -/
def round (p : Nat) (q : ℚ) : ℚ :=
  if q = 0 then 0
  else
    let ulp := pow2 (exponent q - ((p : Int) - 1))
    let k := |q| / ulp
    let f := k.floor
    let n : Int :=
      if k - f < 1 / 2 then f
      else if 1 / 2 < k - f then f + 1
      else if f % 2 = 0 then f else f + 1
    (if q < 0 then -1 else 1) * n * ulp

/-- The loop of the integer square root, one binary digit at a time. -/
def isqrtLoop (n : Nat) : Nat → Nat → Nat
  | 0, res => res
  | i + 1, res =>
    if (res + 2 ^ i) * (res + 2 ^ i) ≤ n then isqrtLoop n i (res + 2 ^ i) else isqrtLoop n i res

/-- The integer part of the square root. -/
def isqrt (n : Nat) : Nat := isqrtLoop n (log2 n / 2 + 1) 0

/-- `math.Sqrt` on a `float64` that is not negative: the square root rounded
to `float64`.  The root is taken to more than 63 binary digits, with half a
unit added when it is not exact, which rounds as the root itself does. -/
def sqrt64 (r : ℚ) : ℚ :=
  if r ≤ 0 then 0
  else
    let k : Nat := 64 + log2 r.den
    let scaled : ℚ := r * ((4 ^ k : Nat) : ℚ)
    let n : Nat := scaled.floor.toNat
    let s : Nat := isqrt n
    let sticky : ℚ := if s * s = n ∧ scaled = (n : ℚ) then 0 else 1 / 2
    round 53 (((s : ℚ) + sticky) / ((2 ^ k : Nat) : ℚ))

/-- `distance`: the differences are `float32` differences, widened to
`float64`; the squares, their sum and the root are `float64` operations. -/
def distance (x1 y1 x2 y2 : ℚ) : ℚ :=
  let dx := round 24 (x1 - x2)
  let dy := round 24 (y1 - y2)
  sqrt64 (round 53 (round 53 (dx * dx) + round 53 (dy * dy)))

def ApplyInput (s : State) (playerID : String) (input : Option protocol.PlayerInput) : State :=
  match gomap.get playerID s.Players, input with
  | some p, some inp =>
    if p.HP ≤ 0 then s
    else
      let dx := clampFloat32 inp.Dx (-maxMovePerTick) maxMovePerTick
      let dy := clampFloat32 inp.Dy (-maxMovePerTick) maxMovePerTick
      { s with
        Players := gomap.modify playerID
          (fun q => { q with
            X := clampFloat32 (round 24 (q.X + dx)) arenaMin arenaMax,
            Y := clampFloat32 (round 24 (q.Y + dy)) arenaMin arenaMax })
          s.Players }
  | _, _ => s

def ApplySkill (s : State) (casterID : String) (skill : Option protocol.SkillCast) : State :=
  match gomap.get casterID s.Players, skill with
  | some caster, some sk =>
    if caster.HP ≤ 0 then s
    else if caster.SkillCD > 0 then s
    else if sk.TargetId = "" ∨ sk.TargetId = casterID then s
    else
      match gomap.get sk.TargetId s.Players with
      | none => s
      | some target =>
        if target.HP ≤ 0 then s
        else if distance caster.X caster.Y target.X target.Y > skillRange then s
        else
          let hit := gomap.modify sk.TargetId
            (fun t => { t with
              HP := if t.HP - skillDamage < 0 then 0 else t.HP - skillDamage })
            s.Players
          { s with
            Players := gomap.modify casterID
              (fun c => { c with SkillCD := skillCooldown }) hit }
  | _, _ => s

/-- The effect of `Room.handleEvent` on the battle state. -/
def handleEvent (s : State) (ev : room.Event) : State :=
  match ev.Typ with
  | .EventJoin => s
  | .EventLeave =>
    { s with Players := gomap.modify ev.PlayerID (fun p => { p with HP := 0 }) s.Players }
  | .EventInput => ApplyInput s ev.PlayerID ev.Input
  | .EventSkill => ApplySkill s ev.PlayerID ev.Skill

def applyOp (s : State) : Op → State
  | .input pid inp => ApplyInput s pid inp
  | .skill cid sk => ApplySkill s cid sk
  | .tick => TickForward s
  | .event ev => handleEvent s ev

/-- The state reached from `NewState playerIDs` by the operations `ops`. -/
def run (playerIDs : List String) (ops : List Op) : State :=
  ops.foldl applyOp (NewState playerIDs)

end battle.fp

namespace scenario

/-- In the battle of a and b, a walks from -50 to 0 in ten moves of 5 and then
moves by -2^-33; b walks from 50 to 20 in six moves of -5. -/
def walkToRange : List battle.Op :=
  List.replicate 10 (battle.Op.input "a" (some { Dx := 5, Dy := 0 })) ++
    [battle.Op.input "a" (some { Dx := -(1 / 8589934592), Dy := 0 })] ++
    List.replicate 6 (battle.Op.input "b" (some { Dx := -5, Dy := 0 }))

/-- The cast of a on b. -/
def castAB : protocol.SkillCast := { SkillId := 0, TargetId := "b" }

end scenario

/-! ## The signing method HS256

The JWT library with `jwt.SigningMethodHS256`: the signature of a token is the
HMAC, with SHA-256, of its signing string under the key.  The hash function
and the JSON and base64 encoding of the library are parameters. -/

namespace auth

end auth

namespace scenario

end scenario
/-! ## Lemmas on maps -/

namespace gomap

variable {κ : Type} {α : Type} [DecidableEq κ]

theorem get_modify_self (k : κ) (f : α → α) (m : List (κ × α)) :
    get k (modify k f m) = (get k m).map f := by
  induction m with
  | nil => rfl
  | cons e rest ih =>
    obtain ⟨k', v⟩ := e
    by_cases h : k' = k
    · simp [modify, get, h]
    · simp [modify, get, h, ih]

theorem get_modify_ne (k q : κ) (f : α → α) (m : List (κ × α)) (hq : q ≠ k) :
    get q (modify k f m) = get q m := by
  induction m with
  | nil => rfl
  | cons e rest ih =>
    obtain ⟨k', v⟩ := e
    by_cases h : k' = k
    · have hk : k' ≠ q := fun hkq => hq (hkq.symm.trans h)
      simp [modify, get, h, hk, hq.symm]
    · by_cases hk : k' = q
      · subst hk
        simp [modify, get, h]
      · simp [modify, get, h, hk, ih]

theorem keys_modify (k : κ) (f : α → α) (m : List (κ × α)) :
    keys (modify k f m) = keys m := by
  induction m with
  | nil => rfl
  | cons e rest ih =>
    obtain ⟨k', v⟩ := e
    by_cases h : k' = k
    · simp [modify, keys, h]
    · simp only [keys] at ih
      simp [modify, keys, h, ih]

theorem mem_of_get {k : κ} {v : α} {m : List (κ × α)} (h : get k m = some v) :
    (k, v) ∈ m := by
  induction m with
  | nil => simp [get] at h
  | cons e rest ih =>
    obtain ⟨k', v'⟩ := e
    by_cases hk : k' = k
    · simp [get, hk] at h
      simp [hk, h]
    · simp [get, hk] at h
      exact List.mem_cons_of_mem _ (ih h)

theorem get_put_self (k : κ) (v : α) (m : List (κ × α)) : get k (put k v m) = some v := by
  induction m with
  | nil => simp [put, get]
  | cons e rest ih =>
    obtain ⟨k', v'⟩ := e
    by_cases h : k' = k
    · simp [put, get, h]
    · simp [put, get, h, ih]

theorem get_put_ne (k q : κ) (v : α) (m : List (κ × α)) (hq : q ≠ k) :
    get q (put k v m) = get q m := by
  induction m with
  | nil => simp [put, get, hq.symm]
  | cons e rest ih =>
    obtain ⟨k', v'⟩ := e
    by_cases h : k' = k
    · have hk : k' ≠ q := fun hkq => hq (hkq.symm.trans h)
      simp [put, get, h, hk, hq.symm]
    · by_cases hk : k' = q
      · subst hk
        simp [put, get, h]
      · simp [put, get, h, hk, ih]

theorem get_eq_none_iff (k : κ) (m : List (κ × α)) : get k m = none ↔ k ∉ keys m := by
  induction m with
  | nil => simp [get, keys]
  | cons e rest ih =>
    obtain ⟨k', v'⟩ := e
    by_cases h : k' = k
    · simp [get, keys, h]
    · simp only [keys] at ih
      simp [get, keys, h, ih, Ne.symm h]

end gomap

namespace battle

/-- The comparison of the source, `sqrt(dx*dx + dy*dy) > skillRange` over the
reals, is the comparison of the squares that `outOfRange` decides. -/
theorem sqrt_distanceSq_gt_iff (x1 y1 x2 y2 : ℚ) :
    Real.sqrt (((x1 - x2) ^ 2 + (y1 - y2) ^ 2 : ℚ) : ℝ) > 20 ↔
      outOfRange x1 y1 x2 y2 = true := by
  have h20 : (0 : ℝ) ≤ 20 := by norm_num
  rw [gt_iff_lt, Real.lt_sqrt h20]
  simp only [outOfRange, distanceSq, skillRange, decide_eq_true_eq, gt_iff_lt]
  have e : ((20 : ℝ) ^ 2) = (((20 * 20 : ℚ)) : ℝ) := by norm_num
  rw [e, Rat.cast_lt]
  constructor <;> intro h <;> nlinarith [h]

theorem clampFloat32_eq_max_min (v lo hi : ℚ) (h : lo ≤ hi) :
    clampFloat32 v lo hi = max lo (min v hi) := by
  unfold clampFloat32
  by_cases h1 : v < lo
  · rw [if_pos h1, min_eq_left (le_trans h1.le h), max_eq_left h1.le]
  · rw [if_neg h1]
    push_neg at h1
    by_cases h2 : v > hi
    · rw [if_pos h2, min_eq_right h2.le, max_eq_right h]
    · rw [if_neg h2]
      push_neg at h2
      rw [min_eq_left h2, max_eq_right h1]

end battle

namespace battle

/-- Unfolding of `ApplySkill` once caster and target are known. -/
theorem ApplySkill_eq (s : State) (casterID : String) (sk : protocol.SkillCast)
    (c t : PlayerState) (hc : gomap.get casterID s.Players = some c)
    (ht : gomap.get sk.TargetId s.Players = some t) :
    ApplySkill s casterID (some sk) =
      if c.HP ≤ 0 ∨ c.SkillCD > 0 ∨ sk.TargetId = "" ∨ sk.TargetId = casterID ∨ t.HP ≤ 0 ∨
          outOfRange c.X c.Y t.X t.Y = true then s
      else
        { s with
          Players := gomap.modify casterID (fun c => { c with SkillCD := skillCooldown })
            (gomap.modify sk.TargetId
              (fun t => { t with
                HP := if t.HP - skillDamage < 0 then 0 else t.HP - skillDamage })
              s.Players) } := by
  simp only [ApplySkill, hc, ht]
  by_cases h1 : c.HP ≤ 0
  · simp [h1]
  by_cases h2 : c.SkillCD > 0
  · simp [h1, h2]
  by_cases h3 : sk.TargetId = ""
  · simp [h1, h2, h3]
  by_cases h4 : sk.TargetId = casterID
  · simp [h1, h2, h4]
  by_cases h5 : t.HP ≤ 0
  · simp [h1, h2, h3, h4, h5]
  by_cases h6 : outOfRange c.X c.Y t.X t.Y = true
  · simp [h1, h2, h3, h4, h5, h6]
  · simp [h1, h2, h3, h4, h5, h6]

theorem ApplySkill_caster_absent (s : State) (casterID : String) (sk : Option protocol.SkillCast)
    (hc : gomap.get casterID s.Players = none) : ApplySkill s casterID sk = s := by
  simp [ApplySkill, hc]

theorem ApplySkill_target_absent (s : State) (casterID : String) (sk : protocol.SkillCast)
    (ht : gomap.get sk.TargetId s.Players = none) : ApplySkill s casterID (some sk) = s := by
  unfold ApplySkill
  cases hc : gomap.get casterID s.Players with
  | none => rfl
  | some c =>
    simp only [ht]
    split_ifs <;> rfl

end battle

namespace battle

/-- A cast is without effect as soon as one guard fires for the caster and
target found in the map (a missing caster or target is without effect too). -/
theorem ApplySkill_blocked (s : State) (casterID : String) (sk : protocol.SkillCast)
    (h : ∀ c t, gomap.get casterID s.Players = some c →
      gomap.get sk.TargetId s.Players = some t →
      c.HP ≤ 0 ∨ c.SkillCD > 0 ∨ sk.TargetId = "" ∨ sk.TargetId = casterID ∨ t.HP ≤ 0 ∨
        outOfRange c.X c.Y t.X t.Y = true) :
    ApplySkill s casterID (some sk) = s := by
  cases hc : gomap.get casterID s.Players with
  | none => exact ApplySkill_caster_absent s casterID _ hc
  | some c =>
    cases ht : gomap.get sk.TargetId s.Players with
    | none => exact ApplySkill_target_absent s casterID sk ht
    | some t => rw [ApplySkill_eq s casterID sk c t hc ht, if_pos (h c t hc ht)]

/-- Over exact arithmetic, the distance being computed without rounding,
`ApplySkill` leaves the whole state unchanged if the caster is absent,
dead or on cooldown, if the target id is empty or the caster's own, if the
target is absent or dead, or if the euclidean distance between the two is
greater than 20; in every other case (a distance of exactly 20 included) the
target's hp becomes `max (hp - 10) 0`, the caster's skill_cd becomes 20, and
every other field, every other player, the key set and the tick are kept. -/
theorem ApplySkill_contract (s : State) (casterID : String) (sk : protocol.SkillCast) :
    (gomap.get casterID s.Players = none → ApplySkill s casterID (some sk) = s) ∧
    (∀ c, gomap.get casterID s.Players = some c → c.HP ≤ 0 →
      ApplySkill s casterID (some sk) = s) ∧
    (∀ c, gomap.get casterID s.Players = some c → c.SkillCD > 0 →
      ApplySkill s casterID (some sk) = s) ∧
    (sk.TargetId = "" → ApplySkill s casterID (some sk) = s) ∧
    (sk.TargetId = casterID → ApplySkill s casterID (some sk) = s) ∧
    (gomap.get sk.TargetId s.Players = none → ApplySkill s casterID (some sk) = s) ∧
    (∀ t, gomap.get sk.TargetId s.Players = some t → t.HP ≤ 0 →
      ApplySkill s casterID (some sk) = s) ∧
    (∀ c t, gomap.get casterID s.Players = some c →
      gomap.get sk.TargetId s.Players = some t →
      Real.sqrt (((c.X - t.X) ^ 2 + (c.Y - t.Y) ^ 2 : ℚ) : ℝ) > 20 →
      ApplySkill s casterID (some sk) = s) ∧
    (∀ c t, gomap.get casterID s.Players = some c →
      gomap.get sk.TargetId s.Players = some t →
      0 < c.HP → c.SkillCD ≤ 0 → sk.TargetId ≠ "" → sk.TargetId ≠ casterID → 0 < t.HP →
      Real.sqrt (((c.X - t.X) ^ 2 + (c.Y - t.Y) ^ 2 : ℚ) : ℝ) ≤ 20 →
      gomap.get sk.TargetId (ApplySkill s casterID (some sk)).Players =
          some { t with HP := max (t.HP - 10) 0 } ∧
        gomap.get casterID (ApplySkill s casterID (some sk)).Players =
          some { c with SkillCD := 20 } ∧
        (∀ q, q ≠ casterID → q ≠ sk.TargetId →
          gomap.get q (ApplySkill s casterID (some sk)).Players =
            gomap.get q s.Players) ∧
        gomap.keys (ApplySkill s casterID (some sk)).Players = gomap.keys s.Players ∧
        (ApplySkill s casterID (some sk)).Tick = s.Tick) := by
  refine ⟨fun hc => ApplySkill_caster_absent s casterID _ hc, ?_, ?_, ?_, ?_,
    fun ht => ApplySkill_target_absent s casterID sk ht, ?_, ?_, ?_⟩
  · intro c hc h
    refine ApplySkill_blocked s casterID sk fun c' t' hc' _ => ?_
    rw [hc] at hc'; cases hc'; exact Or.inl h
  · intro c hc h
    refine ApplySkill_blocked s casterID sk fun c' t' hc' _ => ?_
    rw [hc] at hc'; cases hc'; exact Or.inr (Or.inl h)
  · intro h
    exact ApplySkill_blocked s casterID sk fun _ _ _ _ => Or.inr (Or.inr (Or.inl h))
  · intro h
    exact ApplySkill_blocked s casterID sk fun _ _ _ _ => Or.inr (Or.inr (Or.inr (Or.inl h)))
  · intro t ht h
    refine ApplySkill_blocked s casterID sk fun c' t' _ ht' => ?_
    rw [ht] at ht'; cases ht'
    exact Or.inr (Or.inr (Or.inr (Or.inr (Or.inl h))))
  · intro c t hc ht h
    refine ApplySkill_blocked s casterID sk fun c' t' hc' ht' => ?_
    rw [hc] at hc'; cases hc'
    rw [ht] at ht'; cases ht'
    exact Or.inr (Or.inr (Or.inr (Or.inr (Or.inr ((sqrt_distanceSq_gt_iff _ _ _ _).1 h)))))
  · intro c t hc ht h1 h2 h3 h4 h5 h6
    have hr : ¬ outOfRange c.X c.Y t.X t.Y = true := fun hout =>
      absurd ((sqrt_distanceSq_gt_iff _ _ _ _).2 hout) (not_lt.2 h6)
    have hguard : ¬ (c.HP ≤ 0 ∨ c.SkillCD > 0 ∨ sk.TargetId = "" ∨ sk.TargetId = casterID ∨
        t.HP ≤ 0 ∨ outOfRange c.X c.Y t.X t.Y = true) := by
      rintro (h | h | h | h | h | h)
      · exact absurd h (not_le.2 h1)
      · exact absurd h (not_lt.2 h2)
      · exact h3 h
      · exact h4 h
      · exact absurd h (not_le.2 h5)
      · exact hr h
    rw [ApplySkill_eq s casterID sk c t hc ht, if_neg hguard]
    refine ⟨?_, ?_, ?_, ?_, rfl⟩
    · rw [gomap.get_modify_ne _ _ _ _ h4, gomap.get_modify_self, ht]
      simp only [Option.map_some', skillDamage]
      by_cases hlt : t.HP - 10 < 0
      · rw [if_pos hlt, max_eq_right hlt.le]
      · rw [if_neg hlt, max_eq_left (not_lt.1 hlt)]
    · rw [gomap.get_modify_self,
        gomap.get_modify_ne _ _ _ _ (Ne.symm h4), hc]
      rfl
    · intro q hq1 hq2
      rw [gomap.get_modify_ne _ _ _ _ hq1, gomap.get_modify_ne _ _ _ _ hq2]
    · rw [gomap.keys_modify, gomap.keys_modify]

end battle

namespace battle

/-- Witness of `ApplySkill_contract`: caster A at (30,0) and target B at
(50,0) are exactly 20 apart, so the cast lands: B.hp becomes 90 and A.skill_cd
becomes 20. -/
theorem ApplySkill_contract_witness :
    gomap.get "B"
        (ApplySkill
          { Players := [("A", { ID := "A", X := 30, Y := 0, HP := 100, SkillCD := 0 }),
                        ("B", { ID := "B", X := 50, Y := 0, HP := 100, SkillCD := 0 })],
            Tick := 7 }
          "A" (some { SkillId := 1, TargetId := "B" })).Players =
      some { ID := "B", X := 50, Y := 0, HP := 90, SkillCD := 0 } ∧
    gomap.get "A"
        (ApplySkill
          { Players := [("A", { ID := "A", X := 30, Y := 0, HP := 100, SkillCD := 0 }),
                        ("B", { ID := "B", X := 50, Y := 0, HP := 100, SkillCD := 0 })],
            Tick := 7 }
          "A" (some { SkillId := 1, TargetId := "B" })).Players =
      some { ID := "A", X := 30, Y := 0, HP := 100, SkillCD := 20 } := by
  have h := (ApplySkill_contract
    { Players := [("A", { ID := "A", X := 30, Y := 0, HP := 100, SkillCD := 0 }),
                  ("B", { ID := "B", X := 50, Y := 0, HP := 100, SkillCD := 0 })],
      Tick := 7 }
    "A" { SkillId := 1, TargetId := "B" }).2.2.2.2.2.2.2.2
    { ID := "A", X := 30, Y := 0, HP := 100, SkillCD := 0 }
    { ID := "B", X := 50, Y := 0, HP := 100, SkillCD := 0 }
    (by decide) (by decide) (by decide) (by decide) (by decide) (by decide) (by decide)
    (by
      refine not_lt.1 fun hgt => ?_
      have := (sqrt_distanceSq_gt_iff 30 0 50 0).1 hgt
      simp [outOfRange, distanceSq, skillRange] at this
      norm_num at this)
  exact ⟨h.1, h.2.1⟩

end battle

namespace battle

/-- C2: over exact arithmetic `ApplyInput` leaves the state unchanged when the
player is absent or has hp <= 0; otherwise the player's new coordinates are
`clamp (x + clamp dx (-5) 5) (-100) 100` and `clamp (y + clamp dy (-5) 5) (-100) 100`
(with `clamp v lo hi = max lo (min v hi)`), while hp, skill_cd, the tick, the
key set and every other player are unchanged. -/
theorem ApplyInput_contract (s : State) (playerID : String) (inp : protocol.PlayerInput) :
    (gomap.get playerID s.Players = none → ApplyInput s playerID (some inp) = s) ∧
    (∀ p, gomap.get playerID s.Players = some p → p.HP ≤ 0 →
      ApplyInput s playerID (some inp) = s) ∧
    (∀ p, gomap.get playerID s.Players = some p → 0 < p.HP →
      gomap.get playerID (ApplyInput s playerID (some inp)).Players =
          some { p with
            X := max (-100) (min (p.X + max (-5) (min inp.Dx 5)) 100),
            Y := max (-100) (min (p.Y + max (-5) (min inp.Dy 5)) 100) } ∧
        (∀ q, q ≠ playerID →
          gomap.get q (ApplyInput s playerID (some inp)).Players =
            gomap.get q s.Players) ∧
        gomap.keys (ApplyInput s playerID (some inp)).Players = gomap.keys s.Players ∧
        (ApplyInput s playerID (some inp)).Tick = s.Tick) := by
  refine ⟨?_, ?_, ?_⟩
  · intro h
    simp [ApplyInput, h]
  · intro p hp hdead
    simp [ApplyInput, hp, hdead]
  · intro p hp halive
    have hnot : ¬ p.HP ≤ 0 := not_le.2 halive
    simp only [ApplyInput, hp, if_neg hnot]
    refine ⟨?_, ?_, ?_, trivial⟩
    · rw [gomap.get_modify_self, hp]
      simp only [Option.map_some', maxMovePerTick, arenaMin, arenaMax]
      rw [clampFloat32_eq_max_min _ (-5) 5 (by norm_num),
        clampFloat32_eq_max_min _ (-5) 5 (by norm_num),
        clampFloat32_eq_max_min _ (-100) 100 (by norm_num),
        clampFloat32_eq_max_min _ (-100) 100 (by norm_num)]
    · intro q hq
      rw [gomap.get_modify_ne _ _ _ _ hq]
    · rw [gomap.keys_modify]

/-- Witness of `ApplyInput_contract`: an alive player at (98,0) asked to move
by (7,-2) moves by the clamped delta (5,-2) and is stopped at the arena edge
x = 100. -/
theorem ApplyInput_contract_witness :
    gomap.get "A"
        (ApplyInput
          { Players := [("A", { ID := "A", X := 98, Y := 0, HP := 100, SkillCD := 0 })],
            Tick := 3 }
          "A" (some { Dx := 7, Dy := -2 })).Players =
      some { ID := "A", X := 100, Y := -2, HP := 100, SkillCD := 0 } := by
  have h := ((ApplyInput_contract
    { Players := [("A", { ID := "A", X := 98, Y := 0, HP := 100, SkillCD := 0 })],
      Tick := 3 }
    "A" { Dx := 7, Dy := -2 }).2.2
    { ID := "A", X := 98, Y := 0, HP := 100, SkillCD := 0 } (by decide) (by decide)).1
  rw [h]
  norm_num

/-- Result of the loop of `Winner` entered with no alive player seen yet, in
terms of the alive entries of the rest of the map. -/
theorem winnerLoop_zero (ps : List (String × PlayerState)) (a : String) :
    winnerLoop ps a 0 =
      match ps.filter (fun e => decide (0 < e.2.HP)) with
      | [] => ("", true)
      | [e] => (e.2.ID, true)
      | _ :: _ :: _ => ("", false) := by
  have one : ∀ (l : List (String × PlayerState)) (b : String),
      winnerLoop l b 1 =
        match l.filter (fun e => decide (0 < e.2.HP)) with
        | [] => (b, true)
        | _ :: _ => ("", false) := by
    intro l
    induction l with
    | nil => intro b; rfl
    | cons e rest ih =>
      intro b
      by_cases h : 0 < e.2.HP
      · simp [winnerLoop, h]
      · simp [winnerLoop, h, ih]
  induction ps generalizing a with
  | nil => rfl
  | cons e rest ih =>
    by_cases h : 0 < e.2.HP
    · simp only [winnerLoop, gt_iff_lt, h, if_true, List.filter_cons, decide_True]
      rw [if_neg (by decide), one]
      cases rest.filter (fun e => decide (0 < e.2.HP)) <;> rfl
    · simp [winnerLoop, h, ih]

/-- C3: `Winner` returns `("", true)` when no player has hp > 0, `(id, true)`
when exactly one player has hp > 0 and `id` is that player's id, and
`("", false)` when two or more players have hp > 0; iterating the player map
in any other order gives the same result. -/
theorem Winner_contract (s : State) :
    (s.Players.filter (fun e => decide (0 < e.2.HP)) = [] → Winner s = ("", true)) ∧
    (∀ e, s.Players.filter (fun e => decide (0 < e.2.HP)) = [e] → Winner s = (e.2.ID, true)) ∧
    (2 ≤ (s.Players.filter (fun e => decide (0 < e.2.HP))).length → Winner s = ("", false)) ∧
    (∀ ps, ps.Perm s.Players → Winner { s with Players := ps } = Winner s) := by
  refine ⟨?_, ?_, ?_, ?_⟩
  · intro h
    rw [Winner, winnerLoop_zero, h]
  · intro e h
    rw [Winner, winnerLoop_zero, h]
  · intro h
    rw [Winner, winnerLoop_zero]
    generalize s.Players.filter (fun e => decide (0 < e.2.HP)) = l at h
    match l, h with
    | _ :: _ :: _, _ => rfl
    | [], h => simp at h
    | [_], h => simp at h
  · intro ps hperm
    have hf := hperm.filter (fun e => decide (0 < e.2.HP))
    simp only [Winner, winnerLoop_zero]
    generalize ps.filter (fun e => decide (0 < e.2.HP)) = l1 at hf
    generalize s.Players.filter (fun e => decide (0 < e.2.HP)) = l2 at hf
    match l1, l2, hf with
    | [], [], _ => rfl
    | [a], [b], hf => rw [List.singleton_perm_singleton.1 hf]
    | _ :: _ :: _, _ :: _ :: _, _ => rfl
    | [], _ :: _, hf => exact absurd hf.length_eq (by simp)
    | _ :: _, [], hf => exact absurd hf.length_eq (by simp)
    | [_], _ :: _ :: _, hf => exact absurd hf.length_eq (by simp)
    | _ :: _ :: _, [_], hf => exact absurd hf.length_eq (by simp)

end battle

namespace battle

/-- Witness of `Winner_contract`: with A alive and B dead the winner is A. -/
theorem Winner_contract_witness :
    Winner
        { Players := [("B", { ID := "B", X := 50, Y := 0, HP := 0, SkillCD := 0 }),
                      ("A", { ID := "A", X := 30, Y := 0, HP := 10, SkillCD := 20 })],
          Tick := 9 } = ("A", true) :=
  (Winner_contract
    { Players := [("B", { ID := "B", X := 50, Y := 0, HP := 0, SkillCD := 0 }),
                  ("A", { ID := "A", X := 30, Y := 0, HP := 10, SkillCD := 20 })],
      Tick := 9 }).2.1
    ("A", { ID := "A", X := 30, Y := 0, HP := 10, SkillCD := 20 }) (by decide)

end battle

/-! ## Invariants of the battle state -/

namespace gomap

variable {κ : Type} {α : Type} [DecidableEq κ]

theorem forall_modify {P : κ × α → Prop} (k : κ) (f : α → α) (m : List (κ × α))
    (hm : ∀ e ∈ m, P e) (hf : ∀ v, P (k, v) → P (k, f v)) :
    ∀ e ∈ modify k f m, P e := by
  induction m with
  | nil => simp [modify]
  | cons e rest ih =>
    obtain ⟨k', v⟩ := e
    have hrest : ∀ e ∈ rest, P e := fun e he => hm e (List.mem_cons_of_mem _ he)
    have hhead : P (k', v) := hm _ (List.mem_cons_self _ _)
    by_cases h : k' = k
    · subst h
      intro e he
      simp only [modify, if_true, List.mem_cons] at he
      rcases he with rfl | he
      · exact hf v hhead
      · exact hrest e he
    · intro e he
      simp only [modify, if_neg h, List.mem_cons] at he
      rcases he with rfl | he
      · exact hhead
      · exact ih hrest e he

theorem mem_put {k : κ} {v : α} {m : List (κ × α)} {e : κ × α} (he : e ∈ put k v m) :
    e = (k, v) ∨ e ∈ m := by
  induction m with
  | nil => simpa [put] using he
  | cons e' rest ih =>
    obtain ⟨k', v'⟩ := e'
    by_cases h : k' = k
    · subst h
      simp only [put, if_true, List.mem_cons] at he
      rcases he with rfl | he
      · exact Or.inl rfl
      · exact Or.inr (List.mem_cons_of_mem _ he)
    · simp only [put, if_neg h, List.mem_cons] at he
      rcases he with rfl | he
      · exact Or.inr (List.mem_cons_self _ _)
      · rcases ih he with h1 | h1
        · exact Or.inl h1
        · exact Or.inr (List.mem_cons_of_mem _ h1)

theorem keys_put (k : κ) (v : α) (m : List (κ × α)) :
    keys (put k v m) = if k ∈ keys m then keys m else keys m ++ [k] := by
  induction m with
  | nil => simp [put, keys]
  | cons e rest ih =>
    obtain ⟨k', v'⟩ := e
    simp only [keys] at ih
    by_cases h : k' = k
    · subst h
      simp [put, keys]
    · have h' : k ≠ k' := fun hk => h hk.symm
      by_cases hmem : k ∈ List.map Prod.fst rest
      · rw [if_pos hmem] at ih
        simp [put, keys, h, h', hmem, ih]
      · rw [if_neg hmem] at ih
        simp [put, keys, h, h', hmem, ih]

theorem nodup_keys_put (k : κ) (v : α) (m : List (κ × α)) (hm : (keys m).Nodup) :
    (keys (put k v m)).Nodup := by
  rw [keys_put]
  by_cases h : k ∈ keys m
  · rw [if_pos h]; exact hm
  · rw [if_neg h]
    exact List.Nodup.append hm (List.nodup_singleton k) (by simpa using h)

theorem mem_keys_put (k q : κ) (v : α) (m : List (κ × α)) :
    q ∈ keys (put k v m) ↔ q = k ∨ q ∈ keys m := by
  rw [keys_put]
  by_cases h : k ∈ keys m
  · rw [if_pos h]
    constructor
    · exact Or.inr
    · rintro (rfl | hq)
      · exact h
      · exact hq
  · rw [if_neg h]
    simp [or_comm]

theorem get_of_mem_nodup {k : κ} {v : α} {m : List (κ × α)} (hm : (keys m).Nodup)
    (h : (k, v) ∈ m) : get k m = some v := by
  induction m with
  | nil => simp at h
  | cons e rest ih =>
    obtain ⟨k', v'⟩ := e
    simp only [keys, List.map_cons, List.nodup_cons] at hm
    simp only [List.mem_cons, Prod.mk.injEq] at h
    rcases h with ⟨rfl, rfl⟩ | h
    · simp [get]
    · have hne : k' ≠ k := by
        rintro rfl
        exact hm.1 (List.mem_map.2 ⟨(k', v), h, rfl⟩)
      simp only [get, if_neg hne]
      exact ih hm.2 h

end gomap

namespace battle

/-- A property of map entries that every per-player update of the battle
operations keeps is kept by every operation. -/
theorem applyOp_forall {P : String × PlayerState → Prop} (s : State) (op : Op)
    (hmove : ∀ k v dx dy, P (k, v) →
      P (k, { v with X := clampFloat32 (v.X + dx) arenaMin arenaMax,
                     Y := clampFloat32 (v.Y + dy) arenaMin arenaMax }))
    (hhit : ∀ k v, P (k, v) →
      P (k, { v with HP := if v.HP - skillDamage < 0 then 0 else v.HP - skillDamage }))
    (hcd : ∀ k v, P (k, v) → P (k, { v with SkillCD := skillCooldown }))
    (htick : ∀ k v, P (k, v) →
      P (k, if v.SkillCD > 0 then { v with SkillCD := v.SkillCD - 1 } else v))
    (hleave : ∀ k v, P (k, v) → P (k, { v with HP := 0 }))
    (hs : ∀ e ∈ s.Players, P e) :
    ∀ e ∈ (applyOp s op).Players, P e := by
  have input : ∀ pid inp, ∀ e ∈ (ApplyInput s pid inp).Players, P e := by
    intro pid inp
    unfold ApplyInput
    split
    · split
      · exact hs
      · exact gomap.forall_modify _ _ _ hs fun v hv => hmove _ v _ _ hv
    · exact hs
  have skill : ∀ cid sk, ∀ e ∈ (ApplySkill s cid sk).Players, P e := by
    intro cid sk
    unfold ApplySkill
    split
    · split
      · exact hs
      · split
        · exact hs
        · split
          · exact hs
          · split
            · exact hs
            · split
              · exact hs
              · split
                · exact hs
                · exact gomap.forall_modify _ _ _
                    (gomap.forall_modify _ _ _ hs fun v hv => hhit _ v hv)
                    fun v hv => hcd _ v hv
    · exact hs
  cases op with
  | input pid inp => exact input pid inp
  | skill cid sk => exact skill cid sk
  | tick =>
    intro e he
    simp only [applyOp, TickForward, List.mem_map] at he
    obtain ⟨e0, he0, rfl⟩ := he
    exact htick e0.1 e0.2 (hs e0 he0)
  | event ev =>
    simp only [applyOp, room.handleEvent]
    split
    · exact hs
    · exact gomap.forall_modify _ _ _ hs fun v hv => hleave _ v hv
    · exact input _ _
    · exact skill _ _

/-- No operation changes the key set of the player map. -/
theorem keys_applyOp (s : State) (op : Op) :
    gomap.keys (applyOp s op).Players = gomap.keys s.Players := by
  have input : ∀ pid inp, gomap.keys (ApplyInput s pid inp).Players = gomap.keys s.Players := by
    intro pid inp
    unfold ApplyInput
    split
    · split
      · rfl
      · exact gomap.keys_modify _ _ _
    · rfl
  have skill : ∀ cid sk, gomap.keys (ApplySkill s cid sk).Players = gomap.keys s.Players := by
    intro cid sk
    unfold ApplySkill
    split
    · split
      · rfl
      · split
        · rfl
        · split
          · rfl
          · split
            · rfl
            · split
              · rfl
              · split
                · rfl
                · simp only [gomap.keys_modify]
    · rfl
  cases op with
  | input pid inp => exact input pid inp
  | skill cid sk => exact skill cid sk
  | tick => simp [applyOp, TickForward, gomap.keys]
  | event ev =>
    simp only [applyOp, room.handleEvent]
    split
    · rfl
    · exact gomap.keys_modify _ _ _
    · exact input _ _
    · exact skill _ _

theorem foldl_applyOp_forall {P : String × PlayerState → Prop}
    (hmove : ∀ k v dx dy, P (k, v) →
      P (k, { v with X := clampFloat32 (v.X + dx) arenaMin arenaMax,
                     Y := clampFloat32 (v.Y + dy) arenaMin arenaMax }))
    (hhit : ∀ k v, P (k, v) →
      P (k, { v with HP := if v.HP - skillDamage < 0 then 0 else v.HP - skillDamage }))
    (hcd : ∀ k v, P (k, v) → P (k, { v with SkillCD := skillCooldown }))
    (htick : ∀ k v, P (k, v) →
      P (k, if v.SkillCD > 0 then { v with SkillCD := v.SkillCD - 1 } else v))
    (hleave : ∀ k v, P (k, v) → P (k, { v with HP := 0 }))
    (ops : List Op) (s : State) (hs : ∀ e ∈ s.Players, P e) :
    ∀ e ∈ (ops.foldl applyOp s).Players, P e := by
  induction ops generalizing s with
  | nil => exact hs
  | cons op rest ih =>
    exact ih (applyOp s op) (applyOp_forall s op hmove hhit hcd htick hleave hs)

theorem keys_foldl_applyOp (ops : List Op) (s : State) :
    gomap.keys (ops.foldl applyOp s).Players = gomap.keys s.Players := by
  induction ops generalizing s with
  | nil => rfl
  | cons op rest ih => rw [List.foldl_cons, ih, keys_applyOp]

/-- Entries made by the loop of `NewState` satisfy `P` as soon as the entries
it creates (for the indices it runs through) and those it starts from do. -/
theorem newStateLoop_forall {P : String × PlayerState → Prop} (ids : List String) (i : Nat)
    (acc : List (String × PlayerState))
    (hnew : ∀ id j, i ≤ j → j < i + ids.length →
      P (id, { ID := id, X := -50 + (j : ℚ) * 100, Y := 0, HP := defaultHP, SkillCD := 0 }))
    (hacc : ∀ e ∈ acc, P e) :
    ∀ e ∈ newStateLoop ids i acc, P e := by
  induction ids generalizing i acc with
  | nil => exact hacc
  | cons id rest ih =>
    simp only [newStateLoop]
    apply ih
    · intro id' j h1 h2
      exact hnew id' j (by omega) (by simp only [List.length_cons]; omega)
    · intro e he
      rcases gomap.mem_put he with rfl | he
      · exact hnew id i (le_refl _) (by simp)
      · exact hacc e he

theorem nodup_keys_newStateLoop (ids : List String) (i : Nat)
    (acc : List (String × PlayerState)) (hacc : (gomap.keys acc).Nodup) :
    (gomap.keys (newStateLoop ids i acc)).Nodup := by
  induction ids generalizing i acc with
  | nil => exact hacc
  | cons id rest ih => exact ih _ _ (gomap.nodup_keys_put _ _ _ hacc)

theorem mem_keys_newStateLoop (ids : List String) (i : Nat)
    (acc : List (String × PlayerState)) (q : String) :
    q ∈ gomap.keys (newStateLoop ids i acc) ↔ q ∈ ids ∨ q ∈ gomap.keys acc := by
  induction ids generalizing i acc with
  | nil => simp [newStateLoop]
  | cons id rest ih =>
    simp only [newStateLoop, ih, gomap.mem_keys_put, List.mem_cons]
    tauto

end battle

namespace battle

theorem clampFloat32_bounds (v lo hi : ℚ) (h : lo ≤ hi) :
    lo ≤ clampFloat32 v lo hi ∧ clampFloat32 v lo hi ≤ hi := by
  unfold clampFloat32
  split_ifs with h1 h2
  · exact ⟨le_refl _, h⟩
  · exact ⟨h, le_refl _⟩
  · exact ⟨not_lt.1 h1, not_lt.1 h2⟩

/-- The arena bounds are kept by every operation and hold initially for a
creation list of at most two ids: the initial placement by `NewState` is the
only place where a player can get outside the arena. -/
theorem arena_bounds_upto_two (playerIDs : List String) (hlen : playerIDs.length ≤ 2)
    (ops : List Op) :
    ∀ e ∈ (run playerIDs ops).Players,
      arenaMin ≤ e.2.X ∧ e.2.X ≤ arenaMax ∧ arenaMin ≤ e.2.Y ∧ e.2.Y ≤ arenaMax := by
  have hb : arenaMin ≤ arenaMax := by norm_num [arenaMin, arenaMax]
  refine foldl_applyOp_forall ?_ ?_ ?_ ?_ ?_ ops _ ?_
  · intro k v dx dy _
    exact ⟨(clampFloat32_bounds _ _ _ hb).1, (clampFloat32_bounds _ _ _ hb).2,
      (clampFloat32_bounds _ _ _ hb).1, (clampFloat32_bounds _ _ _ hb).2⟩
  · intro k v h; exact h
  · intro k v h; exact h
  · intro k v h
    split_ifs
    · exact h
    · exact h
  · intro k v h; exact h
  · refine newStateLoop_forall playerIDs 0 [] ?_ (by simp)
    intro id j _ hj
    have hj2 : j < 2 := by omega
    have hq : (j : ℚ) ≤ 1 := by
      have : j ≤ 1 := by omega
      exact_mod_cast this
    have hq0 : (0 : ℚ) ≤ (j : ℚ) := Nat.cast_nonneg j
    simp only [arenaMin, arenaMax]
    refine ⟨by linarith, by linarith, by norm_num, by norm_num⟩

/-- C4 (defect of `NewState`): with a creation list of three ids the third
player is placed at x = -50 + 2 * 100 = 150, outside the arena bound
`arenaMax` = 100, and stays there as long as it does not move. -/
theorem NewState_third_player_outside_arena :
    gomap.get "c" (run ["a", "b", "c"] [Op.tick, Op.skill "a" none]).Players =
        some { ID := "c", X := 150, Y := 0, HP := 100, SkillCD := 0 } ∧
      ¬ ((150 : ℚ) ≤ arenaMax) := by
  constructor
  · simp [run, NewState, newStateLoop, gomap.put, gomap.get, defaultHP, applyOp, TickForward,
      ApplySkill]
    norm_num
  · norm_num [arenaMax]

/-- C5: in every state reached from `NewState` by any sequence of
`ApplyInput`, `ApplySkill`, `TickForward` and room events (Join, Leave, Input,
Skill), every player has `0 <= hp <= 100` and `0 <= skill_cd <= 20`. -/
theorem hp_and_cooldown_bounds (playerIDs : List String) (ops : List Op) :
    ∀ e ∈ (run playerIDs ops).Players,
      0 ≤ e.2.HP ∧ e.2.HP ≤ 100 ∧ 0 ≤ e.2.SkillCD ∧ e.2.SkillCD ≤ 20 := by
  refine foldl_applyOp_forall ?_ ?_ ?_ ?_ ?_ ops _ ?_
  · intro k v dx dy h; exact h
  · intro k v h
    obtain ⟨h1, h2, h3, h4⟩ := h
    dsimp only at h1 h2 h3 h4
    refine ⟨?_, ?_, h3, h4⟩
    · show 0 ≤ (if v.HP - skillDamage < 0 then 0 else v.HP - skillDamage)
      split_ifs with hlt
      · exact le_refl _
      · exact not_lt.1 hlt
    · show (if v.HP - skillDamage < 0 then 0 else v.HP - skillDamage) ≤ 100
      simp only [skillDamage]
      split_ifs <;> omega
  · intro k v h
    obtain ⟨h1, h2, h3, h4⟩ := h
    dsimp only at h1 h2 h3 h4
    exact ⟨h1, h2, by simp [skillCooldown], by simp [skillCooldown]⟩
  · intro k v h
    obtain ⟨h1, h2, h3, h4⟩ := h
    dsimp only at h1 h2 h3 h4
    split_ifs with hpos
    · exact ⟨h1, h2, by show 0 ≤ v.SkillCD - 1; omega, by show v.SkillCD - 1 ≤ 20; omega⟩
    · exact ⟨h1, h2, h3, h4⟩
  · intro k v h
    obtain ⟨h1, h2, h3, h4⟩ := h
    dsimp only at h1 h2 h3 h4
    exact ⟨le_refl _, by norm_num, h3, h4⟩
  · refine newStateLoop_forall playerIDs 0 [] ?_ (by simp)
    intro id j _ _
    simp [defaultHP]

/-- Witness of `hp_and_cooldown_bounds`: after A hits B, a tick and B leaving,
B still has hp and skill_cd inside the bounds. -/
theorem hp_and_cooldown_bounds_witness :
    (("B", { ID := "B", X := 50, Y := 0, HP := 0, SkillCD := 0 }) : String × PlayerState) ∈
        (run ["A", "B"]
          [Op.tick, Op.event { Typ := .EventLeave, PlayerID := "B", Input := none, Skill := none }]).Players ∧
      (0 : Int) ≤ 0 ∧ (0 : Int) ≤ 100 ∧ (0 : Int) ≤ 0 ∧ (0 : Int) ≤ 20 :=
  have hmem : (("B", { ID := "B", X := 50, Y := 0, HP := 0, SkillCD := 0 }) :
      String × PlayerState) ∈
      (run ["A", "B"]
        [Op.tick, Op.event { Typ := .EventLeave, PlayerID := "B", Input := none, Skill := none }]).Players := by
    simp [run, NewState, newStateLoop, gomap.put, gomap.modify, defaultHP, applyOp, TickForward,
      room.handleEvent]
    norm_num
  ⟨hmem, hp_and_cooldown_bounds ["A", "B"]
    [Op.tick, Op.event { Typ := .EventLeave, PlayerID := "B", Input := none, Skill := none }]
    _ hmem⟩

end battle

namespace battle

/-- In every reachable state the key of an entry is the `ID` of its player. -/
theorem id_eq_key (playerIDs : List String) (ops : List Op) :
    ∀ e ∈ (run playerIDs ops).Players, e.2.ID = e.1 := by
  refine foldl_applyOp_forall ?_ ?_ ?_ ?_ ?_ ops _ ?_
  · intro k v dx dy h; exact h
  · intro k v h; exact h
  · intro k v h; exact h
  · intro k v h
    split_ifs
    · exact h
    · exact h
  · intro k v h; exact h
  · exact newStateLoop_forall playerIDs 0 [] (fun _ _ _ _ => rfl) (by simp)

theorem keys_run (playerIDs : List String) (ops : List Op) :
    (gomap.keys (run playerIDs ops).Players).Nodup ∧
      ∀ id, id ∈ gomap.keys (run playerIDs ops).Players ↔ id ∈ playerIDs := by
  unfold run
  rw [keys_foldl_applyOp]
  refine ⟨nodup_keys_newStateLoop _ _ _ (by simp [gomap.keys]), fun id => ?_⟩
  show id ∈ gomap.keys (newStateLoop playerIDs 0 []) ↔ id ∈ playerIDs
  rw [mem_keys_newStateLoop]
  simp [gomap.keys]

/-- C6: in every state reached from `NewState playerIDs` by battle operations
and room events, and for every order in which `Snapshot` iterates the player
map, the `player_id` values of the snapshot are exactly the ids of the
creation list, each occurring once; every entry carries the current x, y, hp
and skill_cd of the player it names; the tick is the state's tick and the
room id is the argument. -/
theorem Snapshot_players (playerIDs : List String) (ops : List Op) (roomID : String)
    (ps : List (String × PlayerState)) (hperm : ps.Perm (run playerIDs ops).Players) :
    (∀ id, id ∈ (Snapshot { run playerIDs ops with Players := ps } roomID).Players.map
        (fun e => e.PlayerId) ↔ id ∈ playerIDs) ∧
    ((Snapshot { run playerIDs ops with Players := ps } roomID).Players.map
        (fun e => e.PlayerId)).Nodup ∧
    (∀ e ∈ (Snapshot { run playerIDs ops with Players := ps } roomID).Players,
      ∃ p, gomap.get e.PlayerId (run playerIDs ops).Players = some p ∧
        e.X = p.X ∧ e.Y = p.Y ∧ e.Hp = p.HP ∧ e.SkillCd = p.SkillCD) ∧
    (Snapshot { run playerIDs ops with Players := ps } roomID).Tick = (run playerIDs ops).Tick ∧
    (Snapshot { run playerIDs ops with Players := ps } roomID).RoomId = roomID := by
  obtain ⟨hnodup, hmem⟩ := keys_run playerIDs ops
  have hid := id_eq_key playerIDs ops
  have hids : (Snapshot { run playerIDs ops with Players := ps } roomID).Players.map
      (fun e => e.PlayerId) = gomap.keys ps := by
    simp only [Snapshot, List.map_map, gomap.keys]
    apply List.map_congr_left
    intro e he
    exact hid e (hperm.subset he)
  have hkeys : (gomap.keys ps).Perm (gomap.keys (run playerIDs ops).Players) :=
    hperm.map Prod.fst
  refine ⟨?_, ?_, ?_, rfl, rfl⟩
  · intro id
    rw [hids, hkeys.mem_iff]
    exact hmem id
  · rw [hids]
    exact hkeys.nodup_iff.2 hnodup
  · intro e he
    simp only [Snapshot, List.mem_map] at he
    obtain ⟨e0, he0, rfl⟩ := he
    have hmem0 : e0 ∈ (run playerIDs ops).Players := hperm.subset he0
    refine ⟨e0.2, ?_, rfl, rfl, rfl, rfl⟩
    show gomap.get e0.2.ID (run playerIDs ops).Players = some e0.2
    rw [hid e0 hmem0]
    exact gomap.get_of_mem_nodup hnodup hmem0

/-- Witness of `Snapshot_players`: a two-player room after one tick, the map
iterated with B first. -/
theorem Snapshot_players_witness :
    (Snapshot
        { run ["A", "B"] [Op.tick] with
          Players := [("B", { ID := "B", X := 50, Y := 0, HP := 100, SkillCD := 0 }),
                      ("A", { ID := "A", X := -50, Y := 0, HP := 100, SkillCD := 0 })] }
        "r1").Tick = (run ["A", "B"] [Op.tick]).Tick :=
  (Snapshot_players ["A", "B"] [Op.tick] "r1"
    [("B", { ID := "B", X := 50, Y := 0, HP := 100, SkillCD := 0 }),
     ("A", { ID := "A", X := -50, Y := 0, HP := 100, SkillCD := 0 })]
    (by
      have h : (run ["A", "B"] [Op.tick]).Players =
          [("A", { ID := "A", X := -50, Y := 0, HP := 100, SkillCD := 0 }),
           ("B", { ID := "B", X := 50, Y := 0, HP := 100, SkillCD := 0 })] := by
        simp [run, NewState, newStateLoop, gomap.put, defaultHP, applyOp, TickForward]
        norm_num
      rw [h]
      exact List.Perm.swap _ _ _)).2.2.2.1

end battle

/-! ## Settlement -/

namespace gomap

variable {κ : Type} {α : Type} [DecidableEq κ]

theorem get_filter_of_get {k : κ} {v : α} (p : κ × α → Bool) (m : List (κ × α))
    (h : get k m = some v) (hp : p (k, v) = true) : get k (m.filter p) = some v := by
  induction m with
  | nil => simp [get] at h
  | cons e rest ih =>
    obtain ⟨k', v'⟩ := e
    by_cases hk : k' = k
    · subst hk
      simp only [get, if_true, Option.some.injEq] at h
      subst h
      simp [List.filter_cons, hp, get]
    · simp only [get, if_neg hk] at h
      by_cases hkeep : p (k', v') = true
      · simp [List.filter_cons, hkeep, get, hk, ih h]
      · simp [List.filter_cons, hkeep, ih h]

end gomap

namespace store

/-- The in-memory store never returns an error. -/
theorem MemoryIdem.SetIfNotExists_no_error (m : MemoryIdem) (now : Int) (key : String)
    (ttl : Int) : (m.SetIfNotExists now key ttl).2.2 = none := by
  unfold MemoryIdem.SetIfNotExists
  split
  · split <;> rfl
  · rfl

/-- A key that is not live at `now` is taken: the call returns true and stores
the expiry `now + ttl`. -/
theorem MemoryIdem.SetIfNotExists_fresh (m : MemoryIdem) (now : Int) (key : String) (ttl : Int)
    (h : ∀ exp, gomap.get key m.items = some exp → exp ≤ now) :
    (m.SetIfNotExists now key ttl).2.1 = true ∧
      gomap.get key (m.SetIfNotExists now key ttl).1.items = some (now + ttl) := by
  unfold MemoryIdem.SetIfNotExists
  split
  · rename_i exp hexp
    rw [if_neg (not_lt.2 (h exp hexp))]
    exact ⟨rfl, gomap.get_put_self _ _ _⟩
  · exact ⟨rfl, gomap.get_put_self _ _ _⟩

/-- A key that is live at `now` is refused and the store is left as it is. -/
theorem MemoryIdem.SetIfNotExists_live (m : MemoryIdem) (now : Int) (key : String) (ttl exp : Int)
    (h : gomap.get key m.items = some exp) (hnow : now < exp) :
    m.SetIfNotExists now key ttl = (m, false, none) := by
  unfold MemoryIdem.SetIfNotExists
  rw [h]
  simp [hnow]

/-- A call for another key does not touch the marker of `key`. -/
theorem MemoryIdem.SetIfNotExists_other (m : MemoryIdem) (now : Int) (key other : String)
    (ttl : Int) (hne : key ≠ other) :
    gomap.get key (m.SetIfNotExists now other ttl).1.items = gomap.get key m.items := by
  unfold MemoryIdem.SetIfNotExists
  split
  · split
    · rfl
    · exact gomap.get_put_ne _ _ _ _ hne
  · exact gomap.get_put_ne _ _ _ _ hne

/-- A sweep before the expiry keeps the marker. -/
theorem MemoryIdem.cleanup_keeps (m : MemoryIdem) (now : Int) (key : String) (exp : Int)
    (h : gomap.get key m.items = some exp) (hnow : now ≤ exp) :
    gomap.get key (m.cleanup now).items = some exp := by
  unfold MemoryIdem.cleanup
  exact gomap.get_filter_of_get _ _ h (by simpa using hnow)

end store

namespace room

theorem broadcastRoomOver_store {σ : Type} (I : store.Idempotency σ) (r : Room) (st : σ)
    (now : Int) (winner : String) :
    (r.broadcastRoomOver I st now winner).1 =
      (I.SetIfNotExists st now ("settle:" ++ r.matchID) settleTTL).1 := by
  unfold Room.broadcastRoomOver
  dsimp only
  split_ifs <;> rfl

/-- An attempt that finds the marker live sends nothing and leaves the
in-memory store as it is. -/
theorem broadcastRoomOver_live (r : Room) (st : store.MemoryIdem) (now exp : Int)
    (winner : String) (h : gomap.get ("settle:" ++ r.matchID) st.items = some exp)
    (hnow : now < exp) :
    r.broadcastRoomOver store.memoryIdem st now winner = (st, []) := by
  unfold Room.broadcastRoomOver
  simp [store.memoryIdem, store.MemoryIdem.SetIfNotExists_live st now _ settleTTL exp h hnow]

/-- An attempt that finds no live marker calls the sender once for every
player of the room, with `RoomOver{room_id, winner_id}`. -/
theorem broadcastRoomOver_fresh (r : Room) (st : store.MemoryIdem) (now : Int) (winner : String)
    (h : ∀ exp, gomap.get ("settle:" ++ r.matchID) st.items = some exp → exp ≤ now) :
    (r.broadcastRoomOver store.memoryIdem st now winner).2 =
      r.players.map (fun pid =>
        { playerID := pid, msgType := protocol.MsgRoomOver,
          msg := .roomOver { RoomId := r.id, WinnerId := winner } }) := by
  have hok := (store.MemoryIdem.SetIfNotExists_fresh st now _ settleTTL h).1
  unfold Room.broadcastRoomOver
  simp [store.memoryIdem, hok]

/-- While the marker of a match is live, every settlement attempt for that
match sends nothing, whatever other attempts and sweeps happen in between. -/
theorem runActivities_live (key : String) (exp : Int) (acts : List Activity)
    (st : store.MemoryIdem) (h : gomap.get key st.items = some exp)
    (hwin : ∀ a ∈ acts, a.time < exp) :
    ∀ (i : Nat) r' now w, acts[i]? = some (Activity.settle r' now w) →
      "settle:" ++ r'.matchID = key →
      (runActivities st acts)[i]? = some ([] : List Sent) := by
  induction acts generalizing st with
  | nil => intro i r' now w hi; simp at hi
  | cons a rest ih =>
    have hrest : ∀ a ∈ rest, a.time < exp := fun a ha => hwin a (List.mem_cons_of_mem _ ha)
    have ha : a.time < exp := hwin a (List.mem_cons_self _ _)
    cases a with
    | settle r0 now0 w0 =>
      simp only [Activity.time] at ha
      by_cases hk : "settle:" ++ r0.matchID = key
      · have hlive := broadcastRoomOver_live r0 st now0 exp w0 (hk ▸ h) ha
        intro i r' now w hi hkey
        cases i with
        | zero => simp [runActivities, hlive]
        | succ j =>
          simp only [List.getElem?_cons_succ] at hi
          simp only [runActivities, hlive, List.getElem?_cons_succ]
          exact ih st h hrest j r' now w hi hkey
      · have hst : gomap.get key
            (r0.broadcastRoomOver store.memoryIdem st now0 w0).1.items = some exp := by
          rw [broadcastRoomOver_store]
          show gomap.get key (st.SetIfNotExists now0 _ settleTTL).1.items = some exp
          rw [store.MemoryIdem.SetIfNotExists_other _ _ _ _ _ (Ne.symm hk)]
          exact h
        intro i r' now w hi hkey
        cases i with
        | zero =>
          simp only [List.getElem?_cons_zero, Option.some.injEq, Activity.settle.injEq] at hi
          obtain ⟨rfl, _, _⟩ := hi
          exact absurd hkey hk
        | succ j =>
          simp only [List.getElem?_cons_succ] at hi
          simp only [runActivities, List.getElem?_cons_succ]
          exact ih _ hst hrest j r' now w hi hkey
    | sweep now0 =>
      simp only [Activity.time] at ha
      intro i r' now w hi hkey
      cases i with
      | zero => simp at hi
      | succ j =>
        simp only [List.getElem?_cons_succ] at hi
        simp only [runActivities, List.getElem?_cons_succ]
        exact ih _ (store.MemoryIdem.cleanup_keeps st now0 key exp h ha.le) hrest j r' now w hi hkey

/-- A run of `Room.loop` calls `broadcastRoomOver` at most once, and has
returned when it did. -/
theorem loop_settlements {σ : Type} (I : store.Idempotency σ) (sched : List Select) (r : Room)
    (st : σ) :
    (r.loop I st sched).settlements ≤ 1 ∧
      ((r.loop I st sched).settlements = 1 → (r.loop I st sched).returned = true) := by
  induction sched generalizing r with
  | nil => simp [Room.loop]
  | cons c rest ih =>
    cases c with
    | event =>
      unfold Room.loop
      split
      · exact ih r
      · exact ih _
    | tick now =>
      unfold Room.loop
      dsimp only
      split
      · simp
      · exact ih _
    | done =>
      unfold Room.loop
      split
      · simp
      · exact ih r

end room

namespace room

/-- C7: with the in-memory idempotency store, the first settlement attempt
for a match (no live marker for its key) calls the sender with
`RoomOver{room_id, winner_id}` once for every original player, and every
later attempt for the same match made before the marker expires (5 minutes
after the first) sends nothing, whatever attempts of other rooms and store
sweeps happen in between; and a run of a room's loop makes at most one
settlement attempt, after which it has returned. -/
theorem ROOM_OVER_at_most_once (st : store.MemoryIdem) (r : Room) (t0 : Int) (winner : String)
    (hfresh : ∀ exp, gomap.get ("settle:" ++ r.matchID) st.items = some exp → exp ≤ t0)
    (acts : List Activity) (hwin : ∀ a ∈ acts, a.time < t0 + settleTTL) :
    (r.broadcastRoomOver store.memoryIdem st t0 winner).2 =
        r.players.map (fun pid =>
          { playerID := pid, msgType := protocol.MsgRoomOver,
            msg := .roomOver { RoomId := r.id, WinnerId := winner } }) ∧
    (∀ (i : Nat) r' now w, acts[i]? = some (Activity.settle r' now w) →
      r'.matchID = r.matchID →
      (runActivities (r.broadcastRoomOver store.memoryIdem st t0 winner).1 acts)[i]? =
        some ([] : List Sent)) ∧
    (∀ (σ : Type) (I : store.Idempotency σ) (r0 : Room) (s0 : σ) (sched : List Select),
      (r0.loop I s0 sched).settlements ≤ 1 ∧
        ((r0.loop I s0 sched).settlements = 1 → (r0.loop I s0 sched).returned = true)) := by
  refine ⟨broadcastRoomOver_fresh r st t0 winner hfresh, ?_, fun σ I r0 s0 sched =>
    loop_settlements I sched r0 s0⟩
  have hmark : gomap.get ("settle:" ++ r.matchID)
      (r.broadcastRoomOver store.memoryIdem st t0 winner).1.items = some (t0 + settleTTL) := by
    rw [broadcastRoomOver_store]
    exact (store.MemoryIdem.SetIfNotExists_fresh st t0 _ settleTTL hfresh).2
  intro i r' now w hi hmatch
  exact runActivities_live _ _ acts _ hmark hwin i r' now w hi (by rw [hmatch])

/-- Witness of `ROOM_OVER_at_most_once`: on an empty store the attempt of room
r1 at time 0 notifies A and B; a second attempt for the same match one second
later, after a sweep, sends nothing. -/
theorem ROOM_OVER_at_most_once_witness :
    ((NewRoom "r1" "m1" ["A", "B"]).broadcastRoomOver store.memoryIdem store.NewMemoryIdem 0
        "A").2 =
      [{ playerID := "A", msgType := protocol.MsgRoomOver,
         msg := .roomOver { RoomId := "r1", WinnerId := "A" } },
       { playerID := "B", msgType := protocol.MsgRoomOver,
         msg := .roomOver { RoomId := "r1", WinnerId := "A" } }] ∧
    (runActivities
        ((NewRoom "r1" "m1" ["A", "B"]).broadcastRoomOver store.memoryIdem store.NewMemoryIdem 0
          "A").1
        [Activity.sweep 500000000,
         Activity.settle (NewRoom "r1" "m1" ["A", "B"]) 1000000000 "A"])[1]? =
      some ([] : List Sent) :=
  have h := ROOM_OVER_at_most_once store.NewMemoryIdem (NewRoom "r1" "m1" ["A", "B"]) 0 "A"
    (by intro exp hexp; simp [store.NewMemoryIdem, gomap.get] at hexp)
    [Activity.sweep 500000000, Activity.settle (NewRoom "r1" "m1" ["A", "B"]) 1000000000 "A"]
    (by
      intro a ha
      simp only [List.mem_cons, List.mem_singleton, List.not_mem_nil, or_false] at ha
      rcases ha with rfl | rfl <;> simp [Activity.time, settleTTL])
  ⟨h.1, h.2.1 1 (NewRoom "r1" "m1" ["A", "B"]) 1000000000 "A" rfl rfl⟩

end room

/-! ## Session sequence numbers -/

namespace protocol

theorem Encode_seq (L : Lib) (msgType : Int) (body : Option Message) (seq : Nat) (f : Frame)
    (h : Encode L msgType body seq = some f) : f.Seq = seq := by
  unfold Encode at h
  split at h
  · split at h
    · cases h; rfl
    · cases h
  · cases h; rfl

theorem Encode_some (L : Lib) (msgType : Int) (m : Message) (seq : Nat) (f : Frame)
    (h : Encode L msgType (some m) seq = some f) :
    f = { Typ := msgType, Seq := seq, Body := some m, Version := CurrentVersion } := by
  simp only [Encode] at h
  split_ifs at h
  cases h
  rfl

end protocol

namespace session

theorem handedSeqs_sublist (res : List SendResult) :
    (handedSeqs res).Sublist (encodedSeqs res) := by
  induction res with
  | nil => exact List.Sublist.slnil
  | cons r rest ih =>
    cases r with
    | offline => exact ih
    | encodeError seq => exact List.Sublist.cons _ ih
    | handed c payload => exact List.Sublist.cons₂ _ ih

/-- A send that is rejected by the online check leaves the session as it is;
one that passes takes the next value of the counter. -/
theorem Send_cases (L : protocol.Lib) (s : Session) (msgType : Int)
    (msg : Option protocol.Message) :
    ((s.Online = false ∨ s.sender = none) ∧ s.Send L msgType msg = (s, .offline)) ∨
    ((s.Online = true ∧ s.sender ≠ none) ∧
      (s.Send L msgType msg).1 = { s with seq := (s.seq + 1) % 2 ^ 64 } ∧
      encodedSeqs [(s.Send L msgType msg).2] = [(s.seq + 1) % 2 ^ 64] ∧
      (∀ c payload, (s.Send L msgType msg).2 = .handed c payload → s.sender = some c)) := by
  unfold Session.Send
  cases hon : s.Online with
  | false => exact Or.inl ⟨Or.inl rfl, rfl⟩
  | true =>
    cases hs : s.sender with
    | none => exact Or.inl ⟨Or.inr rfl, rfl⟩
    | some c =>
      right
      refine ⟨⟨rfl, by simp⟩, ?_⟩
      dsimp only
      cases he : protocol.Encode L msgType msg ((s.seq + 1) % 2 ^ 64) with
      | none =>
        refine ⟨rfl, rfl, ?_⟩
        intro c' payload h
        cases h
      | some payload =>
        refine ⟨rfl, ?_, ?_⟩
        · simp [encodedSeqs, protocol.Encode_seq L _ _ _ _ he]
        · intro c' payload' h
          cases h
          rfl

theorem encodedSeqs_cons (r : SendResult) (rest : List SendResult) :
    encodedSeqs (r :: rest) = encodedSeqs [r] ++ encodedSeqs rest := by
  cases r <;> rfl

theorem calls_send (L : protocol.Lib) (s : Session) (msgType : Int)
    (msg : Option protocol.Message) (rest : List Call) :
    s.calls L (.send msgType msg :: rest) =
      (((s.Send L msgType msg).1.calls L rest).1,
        (s.Send L msgType msg).2 :: ((s.Send L msgType msg).1.calls L rest).2) := rfl

/-- The seq values given to `Encode` are the successive values of the wrapping
counter. -/
theorem calls_encodedSeqs (L : protocol.Lib) (ops : List Call) (s : Session) :
    encodedSeqs (s.calls L ops).2 =
      (List.range (encodedSeqs (s.calls L ops).2).length).map
        (fun k => (s.seq + k + 1) % 2 ^ 64) := by
  induction ops generalizing s with
  | nil => rfl
  | cons op rest ih =>
    cases op with
    | send msgType msg =>
      rw [calls_send]
      rcases Send_cases L s msgType msg with ⟨_, h⟩ | ⟨_, h1, h2, _⟩
      · rw [h]
        exact ih s
      · dsimp only
        rw [encodedSeqs_cons, h2, h1]
        have := ih { s with seq := (s.seq + 1) % 2 ^ 64 }
        rw [this]
        simp only [List.singleton_append, List.length_cons, List.length_map, List.length_range,
          List.range_succ_eq_map, List.map_cons, List.map_map]
        refine congrArg₂ _ (by simp) ?_
        apply List.map_congr_left
        intro k _
        simp only [Function.comp]
        omega
    | setSender sender now => exact ih _
    | clearSender now => exact ih _

/-- The counter ends advanced by the number of sends that passed the online
check, whatever rebinds and disconnections happened. -/
theorem calls_seq (L : protocol.Lib) (ops : List Call) (s : Session) :
    (s.calls L ops).1.seq % 2 ^ 64 =
      (s.seq + (encodedSeqs (s.calls L ops).2).length) % 2 ^ 64 := by
  induction ops generalizing s with
  | nil => rfl
  | cons op rest ih =>
    cases op with
    | send msgType msg =>
      rw [calls_send]
      rcases Send_cases L s msgType msg with ⟨_, h⟩ | ⟨_, h1, h2, _⟩
      · rw [h]
        exact ih s
      · dsimp only
        rw [encodedSeqs_cons, h2, h1, ih]
        simp only [List.singleton_append, List.length_cons]
        omega
    | setSender sender now => exact ih _
    | clearSender now => exact ih _

/-- Without wrap-around no call lowers the counter. -/
theorem calls_seq_lt (L : protocol.Lib) (ops : List Call) (s : Session)
    (hbound : s.seq + (encodedSeqs (s.calls L ops).2).length < 2 ^ 64) :
    (s.calls L ops).1.seq = s.seq + (encodedSeqs (s.calls L ops).2).length := by
  induction ops generalizing s with
  | nil => rfl
  | cons op rest ih =>
    cases op with
    | send msgType msg =>
      rw [calls_send] at hbound ⊢
      rcases Send_cases L s msgType msg with ⟨_, h⟩ | ⟨_, h1, h2, _⟩
      · rw [h] at hbound ⊢
        exact ih s hbound
      · dsimp only at hbound ⊢
        rw [encodedSeqs_cons, h2, h1] at hbound
        rw [encodedSeqs_cons, h2, h1]
        simp only [List.singleton_append, List.length_cons] at hbound ⊢
        have hs : (s.seq + 1) % 2 ^ 64 = s.seq + 1 := Nat.mod_eq_of_lt (by omega)
        rw [hs] at hbound ⊢
        rw [ih _ (by simpa using (by omega : s.seq + 1 +
          (encodedSeqs (Session.calls L { s with seq := s.seq + 1 } rest).2).length < 2 ^ 64))]
        simp only
        omega
    | setSender sender now => exact ih _ hbound
    | clearSender now => exact ih _ hbound

end session

namespace session

/-- Calls that run one after the other: for every session and every sequence
of `Send`, `SetSender` and `ClearSender` calls of which no two overlap and
that stays below the wrap-around of the `uint64` counter,
the k-th `Send` that passes the online check is encoded with seq = initial
counter + k (k itself for a created session, whose counter starts at 0); the
seq values of the envelopes handed to a sender are strictly increasing; the
counter ends advanced by the number of passing sends, so `ClearSender` and
`SetSender` do not reset it; and a `Send` rejected because the session is
offline or has no sender leaves the session, counter included, unchanged. -/
theorem seq_strictly_increasing (L : protocol.Lib) (s : Session) (ops : List Call)
    (hbound : s.seq + (encodedSeqs (s.calls L ops).2).length < 2 ^ 64) :
    encodedSeqs (s.calls L ops).2 =
        List.range' (s.seq + 1) (encodedSeqs (s.calls L ops).2).length ∧
    (handedSeqs (s.calls L ops).2).Pairwise (fun a b => a < b) ∧
    (s.calls L ops).1.seq = s.seq + (encodedSeqs (s.calls L ops).2).length ∧
    (∀ (t : Session) sender now,
      (t.SetSender sender now).1.seq = t.seq ∧ (t.ClearSender now).seq = t.seq) ∧
    (∀ (t : Session) msgType msg, t.Online = false ∨ t.sender = none →
      t.Send L msgType msg = (t, SendResult.offline)) := by
  have henc : encodedSeqs (s.calls L ops).2 =
      List.range' (s.seq + 1) (encodedSeqs (s.calls L ops).2).length := by
    conv_lhs => rw [calls_encodedSeqs]
    rw [List.range'_eq_map_range]
    apply List.map_congr_left
    intro k hk
    rw [List.mem_range] at hk
    rw [Nat.mod_eq_of_lt (by omega)]
    omega
  refine ⟨henc, ?_, calls_seq_lt L ops s hbound, fun t sender now => ⟨rfl, rfl⟩, ?_⟩
  · refine List.Pairwise.sublist (handedSeqs_sublist _) ?_
    rw [henc]
    exact List.pairwise_lt_range' _ _
  · intro t msgType msg h
    rcases Send_cases L t msgType msg with ⟨_, h1⟩ | ⟨⟨h2, h3⟩, _⟩
    · exact h1
    · rcases h with h | h
      · rw [h] at h2; cases h2
      · exact absurd h h3

/-- Witness of `seq_strictly_increasing`: a created session sends, goes
offline (a send is rejected), is rebound to another connection and sends
twice; the envelopes carry seq 1, 2, 3. -/
theorem seq_strictly_increasing_witness :
    encodedSeqs
        (Session.calls { marshalOK := fun _ => true, frameLen := fun _ => 0 }
          { PlayerID := "p", Username := "u", RoomID := "", ReconnectToken := "t",
            Online := true, LastSeen := 0, sender := some 1, seq := 0 }
          [Call.send 11 none, Call.clearSender 5, Call.send 40 none, Call.setSender (some 2) 9,
           Call.send 40 none, Call.send 41 none]).2 = [1, 2, 3] :=
  (seq_strictly_increasing { marshalOK := fun _ => true, frameLen := fun _ => 0 }
    { PlayerID := "p", Username := "u", RoomID := "", ReconnectToken := "t",
      Online := true, LastSeen := 0, sender := some 1, seq := 0 }
    [Call.send 11 none, Call.clearSender 5, Call.send 40 none, Call.setSender (some 2) 9,
     Call.send 40 none, Call.send 41 none]
    (by decide)).1

end session

/-! ## Direct replies of the dispatcher -/

namespace netws

theorem Client.Send_queue (L : protocol.Lib) (c : Client) (m : Option metrics.Metrics)
    (data : protocol.Frame) :
    (c.Send L m data).1.send = c.send ∨ (c.Send L m data).1.send = c.send ++ [data] := by
  unfold Client.Send
  split_ifs
  · exact Or.inl rfl
  · exact Or.inr rfl
  · exact Or.inl rfl

/-- A call `c.Send(payload)` leaves every outbound queue as it is or appends
`payload` to the queue of that connection. -/
theorem Server.clientSend_queues (L : protocol.Lib) (w : Server) (cid : Nat)
    (payload : protocol.Frame) (k : Nat) (c : Client)
    (h : gomap.get k (w.clientSend L cid payload).1.clients = some c) :
    ∃ c0, gomap.get k w.clients = some c0 ∧
      (c.send = c0.send ∨ (k = cid ∧ c.send = c0.send ++ [payload])) := by
  unfold Server.clientSend at h
  cases hc : gomap.get cid w.clients with
  | none =>
    rw [hc] at h
    exact ⟨c, h, Or.inl rfl⟩
  | some c1 =>
    rw [hc] at h
    dsimp only at h
    by_cases hk : k = cid
    · subst hk
      rw [gomap.get_modify_self, hc] at h
      simp only [Option.map_some', Option.some.injEq] at h
      subst h
      refine ⟨c1, hc, ?_⟩
      rcases Client.Send_queue L c1 w.metrics payload with h1 | h1
      · exact Or.inl h1
      · exact Or.inr ⟨rfl, h1⟩
    · rw [gomap.get_modify_ne _ _ _ _ hk] at h
      exact ⟨c, h, Or.inl rfl⟩

/-- Whatever `sendDirect` appends to an outbound queue is an envelope of the
given type with seq 0. -/
theorem Server.sendDirect_queues (L : protocol.Lib) (w : Server) (cid : Nat) (msgType : Int)
    (msg : protocol.Message) (k : Nat) (c : Client)
    (h : gomap.get k (w.sendDirect L cid msgType msg).1.clients = some c) :
    ∃ c0, gomap.get k w.clients = some c0 ∧
      (c.send = c0.send ∨
        (k = cid ∧ ∃ f : protocol.Frame, c.send = c0.send ++ [f] ∧ f.Seq = 0 ∧
          f.Typ = msgType ∧ f.Body = some msg)) := by
  unfold Server.sendDirect at h
  cases he : protocol.Encode L msgType (some msg) 0 with
  | none =>
    rw [he] at h
    exact ⟨c, h, Or.inl rfl⟩
  | some payload =>
    rw [he] at h
    obtain ⟨c0, h0, hq⟩ := Server.clientSend_queues L w cid payload k c h
    refine ⟨c0, h0, ?_⟩
    rcases hq with hq | ⟨hk, hq⟩
    · exact Or.inl hq
    · have hp := protocol.Encode_some L _ _ _ _ he
      exact Or.inr ⟨hk, payload, hq, by rw [hp], by rw [hp], by rw [hp]⟩

end netws

namespace scenario

/-- C9 (counterexample): connection 1 logs in, which sends LOGIN_RESP through
the session with seq 1, and then sends a PING; the PONG written directly to
the same connection, whose player_id is set, carries seq 0, so the seq values
on the session's bound connection are 1, 0 and not strictly increasing. -/
theorem pong_after_login_has_seq_zero :
    (gomap.get 1 afterLoginAndPing.clients).map
        (fun c => (c.playerID, c.send.map (fun f => (f.Typ, f.Seq)))) =
      some ("p1", [(protocol.MsgLoginResp, 1), (protocol.MsgPong, 0)]) ∧
    (afterLoginAndPing.sessions.Get "p1").map (fun s => (s.sender, s.seq)) = some (some 1, 1) ∧
    ¬ ([1, 0] : List Nat).Pairwise (fun a b => a < b) := by
  decide

end scenario

namespace session

end session

/-! ## Matchmaker conservation -/

namespace matcher

theorem Pending_snoc {p : String} {log : List Step} (h : Pending p log) (e : Step)
    (he1 : e ≠ Step.checked p false) (he2 : ∀ ps, e = Step.room ps → p ∉ ps) :
    Pending p (log ++ [e]) := by
  obtain ⟨l1, l2, hlog, hev, hroom⟩ := h
  refine ⟨l1, l2 ++ [e], by rw [hlog]; simp, ?_, ?_⟩
  · intro hmem
    rcases List.mem_append.1 hmem with hmem | hmem
    · exact hev hmem
    · exact he1 (List.mem_singleton.1 hmem).symm
  · intro ps hmem
    rcases List.mem_append.1 hmem with hmem | hmem
    · exact hroom ps hmem
    · exact he2 ps (List.mem_singleton.1 hmem).symm

theorem Pending_of_appended (p : String) (log : List Step) :
    Pending p (log ++ [Step.appended p]) :=
  ⟨log, [], rfl, by simp, by simp⟩

theorem Scanned_snoc {online : Oracle} {p : String} {log : List Step}
    (h : Scanned online p log) (q : String) (b : Bool) :
    Scanned online p (log ++ [Step.checked q b]) := by
  obtain ⟨l3, l4, hlog, hon, hall⟩ := h
  refine ⟨l3, l4 ++ [Step.checked q b], by rw [hlog]; simp, hon, ?_⟩
  intro e hmem
  rcases List.mem_append.1 hmem with hmem | hmem
  · exact hall e hmem
  · exact ⟨q, b, List.mem_singleton.1 hmem⟩

theorem Scanned_of_checked (online : Oracle) (p : String) (log : List Step)
    (h : online log p = true) : Scanned online p (log ++ [Step.checked p true]) :=
  ⟨log, [], rfl, h, by simp⟩

theorem RoomsJustified_snoc {online : Oracle} {log : List Step}
    (h : RoomsJustified online log) (e : Step)
    (he : ∀ ps, e = Step.room ps → ∀ p ∈ ps, Pending p log ∧ Scanned online p log) :
    RoomsJustified online (log ++ [e]) := by
  intro pre ps post hsplit p hp
  rcases List.eq_nil_or_concat post with rfl | ⟨post', x, rfl⟩
  · have := List.append_inj' (show log ++ [e] = pre ++ [Step.room ps] from hsplit) rfl
    obtain ⟨h1, h2⟩ := this
    subst h1
    simp only [List.cons.injEq, and_true] at h2
    exact he ps h2 p hp
  · have hsplit' : log ++ [e] = (pre ++ Step.room ps :: post') ++ [x] := by
      rw [hsplit]; simp
    obtain ⟨h1, _⟩ := List.append_inj' hsplit' rfl
    exact h pre ps post' h1 p hp

end matcher

namespace matcher

theorem mem_foldl_filter (ps enq : List String) (q : String) :
    q ∈ ps.foldl (fun enq p => enq.filter (fun q => decide (q ≠ p))) enq ↔ q ∈ enq ∧ q ∉ ps := by
  induction ps generalizing enq with
  | nil => simp
  | cons p rest ih =>
    rw [List.foldl_cons, ih]
    simp only [List.mem_filter, decide_eq_true_eq, List.mem_cons, not_or]
    tauto

theorem scan_inv (N : Int) (online : Oracle) (A : List String) (queue : List String) :
    ∀ (players enq : List String) (log : List Step),
      ScanInv online A queue players enq log →
      ScanInv online A (scan N online queue players enq log).queue
        (scan N online queue players enq log).players
        (scan N online queue players enq log).enqueuedAt
        (scan N online queue players enq log).log := by
  induction queue with
  | nil => intro players enq log h; exact h
  | cons p queue ih =>
    intro players enq log h
    obtain ⟨hrooms, hnodup, hqueue, hplayers, hacc⟩ := h
    have hp := hqueue p (List.mem_cons_self _ _)
    have hnd : (players ++ queue).Nodup ∧ p ∉ players ∧ p ∉ queue := by
      rw [List.nodup_append] at hnodup
      obtain ⟨h1, h2, h3⟩ := hnodup
      rw [List.nodup_cons] at h2
      refine ⟨List.nodup_append.2 ⟨h1, h2.2, fun x hx1 hx2 =>
        h3 hx1 (List.mem_cons_of_mem _ hx2)⟩, ?_, h2.1⟩
      intro hpp
      exact h3 hpp (List.mem_cons_self _ _)
    unfold scan
    by_cases hlen : (players.length : Int) < N
    · rw [if_pos hlen]
      by_cases hon : online log p = true
      · rw [if_pos hon]
        apply ih
        refine ⟨RoomsJustified_snoc hrooms _ (by intro ps h; cases h), ?_, ?_, ?_, ?_⟩
        · simpa [List.append_assoc] using hnodup
        · intro q hq
          have := hqueue q (List.mem_cons_of_mem _ hq)
          exact ⟨this.1, Pending_snoc this.2 _ (by simp) (by intro ps h; cases h)⟩
        · intro q hq
          rcases List.mem_append.1 hq with hq | hq
          · have := hplayers q hq
            exact ⟨this.1, Pending_snoc this.2.1 _ (by simp) (by intro ps h; cases h),
              Scanned_snoc this.2.2 p true⟩
          · rw [List.mem_singleton] at hq
            subst hq
            exact ⟨hp.1, Pending_snoc hp.2 _ (by simp) (by intro ps h; cases h),
              Scanned_of_checked online q log hon⟩
        · intro q hq
          rcases List.mem_append.1 hq with hq | hq
          · exact hacc q hq
          · simp at hq
      · rw [if_neg hon]
        apply ih
        refine ⟨RoomsJustified_snoc hrooms _ (by intro ps h; cases h), hnd.1, ?_, ?_, ?_⟩
        · intro q hq
          have := hqueue q (List.mem_cons_of_mem _ hq)
          have hne : q ≠ p := fun h => hnd.2.2 (h ▸ hq)
          refine ⟨List.mem_filter.2 ⟨this.1, by simpa using hne⟩,
            Pending_snoc this.2 _ ?_ (by intro ps h; cases h)⟩
          intro h
          simp only [Step.checked.injEq, and_true] at h
          exact hne h.symm
        · intro q hq
          have := hplayers q hq
          have hne : q ≠ p := fun h => hnd.2.1 (h ▸ hq)
          refine ⟨List.mem_filter.2 ⟨this.1, by simpa using hne⟩,
            Pending_snoc this.2.1 _ ?_ (by intro ps h; cases h), Scanned_snoc this.2.2 p false⟩
          intro h
          simp only [Step.checked.injEq, and_true] at h
          exact hne h.symm
        · intro q hq
          rcases List.mem_append.1 hq with hq | hq
          · exact hacc q hq
          · simp at hq
    · rw [if_neg hlen]
      exact ⟨hrooms, hnodup, hqueue, hplayers, hacc⟩

theorem formBatches_inv (N : Int) (online : Oracle) (A : List String) (fuel : Nat) :
    ∀ (queue enq : List String) (log : List Step),
      ScanInv online A queue [] enq log →
      LoopInv online A (formBatches N online fuel queue enq log) := by
  induction fuel with
  | zero => intro queue enq log h; exact h
  | succ fuel ih =>
    intro queue enq log h
    unfold formBatches
    by_cases hlen : (queue.length : Int) ≥ N
    · rw [if_pos hlen]
      dsimp only
      obtain ⟨hrooms, hnodup, hqueue, hplayers, hacc⟩ := scan_inv N online A queue [] enq log h
      split_ifs with hfew
      · refine ⟨hrooms, by simpa using hnodup, ?_, by simp, hacc⟩
        intro q hq
        rcases List.mem_append.1 hq with hq | hq
        · exact ⟨(hplayers q hq).1, (hplayers q hq).2.1⟩
        · exact hqueue q hq
      · apply ih
        rw [List.nodup_append] at hnodup
        obtain ⟨_, hndq, hdisj⟩ := hnodup
        refine ⟨RoomsJustified_snoc hrooms _ ?_, by simpa using hndq, ?_, by simp, ?_⟩
        · intro ps hps p hp
          simp only [Step.room.injEq] at hps
          subst hps
          exact (hplayers p hp).2
        · intro q hq
          have hnot : q ∉ (scan N online queue [] enq log).players :=
            fun hqp => hdisj hqp hq
          refine ⟨(mem_foldl_filter _ _ _).2 ⟨(hqueue q hq).1, hnot⟩,
            Pending_snoc (hqueue q hq).2 _ (by simp) ?_⟩
          intro ps hps
          simp only [Step.room.injEq] at hps
          subst hps
          exact hnot
        · intro q hq
          rcases List.mem_append.1 hq with hq | hq
          · exact hacc q hq
          · simp at hq
    · rw [if_neg hlen]
      exact h

theorem consume_inv (N : Int) (online : Oracle) (A : List String) (fuel : Nat) (m : Matcher)
    (pid : String) (hpid : pid ∈ A) (h : LoopInv online A m) :
    LoopInv online A (consume N online fuel m pid) := by
  unfold consume
  split_ifs with hstuck hdup
  · exact h
  · obtain ⟨hrooms, hnodup, hqueue, _, hacc⟩ := h
    refine ⟨RoomsJustified_snoc hrooms _ (by intro ps h; cases h), hnodup, ?_, by simp, ?_⟩
    · intro q hq
      exact ⟨(hqueue q hq).1, Pending_snoc (hqueue q hq).2 _ (by simp) (by intro ps h; cases h)⟩
    · intro q hq
      rcases List.mem_append.1 hq with hq | hq
      · exact hacc q hq
      · simp at hq
  · obtain ⟨hrooms, hnodup, hqueue, _, hacc⟩ := h
    apply formBatches_inv
    have hnotq : pid ∉ m.queue := fun hq => hdup (hqueue pid hq).1
    refine ⟨RoomsJustified_snoc hrooms _ (by intro ps h; cases h), ?_, ?_, by simp, ?_⟩
    · simp only [List.nil_append] at hnodup ⊢
      exact List.Nodup.append hnodup (List.nodup_singleton _) (by simpa using hnotq)
    · intro q hq
      rcases List.mem_append.1 hq with hq | hq
      · exact ⟨List.mem_append_left _ (hqueue q hq).1,
          Pending_snoc (hqueue q hq).2 _ (by simp) (by intro ps h; cases h)⟩
      · rw [List.mem_singleton] at hq
        subst hq
        exact ⟨List.mem_append_right _ (List.mem_singleton_self _), Pending_of_appended _ _⟩
    · intro q hq
      rcases List.mem_append.1 hq with hq | hq
      · exact hacc q hq
      · simp only [List.mem_singleton, Step.appended.injEq] at hq
        subst hq
        exact hpid

theorem foldl_consume_inv (N : Int) (online : Oracle) (A : List String) (fuel : Nat)
    (ids : List String) :
    ∀ m : Matcher, (∀ pid ∈ ids, pid ∈ A) → LoopInv online A m →
      LoopInv online A (ids.foldl (consume N online fuel) m) := by
  induction ids with
  | nil => intro m _ h; exact h
  | cons pid rest ih =>
    intro m hsub h
    exact ih _ (fun q hq => hsub q (List.mem_cons_of_mem _ hq))
      (consume_inv N online A fuel m pid (hsub pid (List.mem_cons_self _ _)) h)

theorem loop_inv (N : Int) (online : Oracle) (fuel : Nat) (ids : List String) :
    LoopInv online ids (loop N online fuel ids) := by
  have h0 : LoopInv online ids { enqueuedAt := [], queue := [], log := [], stuck := false } := by
    refine ⟨?_, by simp, by simp, by simp, by simp⟩
    intro pre ps post h
    simp at h
  unfold loop
  split_ifs
  · exact h0
  · exact foldl_consume_inv N online ids fuel ids _ (fun _ h => h) h0

end matcher

namespace matcher

/-- C10: for every sequence of ids read by the matchmaker loop and every
online oracle, each player placed in a created room (and so sent MATCH_RESP)
is one of the ids accepted by `Enqueue`, was appended to the pending queue
before, has since been neither evicted nor placed in another room, and was
answered online by `IsOnline` in the run of calls that selected the batch. -/
theorem matched_players_were_pending (playersPerRoom : Int) (online : Oracle) (fuel : Nat)
    (ids : List String) (pre : List Step) (ps : List String) (post : List Step)
    (hroom : (loop playersPerRoom online fuel ids).log = pre ++ Step.room ps :: post)
    (p : String) (hp : p ∈ ps) :
    p ∈ ids ∧
    (∃ l1 l2, pre = l1 ++ Step.appended p :: l2 ∧ Step.checked p false ∉ l2 ∧
      ∀ ps', Step.room ps' ∈ l2 → p ∉ ps') ∧
    (∃ l3 l4, pre = l3 ++ Step.checked p true :: l4 ∧ online l3 p = true ∧
      ∀ e ∈ l4, ∃ q b, e = Step.checked q b) := by
  obtain ⟨hrooms, _, _, _, hacc⟩ := loop_inv playersPerRoom online fuel ids
  obtain ⟨hpend, hscan⟩ := hrooms pre ps post hroom p hp
  refine ⟨?_, hpend, hscan⟩
  obtain ⟨l1, l2, hpre, _, _⟩ := hpend
  apply hacc
  rw [hroom, hpre]
  simp

/-- Witness of `matched_players_were_pending`: with rooms of two, ids a, b, c
enqueued and b offline at its check, the room is made of a and c. -/
theorem matched_players_were_pending_witness :
    (loop 2 (fun _ p => decide (p ≠ "b")) 5 ["a", "b", "c"]).log =
        [Step.appended "a", Step.appended "b", Step.checked "a" true, Step.checked "b" false,
          Step.appended "c", Step.checked "a" true, Step.checked "c" true] ++
          Step.room ["a", "c"] :: [] ∧
      "c" ∈ ["a", "b", "c"] :=
  ⟨by decide,
    (matched_players_were_pending 2 (fun _ p => decide (p ≠ "b")) 5 ["a", "b", "c"]
      [Step.appended "a", Step.appended "b", Step.checked "a" true, Step.checked "b" false,
        Step.appended "c", Step.checked "a" true, Step.checked "c" true]
      ["a", "c"] [] (by decide) "c" (by decide)).1⟩

end matcher

/-! ## Zero input and negated input -/

namespace gomap

variable {κ : Type} {α : Type} [DecidableEq κ]

theorem modify_eq_self (k : κ) (f : α → α) (m : List (κ × α))
    (h : ∀ v, get k m = some v → f v = v) : modify k f m = m := by
  induction m with
  | nil => rfl
  | cons e rest ih =>
    obtain ⟨k', v⟩ := e
    by_cases hk : k' = k
    · have := h v (by simp [get, hk])
      simp [modify, hk, this]
    · have hrest : ∀ v, get k rest = some v → f v = v := by
        intro v' hv'
        exact h v' (by simpa [get, hk] using hv')
      simp [modify, hk, ih hrest]

theorem modify_modify (k : κ) (f g : α → α) (m : List (κ × α)) :
    modify k g (modify k f m) = modify k (fun v => g (f v)) m := by
  induction m with
  | nil => rfl
  | cons e rest ih =>
    obtain ⟨k', v⟩ := e
    by_cases hk : k' = k
    · simp [modify, hk]
    · simp [modify, hk, ih]

end gomap

namespace battle

/-- `ApplyInput` for a player that is present and alive. -/
theorem ApplyInput_alive (s : State) (playerID : String) (inp : protocol.PlayerInput)
    (p : PlayerState) (hp : gomap.get playerID s.Players = some p) (halive : 0 < p.HP) :
    ApplyInput s playerID (some inp) =
      { s with
        Players := gomap.modify playerID
          (fun q => { q with
            X := clampFloat32 (q.X + clampFloat32 inp.Dx (-maxMovePerTick) maxMovePerTick)
              arenaMin arenaMax,
            Y := clampFloat32 (q.Y + clampFloat32 inp.Dy (-maxMovePerTick) maxMovePerTick)
              arenaMin arenaMax })
          s.Players } := by
  simp only [ApplyInput, hp, if_neg (not_le.2 halive)]

theorem clampFloat32_of_mem (v lo hi : ℚ) (h1 : lo ≤ v) (h2 : v ≤ hi) :
    clampFloat32 v lo hi = v := by
  unfold clampFloat32
  rw [if_neg (not_lt.2 h1), if_neg (not_lt.2 h2)]

/-- A zero input is a no-op on every state in which the player, if present,
is inside the arena. -/
theorem ApplyInput_zero_in_arena (s : State) (playerID : String)
    (harena : ∀ p, gomap.get playerID s.Players = some p →
      arenaMin ≤ p.X ∧ p.X ≤ arenaMax ∧ arenaMin ≤ p.Y ∧ p.Y ≤ arenaMax) :
    ApplyInput s playerID (some { Dx := 0, Dy := 0 }) = s := by
  cases hp : gomap.get playerID s.Players with
  | none => simp [ApplyInput, hp]
  | some p =>
    by_cases halive : 0 < p.HP
    · rw [ApplyInput_alive s playerID _ p hp halive]
      have hz : clampFloat32 0 (-maxMovePerTick) maxMovePerTick = 0 :=
        clampFloat32_of_mem _ _ _ (by norm_num [maxMovePerTick]) (by norm_num [maxMovePerTick])
      simp only [hz, add_zero]
      rw [gomap.modify_eq_self]
      intro v hv
      rw [hp] at hv
      cases hv
      obtain ⟨h1, h2, h3, h4⟩ := harena p hp
      rw [clampFloat32_of_mem _ _ _ h1 h2, clampFloat32_of_mem _ _ _ h3 h4]
    · simp [ApplyInput, hp, not_lt.1 halive]

/-- C12 (defect of `NewState`, the one of C4): in the state made by `NewState`
for three ids the third player stands at x = 150, outside the arena, and a
zero input moves it to x = 100, so `ApplyInput` with (0, 0) is not a no-op
there. -/
theorem ApplyInput_zero_moves_third_player :
    gomap.get "c" (NewState ["a", "b", "c"]).Players =
        some { ID := "c", X := 150, Y := 0, HP := 100, SkillCD := 0 } ∧
      gomap.get "c"
          (ApplyInput (NewState ["a", "b", "c"]) "c" (some { Dx := 0, Dy := 0 })).Players =
        some { ID := "c", X := 100, Y := 0, HP := 100, SkillCD := 0 } ∧
      ApplyInput (NewState ["a", "b", "c"]) "c" (some { Dx := 0, Dy := 0 }) ≠
        NewState ["a", "b", "c"] := by
  have h0 : gomap.get "c" (NewState ["a", "b", "c"]).Players =
      some { ID := "c", X := 150, Y := 0, HP := 100, SkillCD := 0 } := by
    simp [NewState, newStateLoop, gomap.put, gomap.get, defaultHP]
    norm_num
  have h1 : gomap.get "c"
      (ApplyInput (NewState ["a", "b", "c"]) "c" (some { Dx := 0, Dy := 0 })).Players =
      some { ID := "c", X := 100, Y := 0, HP := 100, SkillCD := 0 } := by
    rw [ApplyInput_alive _ _ _ _ h0 (by decide)]
    simp only [gomap.get_modify_self, h0, Option.map_some']
    have hz : clampFloat32 0 (-maxMovePerTick) maxMovePerTick = 0 :=
      clampFloat32_of_mem _ _ _ (by norm_num [maxMovePerTick]) (by norm_num [maxMovePerTick])
    simp only [hz, add_zero]
    norm_num [clampFloat32, arenaMin, arenaMax]
  refine ⟨h0, h1, ?_⟩
  intro heq
  rw [heq, h0] at h1
  simp at h1

/-- C13: over exact arithmetic, for an alive player and any delta (dx, dy),
if neither `ApplyInput` with (dx, dy) nor the following `ApplyInput` with
(-dx, -dy) has its result clamped by the arena bounds, the two calls bring the
player back to its original position, whether or not the delta clamp to
[-5, 5] fires; the whole state is the original one again. -/
theorem ApplyInput_then_negation (s : State) (playerID : String) (p : PlayerState) (dx dy : ℚ)
    (hp : gomap.get playerID s.Players = some p) (halive : 0 < p.HP)
    (h1x : -100 ≤ p.X + max (-5) (min dx 5) ∧ p.X + max (-5) (min dx 5) ≤ 100)
    (h1y : -100 ≤ p.Y + max (-5) (min dy 5) ∧ p.Y + max (-5) (min dy 5) ≤ 100)
    (h2x : -100 ≤ p.X + max (-5) (min dx 5) + max (-5) (min (-dx) 5) ∧
      p.X + max (-5) (min dx 5) + max (-5) (min (-dx) 5) ≤ 100)
    (h2y : -100 ≤ p.Y + max (-5) (min dy 5) + max (-5) (min (-dy) 5) ∧
      p.Y + max (-5) (min dy 5) + max (-5) (min (-dy) 5) ≤ 100) :
    gomap.get playerID
        (ApplyInput (ApplyInput s playerID (some { Dx := dx, Dy := dy })) playerID
          (some { Dx := -dx, Dy := -dy })).Players = some p ∧
      ApplyInput (ApplyInput s playerID (some { Dx := dx, Dy := dy })) playerID
        (some { Dx := -dx, Dy := -dy }) = s := by
  have hneg : ∀ d : ℚ, max (-5) (min (-d) 5) = -max (-5) (min d 5) := by
    intro d
    rcases le_total d 5 with h5 | h5 <;> rcases le_total d (-5) with hm | hm <;>
      rcases le_total (-d) 5 with h5' | h5' <;> rcases le_total (-d) (-5) with hm' | hm' <;>
      simp [min_eq_left, min_eq_right, max_eq_left, max_eq_right, *] <;> linarith
  have hstate : ApplyInput (ApplyInput s playerID (some { Dx := dx, Dy := dy })) playerID
      (some { Dx := -dx, Dy := -dy }) = s := by
    rw [ApplyInput_alive s playerID _ p hp halive]
    have hp1 : gomap.get playerID
        ({ s with
          Players := gomap.modify playerID
            (fun q => { q with
              X := clampFloat32 (q.X + clampFloat32 dx (-maxMovePerTick) maxMovePerTick)
                arenaMin arenaMax,
              Y := clampFloat32 (q.Y + clampFloat32 dy (-maxMovePerTick) maxMovePerTick)
                arenaMin arenaMax })
            s.Players } : State).Players =
        some { p with
          X := clampFloat32 (p.X + clampFloat32 dx (-maxMovePerTick) maxMovePerTick)
            arenaMin arenaMax,
          Y := clampFloat32 (p.Y + clampFloat32 dy (-maxMovePerTick) maxMovePerTick)
            arenaMin arenaMax } := by
      simp only [gomap.get_modify_self, hp, Option.map_some']
    rw [ApplyInput_alive _ playerID _ _ hp1 halive]
    simp only [gomap.modify_modify]
    rw [gomap.modify_eq_self]
    intro v hv
    rw [hp] at hv
    cases hv
    simp only [maxMovePerTick, arenaMin, arenaMax]
    rw [clampFloat32_eq_max_min dx (-5) 5 (by norm_num),
      clampFloat32_eq_max_min dy (-5) 5 (by norm_num),
      clampFloat32_eq_max_min (-dx) (-5) 5 (by norm_num),
      clampFloat32_eq_max_min (-dy) (-5) 5 (by norm_num),
      clampFloat32_of_mem _ _ _ h1x.1 h1x.2, clampFloat32_of_mem _ _ _ h1y.1 h1y.2,
      clampFloat32_of_mem _ _ _ h2x.1 h2x.2, clampFloat32_of_mem _ _ _ h2y.1 h2y.2,
      hneg dx, hneg dy]
    simp
  exact ⟨by rw [hstate]; exact hp, hstate⟩

end battle

namespace battle

/-- Witness of `ApplyInput_then_negation`: a player at the origin asked to
move by (7, -2) and then by (-7, 2) is back at the origin. -/
theorem ApplyInput_then_negation_witness :
    ApplyInput
        (ApplyInput
          { Players := [("A", { ID := "A", X := 0, Y := 0, HP := 100, SkillCD := 0 })], Tick := 3 }
          "A" (some { Dx := 7, Dy := -2 }))
        "A" (some { Dx := -7, Dy := - -2 }) =
      { Players := [("A", { ID := "A", X := 0, Y := 0, HP := 100, SkillCD := 0 })], Tick := 3 } :=
  (ApplyInput_then_negation
    { Players := [("A", { ID := "A", X := 0, Y := 0, HP := 100, SkillCD := 0 })], Tick := 3 }
    "A" { ID := "A", X := 0, Y := 0, HP := 100, SkillCD := 0 } 7 (-2)
    (by decide) (by decide)
    (by norm_num) (by norm_num) (by norm_num) (by norm_num)).2

end battle

/-! ## The in-memory idempotency store -/

namespace store

/-- While the marker of `key` is live, every `SetIfNotExists` for `key` is
refused, whatever calls for other keys and sweeps happen in between. -/
theorem calls_live (key : String) (exp : Int) (cs : List Call) (m : MemoryIdem)
    (h : gomap.get key m.items = some exp) (hwin : ∀ c ∈ cs, c.time < exp) :
    ∀ (i : Nat) now ttl, cs[i]? = some (Call.set key now ttl) →
      (m.calls cs).2[i]? = some (some (false, none)) := by
  induction cs generalizing m with
  | nil => intro i now ttl hi; simp at hi
  | cons c rest ih =>
    have hrest : ∀ c ∈ rest, c.time < exp := fun c hc => hwin c (List.mem_cons_of_mem _ hc)
    have hc : c.time < exp := hwin c (List.mem_cons_self _ _)
    cases c with
    | set k0 now0 ttl0 =>
      simp only [Call.time] at hc
      by_cases hk : k0 = key
      · subst hk
        have hlive := MemoryIdem.SetIfNotExists_live m now0 k0 ttl0 exp h hc
        intro i now ttl hi
        cases i with
        | zero => simp [MemoryIdem.calls, hlive]
        | succ j =>
          simp only [List.getElem?_cons_succ] at hi
          simp only [MemoryIdem.calls, hlive, List.getElem?_cons_succ]
          exact ih m h hrest j now ttl hi
      · have hst : gomap.get key (m.SetIfNotExists now0 k0 ttl0).1.items = some exp := by
          rw [MemoryIdem.SetIfNotExists_other _ _ _ _ _ (Ne.symm hk)]
          exact h
        intro i now ttl hi
        cases i with
        | zero =>
          simp only [List.getElem?_cons_zero, Option.some.injEq, Call.set.injEq] at hi
          exact absurd hi.1 hk
        | succ j =>
          simp only [List.getElem?_cons_succ] at hi
          simp only [MemoryIdem.calls, List.getElem?_cons_succ]
          exact ih _ hst hrest j now ttl hi
    | sweep now0 =>
      simp only [Call.time] at hc
      intro i now ttl hi
      cases i with
      | zero => simp at hi
      | succ j =>
        simp only [List.getElem?_cons_succ] at hi
        simp only [MemoryIdem.calls, List.getElem?_cons_succ]
        exact ih _ (MemoryIdem.cleanup_keeps m now0 key exp h hc.le) hrest j now ttl hi

theorem calls_no_error (cs : List Call) (m : MemoryIdem) :
    ∀ r ∈ (m.calls cs).2, ∀ b e, r = some (b, e) → e = none := by
  induction cs generalizing m with
  | nil => intro r hr; simp [MemoryIdem.calls] at hr
  | cons c rest ih =>
    cases c with
    | set k0 now0 ttl0 =>
      intro r hr b e hre
      simp only [MemoryIdem.calls, List.mem_cons] at hr
      rcases hr with rfl | hr
      · simp only [Option.some.injEq] at hre
        have := MemoryIdem.SetIfNotExists_no_error m now0 k0 ttl0
        rw [hre] at this
        exact this
      · exact ih _ r hr b e hre
    | sweep now0 =>
      intro r hr b e hre
      simp only [MemoryIdem.calls, List.mem_cons] at hr
      rcases hr with rfl | hr
      · cases hre
      · exact ih _ r hr b e hre

/-- C14: with an explicit clock, `SetIfNotExists` returns true iff the key has
no stored expiry or `now` is not before the stored expiry, and then stores the
expiry `now + ttl`; a call that returns false leaves the store unchanged; so
after a call that returned true at `now`, every call for that key at a time
before `now + ttl` returns false, whatever other calls and sweeps come in
between; and no call ever returns an error. -/
theorem SetIfNotExists_contract (m : MemoryIdem) (key : String) (now ttl : Int) :
    ((m.SetIfNotExists now key ttl).2.1 = true ↔
      (gomap.get key m.items = none ∨ ∃ exp, gomap.get key m.items = some exp ∧ ¬ now < exp)) ∧
    ((m.SetIfNotExists now key ttl).2.1 = true →
      gomap.get key (m.SetIfNotExists now key ttl).1.items = some (now + ttl)) ∧
    ((m.SetIfNotExists now key ttl).2.1 = false → (m.SetIfNotExists now key ttl).1 = m) ∧
    (m.SetIfNotExists now key ttl).2.2 = none ∧
    (∀ cs : List Call, (m.SetIfNotExists now key ttl).2.1 = true →
      (∀ c ∈ cs, c.time < now + ttl) →
      ∀ (i : Nat) now' ttl', cs[i]? = some (Call.set key now' ttl') →
        ((m.SetIfNotExists now key ttl).1.calls cs).2[i]? = some (some (false, none))) ∧
    (∀ (m' : MemoryIdem) (cs : List Call), ∀ r ∈ (m'.calls cs).2, ∀ b e,
      r = some (b, e) → e = none) := by
  have hiff : (m.SetIfNotExists now key ttl).2.1 = true ↔
      (gomap.get key m.items = none ∨
        ∃ exp, gomap.get key m.items = some exp ∧ ¬ now < exp) := by
    unfold MemoryIdem.SetIfNotExists
    cases hg : gomap.get key m.items with
    | none => simp
    | some exp =>
      by_cases hlt : now < exp
      · simp [hlt]
      · simp [hlt, not_lt.1 hlt]
  have hstore : (m.SetIfNotExists now key ttl).2.1 = true →
      gomap.get key (m.SetIfNotExists now key ttl).1.items = some (now + ttl) := by
    intro h
    refine (MemoryIdem.SetIfNotExists_fresh m now key ttl ?_).2
    intro exp hexp
    rcases hiff.1 h with hn | ⟨exp', hexp', hnot⟩
    · rw [hn] at hexp; cases hexp
    · rw [hexp] at hexp'
      cases hexp'
      exact not_lt.1 hnot
  refine ⟨hiff, hstore, ?_, MemoryIdem.SetIfNotExists_no_error m now key ttl, ?_, ?_⟩
  · intro h
    unfold MemoryIdem.SetIfNotExists at h ⊢
    cases hg : gomap.get key m.items with
    | none => rw [hg] at h; simp at h
    | some exp =>
      rw [hg] at h
      by_cases hlt : now < exp
      · simp [hlt]
      · simp [hlt] at h
  · intro cs htrue hwin i now' ttl' hi
    exact calls_live key (now + ttl) cs _ (hstore htrue) hwin i now' ttl' hi
  · intro m' cs
    exact calls_no_error cs m'

/-- Witness of `SetIfNotExists_contract`: on an empty store the call at time 0
with ttl 10 returns true; a call for another key, a sweep and then a second
call for the key at time 7 follow, and the second call returns false. -/
theorem SetIfNotExists_contract_witness :
    (NewMemoryIdem.SetIfNotExists 0 "k" 10).2.1 = true ∧
      ((NewMemoryIdem.SetIfNotExists 0 "k" 10).1.calls
        [Call.set "other" 3 10, Call.sweep 5, Call.set "k" 7 10]).2[2]? =
        some (some (false, none)) :=
  ⟨by decide,
    (SetIfNotExists_contract NewMemoryIdem "k" 0 10).2.2.2.2.1
      [Call.set "other" 3 10, Call.sweep 5, Call.set "k" 7 10] (by decide)
      (by decide) 2 7 10 rfl⟩

end store

/-! ## The rate limiter of a connection -/

namespace netws

/-- A call inside the current window only counts. -/
theorem AllowMessage_same_window (c : Client) (now limit : Int) (hlimit : 0 < limit)
    (hwin : now - c.winStart < second) :
    c.AllowMessage now limit =
      ({ c with winCount := c.winCount + 1 }, decide (c.winCount + 1 ≤ limit)) := by
  unfold Client.AllowMessage
  rw [if_neg (not_le.2 hlimit)]
  simp only [ge_iff_le, if_neg (not_le.2 hwin)]

/-- A call at least one second after the window start opens a new window and
is its first message. -/
theorem AllowMessage_new_window (c : Client) (now limit : Int) (hlimit : 0 < limit)
    (hwin : now - c.winStart ≥ second) :
    c.AllowMessage now limit =
      ({ c with winStart := now, winCount := 1 }, decide ((1 : Int) ≤ limit)) := by
  unfold Client.AllowMessage
  rw [if_neg (not_le.2 hlimit)]
  simp only [if_pos hwin, zero_add]

/-- Calls that all fall into the current window: the i-th of them (from 0) is
allowed iff the counter it reaches, `winCount + i + 1`, is within the limit. -/
theorem allowAll_same_window (limit : Int) (hlimit : 0 < limit) (ts : List Int) (c : Client)
    (hwin : ∀ t ∈ ts, t - c.winStart < second) :
    (c.allowAll limit ts).2 =
        (List.range ts.length).map (fun (i : Nat) => decide (c.winCount + (i : Int) + 1 ≤ limit)) ∧
      (c.allowAll limit ts).1 = { c with winCount := c.winCount + (ts.length : Int) } := by
  induction ts generalizing c with
  | nil => simp [Client.allowAll]
  | cons t rest ih =>
    have h1 := AllowMessage_same_window c t limit hlimit (hwin t (List.mem_cons_self _ _))
    have ih' := ih { c with winCount := c.winCount + 1 }
      (fun t' ht' => hwin t' (List.mem_cons_of_mem _ ht'))
    simp only [Client.allowAll, h1, ih'.1, ih'.2, List.length_cons, List.range_succ_eq_map,
      List.map_cons, List.map_map]
    refine ⟨?_, ?_⟩
    · refine congrArg₂ _ (by simp) ?_
      apply List.map_congr_left
      intro i _
      simp only [Function.comp, Nat.cast_succ]
      congr 1
      apply propext
      constructor <;> intro h <;> omega
    · congr 1
      push_cast
      ring

end netws

namespace netws

/-- C15: with an explicit clock, `AllowMessage(limit)` with `limit <= 0`
returns true and leaves the window state unchanged; with `limit > 0` it
resets the counter to 0 and the window start to `now` when
`now - window_start >= 1 s`, then increments the counter and returns true iff
the incremented counter is `<= limit`; so in the window opened by a call
exactly the first `limit` calls (the opening one included) return true and
every further call returns false. -/
theorem AllowMessage_contract (c : Client) (now limit : Int) :
    (limit ≤ 0 → c.AllowMessage now limit = (c, true)) ∧
    (0 < limit → now - c.winStart ≥ second →
      c.AllowMessage now limit =
        ({ c with winStart := now, winCount := 0 + 1 }, decide ((0 : Int) + 1 ≤ limit))) ∧
    (0 < limit → now - c.winStart < second →
      c.AllowMessage now limit =
        ({ c with winCount := c.winCount + 1 }, decide (c.winCount + 1 ≤ limit))) ∧
    (0 < limit → now - c.winStart ≥ second →
      ∀ ts : List Int, (∀ t ∈ ts, t - now < second) →
        (c.allowAll limit (now :: ts)).2 =
          (List.range (ts.length + 1)).map (fun (i : Nat) => decide ((i : Int) < limit))) := by
  refine ⟨?_, ?_, ?_, ?_⟩
  · intro h
    unfold Client.AllowMessage
    rw [if_pos h]
  · intro h1 h2
    rw [AllowMessage_new_window c now limit h1 h2]
    simp
  · intro h1 h2
    exact AllowMessage_same_window c now limit h1 h2
  · intro h1 h2 ts hts
    have hopen := AllowMessage_new_window c now limit h1 h2
    have hrest := (allowAll_same_window limit h1 ts { c with winStart := now, winCount := 1 }
      hts).1
    simp only [Client.allowAll, hopen, hrest, List.range_succ_eq_map, List.map_cons,
      List.map_map]
    refine congrArg₂ _ ?_ ?_
    · simp only [Nat.cast_zero]
      exact decide_eq_decide.2 (by constructor <;> intro h <;> omega)
    · apply List.map_congr_left
      intro i _
      simp only [Function.comp, Nat.cast_succ]
      exact decide_eq_decide.2 (by constructor <;> intro h <;> omega)

/-- Witness of `AllowMessage_contract`: with limit 2, a call one second after
the creation of the connection opens a window; it and the next call are
allowed, the third and fourth call in the window are refused. -/
theorem AllowMessage_contract_witness :
    ((NewClient 256 0).allowAll 2 [1000000000, 1000000001, 1200000000, 1999999999]).2 =
      [true, true, false, false] :=
  (AllowMessage_contract (NewClient 256 0) 1000000000 2).2.2.2 (by decide) (by decide)
    [1000000001, 1200000000, 1999999999] (by decide)

end netws

/-! ## Backpressure of the outbound queue -/

namespace netws

theorem Client.Send_room (L : protocol.Lib) (c : Client) (m : Option metrics.Metrics)
    (data : protocol.Frame) (hopen : c.sendClosed = false) (hroom : c.send.length < c.sendCap) :
    c.Send L m data =
      ({ c with send := c.send ++ [data] },
        m.map (fun x => { x with SendBytes := x.SendBytes + L.frameLen data }), none) := by
  unfold Client.Send
  simp [hopen, hroom]

theorem Client.Send_full (L : protocol.Lib) (c : Client) (m : Option metrics.Metrics)
    (data : protocol.Frame) (hopen : c.sendClosed = false) (hfull : c.sendCap ≤ c.send.length) :
    c.Send L m data =
      (c, m.map (fun x => { x with DroppedMessages := x.DroppedMessages + 1 }),
        some Err.sendQueueFull) := by
  unfold Client.Send
  simp [hopen, not_lt.2 hfull]

/-- Queue operations keep the bound of the queue, and what was written
followed by what is still queued is what was queued before followed by the
accepted data, which is a subsequence of the data sent. -/
theorem queueOps_fifo (L : protocol.Lib) (ops : List QueueOp) (c : Client)
    (m : Option metrics.Metrics) (hopen : c.sendClosed = false)
    (hbound : c.send.length ≤ c.sendCap) :
    (c.queueOps L m ops).client.send.length ≤ c.sendCap ∧
      (c.queueOps L m ops).written ++ (c.queueOps L m ops).client.send =
        c.send ++ (c.queueOps L m ops).accepted ∧
      (c.queueOps L m ops).accepted.Sublist (sentData ops) := by
  induction ops generalizing c m with
  | nil => simpa [Client.queueOps, sentData] using hbound
  | cons op rest ih =>
    cases op with
    | send data =>
      by_cases hroom : c.send.length < c.sendCap
      · have hs := Client.Send_room L c m data hopen hroom
        have ih' := ih { c with send := c.send ++ [data] }
          (m.map (fun x => { x with SendBytes := x.SendBytes + L.frameLen data })) hopen
          (by simp only [List.length_append, List.length_singleton]; omega)
        simp only [Client.queueOps, hs, sentData, if_true]
        refine ⟨ih'.1, ?_, List.Sublist.cons₂ _ ih'.2.2⟩
        rw [ih'.2.1]
        simp
      · have hs := Client.Send_full L c m data hopen (not_lt.1 hroom)
        have ih' := ih c (m.map (fun x => { x with DroppedMessages := x.DroppedMessages + 1 }))
          hopen hbound
        simp only [Client.queueOps, hs, sentData]
        rw [if_neg (by simp)]
        exact ⟨ih'.1, ih'.2.1, List.Sublist.cons _ ih'.2.2⟩
    | recv =>
      cases hq : c.send with
      | nil =>
        have ih' := ih c m hopen hbound
        simp only [Client.queueOps, hq, sentData]
        rw [hq] at ih'
        exact ih'
      | cons d queue =>
        have ih' := ih { c with send := queue } m hopen
          (by rw [hq] at hbound; simp only [List.length_cons] at hbound; simp only; omega)
        simp only [Client.queueOps, hq, sentData]
        refine ⟨ih'.1, ?_, ih'.2.2⟩
        simp only [List.cons_append, ih'.2.1]

/-- The contract of `Send` on a connection whose send channel is open, with
capacity C and n queued messages: `Send(data)` with n < C appends `data` at the tail of the
queue, adds `len(data)` to send_bytes and returns no error; `Send(data)` with
n = C leaves the queue unchanged, increments dropped_messages by one, leaves
send_bytes unchanged and returns `SendQueueFull`; so under any sequence of
sends and of receives by the write loop the queue never holds more than C
messages, and the messages written followed by those still queued are the
messages queued before followed by the accepted ones, in the order sent. -/
theorem Send_contract (L : protocol.Lib) (c : Client) (m : Option metrics.Metrics)
    (hopen : c.sendClosed = false) (hbound : c.send.length ≤ c.sendCap) :
    (∀ data, c.send.length < c.sendCap →
      c.Send L m data =
        ({ c with send := c.send ++ [data] },
          m.map (fun x => { x with SendBytes := x.SendBytes + L.frameLen data }), none)) ∧
    (∀ data, c.send.length = c.sendCap →
      c.Send L m data =
        (c, m.map (fun x => { x with DroppedMessages := x.DroppedMessages + 1 }),
          some Err.sendQueueFull)) ∧
    (∀ ops : List QueueOp,
      (c.queueOps L m ops).client.send.length ≤ c.sendCap ∧
        (c.queueOps L m ops).written ++ (c.queueOps L m ops).client.send =
          c.send ++ (c.queueOps L m ops).accepted ∧
        (c.queueOps L m ops).accepted.Sublist (sentData ops)) :=
  ⟨fun data h => Client.Send_room L c m data hopen h,
    fun data h => Client.Send_full L c m data hopen (le_of_eq h.symm),
    fun ops => queueOps_fifo L ops c m hopen hbound⟩

end netws

namespace netws

/-- Witness of `Send_contract`: on a fresh connection of capacity 1 the first
send is queued and the second, on the full queue, is dropped with
`SendQueueFull` and counted. -/
theorem Send_contract_witness :
    ((NewClient 1 0).Send scenario.lib (some { SendBytes := 0, DroppedMessages := 0 })
        { Typ := 40, Seq := 1, Body := none, Version := 1 }).2.2 = none ∧
      ({ NewClient 1 0 with send := [{ Typ := 40, Seq := 1, Body := none, Version := 1 }] } :
          Client).Send scenario.lib (some { SendBytes := 0, DroppedMessages := 0 })
          { Typ := 40, Seq := 2, Body := none, Version := 1 } =
        ({ NewClient 1 0 with send := [{ Typ := 40, Seq := 1, Body := none, Version := 1 }] },
          some { SendBytes := 0, DroppedMessages := 1 }, some Err.sendQueueFull) :=
  ⟨congrArg (fun r => r.2.2)
      ((Send_contract scenario.lib (NewClient 1 0) (some { SendBytes := 0, DroppedMessages := 0 })
        (by decide) (by decide)).1 { Typ := 40, Seq := 1, Body := none, Version := 1 }
        (by decide)),
    (Send_contract scenario.lib
      { NewClient 1 0 with send := [{ Typ := 40, Seq := 1, Body := none, Version := 1 }] }
      (some { SendBytes := 0, DroppedMessages := 0 }) (by decide) (by decide)).2.1
      { Typ := 40, Seq := 2, Body := none, Version := 1 } (by decide)⟩

end netws

/-! ## The dispatcher -/

namespace netws

theorem SameWindows_refl (w : Server) : w.SameWindows w := ⟨rfl, fun _ => rfl⟩

theorem SameWindows_trans {w1 w2 w3 : Server} (h12 : w1.SameWindows w2)
    (h23 : w2.SameWindows w3) : w1.SameWindows w3 :=
  ⟨h23.1.trans h12.1, fun k => (h23.2 k).trans (h12.2 k)⟩

theorem SameWindows_of_clients {w w' : Server} (h : w'.clients = w.clients)
    (hm : w'.MaxMsgPerSecond = w.MaxMsgPerSecond) : w.SameWindows w' :=
  ⟨hm, fun k => by rw [h]⟩

/-- Rewriting the connection `cid` by a function that keeps its window keeps
all windows. -/
theorem SameWindows_modify (w w' : Server) (cid : Nat) (g : Client → Client)
    (hw : w'.clients = gomap.modify cid g w.clients)
    (hm : w'.MaxMsgPerSecond = w.MaxMsgPerSecond)
    (hg : ∀ c, gomap.get cid w.clients = some c → (g c).window = c.window) :
    w.SameWindows w' := by
  refine ⟨hm, fun k => ?_⟩
  rw [hw]
  by_cases hk : k = cid
  · subst hk
    rw [gomap.get_modify_self]
    cases hc : gomap.get k w.clients with
    | none => rfl
    | some c => simp [hg c hc]
  · rw [gomap.get_modify_ne _ _ _ _ hk]

theorem Client.Send_window (L : protocol.Lib) (c : Client) (m : Option metrics.Metrics)
    (data : protocol.Frame) : (c.Send L m data).1.window = c.window := by
  unfold Client.Send
  split_ifs <;> rfl

theorem clientSend_SameWindows (L : protocol.Lib) (w : Server) (cid : Nat)
    (payload : protocol.Frame) : w.SameWindows (w.clientSend L cid payload).1 := by
  unfold Server.clientSend
  cases hc : gomap.get cid w.clients with
  | none => exact SameWindows_refl w
  | some c =>
    refine SameWindows_modify w _ cid (fun _ => (c.Send L w.metrics payload).1) rfl rfl ?_
    intro c' hc'
    rw [hc] at hc'
    cases hc'
    exact Client.Send_window L c w.metrics payload

theorem sendDirect_SameWindows (L : protocol.Lib) (w : Server) (cid : Nat) (msgType : Int)
    (msg : protocol.Message) : w.SameWindows (w.sendDirect L cid msgType msg).1 := by
  unfold Server.sendDirect
  cases protocol.Encode L msgType (some msg) 0 with
  | none => exact SameWindows_refl w
  | some payload => exact clientSend_SameWindows L w cid payload

theorem sendError_SameWindows (L : protocol.Lib) (w : Server) (cid : Nat) (code : Int)
    (message : String) : w.SameWindows (w.sendError L cid code message) :=
  sendDirect_SameWindows L w cid _ _

theorem sessionsSend_SameWindows (L : protocol.Lib) (w : Server) (playerID : String)
    (msgType : Int) (msg : protocol.Message) :
    w.SameWindows (w.sessionsSend L playerID msgType msg).1 := by
  unfold Server.sessionsSend
  dsimp only
  split
  · exact SameWindows_of_clients rfl rfl
  · exact SameWindows_of_clients rfl rfl
  · exact SameWindows_of_clients rfl rfl
  · exact SameWindows_trans (SameWindows_of_clients rfl rfl) (clientSend_SameWindows L _ _ _)

theorem setPlayerID_SameWindows (w : Server) (cid : Nat) (id : String) :
    w.SameWindows (w.setPlayerID cid id) :=
  SameWindows_modify w _ cid (fun c => c.SetPlayerID id) rfl rfl (fun _ _ => rfl)

theorem handleLogin_SameWindows (L : protocol.Lib) (A : auth.Manager) (w : Server) (cid : Nat)
    (body : protocol.InBody) (now : Int) (uuidName uuidPlayer : String) :
    w.SameWindows (w.handleLogin L A cid body now uuidName uuidPlayer) := by
  unfold Server.handleLogin
  split
  · exact sendError_SameWindows L w cid _ _
  · dsimp only
    refine SameWindows_trans (SameWindows_trans (SameWindows_of_clients rfl rfl)
      (setPlayerID_SameWindows _ cid uuidPlayer)) (sessionsSend_SameWindows L _ _ _ _)

theorem handleReconnect_SameWindows (L : protocol.Lib) (A : auth.Manager) (w : Server)
    (cid : Nat) (body : protocol.InBody) (now : Int) :
    w.SameWindows (w.handleReconnect L A cid body now) := by
  unfold Server.handleReconnect
  cases body.asReconnectReq with
  | none => exact sendError_SameWindows L w cid _ _
  | some req =>
    dsimp only
    cases A.ParseReconnectToken req.ReconnectToken now with
    | none => exact sendDirect_SameWindows L w cid _ _
    | some playerID =>
      dsimp only
      cases (w.sessions.Bind playerID cid now).2.1 with
      | none => exact sendDirect_SameWindows L w cid _ _
      | some sess =>
        dsimp only
        have h1 : w.SameWindows
            { w with
              sessions := (w.sessions.Bind playerID cid now).1,
              clients := match (w.sessions.Bind playerID cid now).2.2 with
                | none => w.clients
                | some old => gomap.modify old (fun c => c.Close) w.clients } := by
          cases (w.sessions.Bind playerID cid now).2.2 with
          | none => exact SameWindows_of_clients rfl rfl
          | some old =>
            exact SameWindows_modify w _ old (fun c => c.Close) rfl rfl (fun _ _ => rfl)
        have h2 := SameWindows_trans h1 (setPlayerID_SameWindows _ cid playerID)
        have h3 := SameWindows_trans h2 (sendDirect_SameWindows L _ cid protocol.MsgReconnectResp
          (.reconnectResp
            { PlayerId := playerID, RoomId := sess.RoomID, Ok := true, Reason := "" }))
        split
        · exact SameWindows_trans h3 (SameWindows_of_clients rfl rfl)
        · exact h3

theorem handleMatch_SameWindows (L : protocol.Lib) (w : Server) (playerID : String) :
    w.SameWindows (w.handleMatch L playerID) := by
  have h1 : w.SameWindows (w.matcherEnqueue playerID).1 := by
    unfold Server.matcherEnqueue
    split <;> exact SameWindows_of_clients rfl rfl
  unfold Server.handleMatch
  dsimp only
  split
  · exact SameWindows_trans h1 (sessionsSend_SameWindows L _ _ _ _)
  · exact h1

theorem forwardInput_SameWindows (w : Server) (playerID : String)
    (input : protocol.PlayerInput) : w.SameWindows (w.forwardInput playerID input) := by
  unfold Server.forwardInput
  split
  · exact SameWindows_refl w
  · dsimp only
    split
    · exact SameWindows_refl w
    · exact SameWindows_of_clients rfl rfl

theorem forwardSkill_SameWindows (w : Server) (playerID : String)
    (skill : protocol.SkillCast) : w.SameWindows (w.forwardSkill playerID skill) := by
  unfold Server.forwardSkill
  split
  · exact SameWindows_refl w
  · dsimp only
    split
    · exact SameWindows_refl w
    · exact SameWindows_of_clients rfl rfl

end netws

namespace gomap

variable {κ : Type} {α : Type} [DecidableEq κ]

theorem modify_congr (k : κ) (f g : α → α) (m : List (κ × α))
    (h : ∀ v, get k m = some v → f v = g v) : modify k f m = modify k g m := by
  induction m with
  | nil => rfl
  | cons e rest ih =>
    obtain ⟨k', v⟩ := e
    by_cases hk : k' = k
    · have := h v (by simp [get, hk])
      simp [modify, hk, this]
    · have hrest : ∀ v, get k rest = some v → f v = g v := by
        intro v' hv'
        exact h v' (by simpa [get, hk] using hv')
      simp [modify, hk, ih hrest]

end gomap

namespace netws

theorem AllowMessage_playerID (c : Client) (now limit : Int) :
    (c.AllowMessage now limit).1.playerID = c.playerID := by
  unfold Client.AllowMessage
  split_ifs <;> rfl

theorem rateChecked_eq (w : Server) (cid : Nat) (now : Int) (c : Client)
    (hc : gomap.get cid w.clients = some c) :
    ({ w with
        clients := gomap.modify cid (fun _ => (c.AllowMessage now w.MaxMsgPerSecond).1)
          w.clients } : Server) = w.rateChecked cid now := by
  unfold Server.rateChecked
  congr 1
  apply gomap.modify_congr
  intro v hv
  rw [hc] at hv
  cases hv
  rfl

/-- A frame refused by the rate check is answered with
`ERROR_RESP{429, "rate limited"}` and nothing else is done. -/
theorem handleMessage_rate_limited (L : protocol.Lib) (A : auth.Manager) (w : Server)
    (cid : Nat) (data : Option (protocol.Envelope protocol.InBody)) (now : Int)
    (uuidName uuidPlayer : String) (c : Client) (hc : gomap.get cid w.clients = some c)
    (hrate : (c.AllowMessage now w.MaxMsgPerSecond).2 = false) :
    w.handleMessage L A cid data now uuidName uuidPlayer =
      (w.rateChecked cid now).sendError L cid 429 "rate limited" := by
  unfold Server.handleMessage
  simp only [hc, hrate, Bool.not_false, if_true]
  rw [rateChecked_eq w cid now c hc]

/-- On a connection without player id every frame that passes the rate,
decode and version checks and is not a PING, LOGIN_REQ or RECONNECT_REQ is
answered with `ERROR_RESP{401, "not logged in"}` and nothing else is done. -/
theorem handleMessage_not_logged_in (L : protocol.Lib) (A : auth.Manager) (w : Server)
    (cid : Nat) (env : protocol.Envelope protocol.InBody) (now : Int)
    (uuidName uuidPlayer : String) (c : Client) (hc : gomap.get cid w.clients = some c)
    (hrate : (c.AllowMessage now w.MaxMsgPerSecond).2 = true)
    (hver : env.Version = 0 ∨ env.Version = protocol.CurrentVersion)
    (h1 : env.Typ ≠ protocol.MsgPing) (h2 : env.Typ ≠ protocol.MsgLoginReq)
    (h3 : env.Typ ≠ protocol.MsgReconnectReq) (hpid : c.playerID = "") :
    w.handleMessage L A cid (some env) now uuidName uuidPlayer =
      (w.rateChecked cid now).sendError L cid 401 "not logged in" := by
  have hv : ¬ (env.Version ≠ 0 ∧ env.Version ≠ protocol.CurrentVersion) := by
    rintro ⟨ha, hb⟩
    rcases hver with h | h
    · exact ha h
    · exact hb h
  have hp : (c.AllowMessage now w.MaxMsgPerSecond).1.PlayerID = "" := by
    unfold Client.PlayerID
    rw [AllowMessage_playerID, hpid]
  unfold Server.handleMessage
  simp only [hc, hrate, Bool.not_true, if_neg hv, if_neg h1, if_neg h2, if_neg h3, hp, if_true]
  rw [rateChecked_eq w cid now c hc]
  simp

/-- On a logged-in connection every frame that passes the rate, decode and
version checks and whose type is none of the six request types is answered
with `ERROR_RESP{400, "unknown message"}` and nothing else is done. -/
theorem handleMessage_unknown (L : protocol.Lib) (A : auth.Manager) (w : Server)
    (cid : Nat) (env : protocol.Envelope protocol.InBody) (now : Int)
    (uuidName uuidPlayer : String) (c : Client) (hc : gomap.get cid w.clients = some c)
    (hrate : (c.AllowMessage now w.MaxMsgPerSecond).2 = true)
    (hver : env.Version = 0 ∨ env.Version = protocol.CurrentVersion)
    (h1 : env.Typ ≠ protocol.MsgPing) (h2 : env.Typ ≠ protocol.MsgLoginReq)
    (h3 : env.Typ ≠ protocol.MsgReconnectReq) (h4 : env.Typ ≠ protocol.MsgMatchReq)
    (h5 : env.Typ ≠ protocol.MsgPlayerInput) (h6 : env.Typ ≠ protocol.MsgSkillCast)
    (hpid : c.playerID ≠ "") :
    w.handleMessage L A cid (some env) now uuidName uuidPlayer =
      (w.rateChecked cid now).sendError L cid 400 "unknown message" := by
  have hv : ¬ (env.Version ≠ 0 ∧ env.Version ≠ protocol.CurrentVersion) := by
    rintro ⟨ha, hb⟩
    rcases hver with h | h
    · exact ha h
    · exact hb h
  have hp : ¬ (c.AllowMessage now w.MaxMsgPerSecond).1.PlayerID = "" := by
    unfold Client.PlayerID
    rw [AllowMessage_playerID]
    exact hpid
  unfold Server.handleMessage
  simp only [hc, hrate, Bool.not_true, if_neg hv, if_neg h1, if_neg h2, if_neg h3, if_neg h4,
    if_neg h5, if_neg h6, if_neg hp]
  rw [rateChecked_eq w cid now c hc]
  simp

/-- After the rate check `handleMessage` changes no rate window. -/
theorem handleMessage_SameWindows (L : protocol.Lib) (A : auth.Manager) (w : Server)
    (cid : Nat) (data : Option (protocol.Envelope protocol.InBody)) (now : Int)
    (uuidName uuidPlayer : String) (c : Client) (hc : gomap.get cid w.clients = some c) :
    (w.rateChecked cid now).SameWindows
      (w.handleMessage L A cid data now uuidName uuidPlayer) := by
  unfold Server.handleMessage
  simp only [hc]
  rw [rateChecked_eq w cid now c hc]
  split
  · exact sendError_SameWindows L _ cid _ _
  · split
    · exact sendError_SameWindows L _ cid _ _
    · split
      · exact sendError_SameWindows L _ cid _ _
      · split
        · split
          · exact sendError_SameWindows L _ cid _ _
          · exact sendDirect_SameWindows L _ cid _ _
        · split
          · exact handleLogin_SameWindows L A _ cid _ _ _ _
          · split
            · exact handleReconnect_SameWindows L A _ cid _ _
            · split
              · exact sendError_SameWindows L _ cid _ _
              · split
                · exact handleMatch_SameWindows L _ _
                · split
                  · split
                    · exact sendError_SameWindows L _ cid _ _
                    · exact forwardInput_SameWindows _ _ _
                  · split
                    · split
                      · exact sendError_SameWindows L _ cid _ _
                      · exact forwardSkill_SameWindows _ _ _
                    · exact sendError_SameWindows L _ cid _ _

end netws

namespace netws

theorem Client.Send_client (L : protocol.Lib) (c : Client) (m : Option metrics.Metrics)
    (data : protocol.Frame) :
    (c.Send L m data).1 = c ∨ (c.Send L m data).1 = { c with send := c.send ++ [data] } := by
  unfold Client.Send
  split_ifs
  · exact Or.inl rfl
  · exact Or.inr rfl
  · exact Or.inl rfl

/-- `sendError` touches nothing but the outbound queue of the connection (and
the metrics): sessions, matchmaker channel, rooms and configuration are kept,
and the connection is unchanged or has the error envelope, of seq 0, appended
to its queue. -/
theorem sendError_effect (L : protocol.Lib) (w : Server) (cid : Nat) (code : Int)
    (message : String) :
    (w.sendError L cid code message).sessions = w.sessions ∧
    (w.sendError L cid code message).enqueueCh = w.enqueueCh ∧
    (w.sendError L cid code message).rooms = w.rooms ∧
    (∀ k c', gomap.get k (w.sendError L cid code message).clients = some c' →
      ∃ c0, gomap.get k w.clients = some c0 ∧
        (c' = c0 ∨ (k = cid ∧ c' =
          { c0 with
            send := c0.send ++
              [{ Typ := protocol.MsgErrorResp, Seq := 0,
                 Body := some (.errorResp { Code := code, Message := message }),
                 Version := protocol.CurrentVersion }] }))) ∧
    (∀ c, gomap.get cid w.clients = some c →
      L.marshalOK (.errorResp { Code := code, Message := message }) = true →
      c.sendClosed = false → c.send.length < c.sendCap →
      gomap.get cid (w.sendError L cid code message).clients =
        some { c with
          send := c.send ++
            [{ Typ := protocol.MsgErrorResp, Seq := 0,
               Body := some (.errorResp { Code := code, Message := message }),
               Version := protocol.CurrentVersion }] }) := by
  unfold Server.sendError Server.sendDirect
  cases he : protocol.Encode L protocol.MsgErrorResp
      (some (.errorResp { Code := code, Message := message })) 0 with
  | none =>
    refine ⟨rfl, rfl, rfl, fun k c' h => ⟨c', h, Or.inl rfl⟩, ?_⟩
    intro c _ hm _ _
    simp [protocol.Encode, hm] at he
  | some payload =>
    have hp := protocol.Encode_some L _ _ _ _ he
    subst hp
    dsimp only
    unfold Server.clientSend
    cases hc : gomap.get cid w.clients with
    | none =>
      refine ⟨rfl, rfl, rfl, fun k c' h => ⟨c', h, Or.inl rfl⟩, ?_⟩
      intro c hc'
      cases hc'
    | some c1 =>
      dsimp only
      refine ⟨rfl, rfl, rfl, ?_, ?_⟩
      · intro k c' h
        by_cases hk : k = cid
        · subst hk
          rw [gomap.get_modify_self, hc] at h
          simp only [Option.map_some', Option.some.injEq] at h
          subst h
          refine ⟨c1, hc, ?_⟩
          rcases Client.Send_client L c1 w.metrics
            { Typ := protocol.MsgErrorResp, Seq := 0,
              Body := some (.errorResp { Code := code, Message := message }),
              Version := protocol.CurrentVersion } with h1 | h1
          · exact Or.inl h1
          · exact Or.inr ⟨rfl, h1⟩
        · rw [gomap.get_modify_ne _ _ _ _ hk] at h
          exact ⟨c', h, Or.inl rfl⟩
      · intro c hc' _ hopen hroom
        cases hc'
        rw [gomap.get_modify_self, hc]
        simp only [Option.map_some']
        rw [Client.Send_room L c1 w.metrics _ hopen hroom]

theorem AllowMessage_fields (c : Client) (now limit : Int) :
    (c.AllowMessage now limit).1.playerID = c.playerID ∧
    (c.AllowMessage now limit).1.send = c.send ∧
    (c.AllowMessage now limit).1.sendCap = c.sendCap ∧
    (c.AllowMessage now limit).1.sendClosed = c.sendClosed ∧
    (c.AllowMessage now limit).1.connClosed = c.connClosed := by
  unfold Client.AllowMessage
  split_ifs <;> exact ⟨rfl, rfl, rfl, rfl, rfl⟩

theorem rateChecked_get (w : Server) (cid : Nat) (now : Int) (k : Nat) :
    gomap.get k (w.rateChecked cid now).clients =
      (gomap.get k w.clients).map
        (fun c => if k = cid then (c.AllowMessage now w.MaxMsgPerSecond).1 else c) := by
  unfold Server.rateChecked
  by_cases hk : k = cid
  · subst hk
    rw [gomap.get_modify_self]
    simp
  · rw [gomap.get_modify_ne _ _ _ _ hk]
    simp [hk]

end netws

namespace netws

/-- C18: on a connection whose player id is empty, a frame that passes the
rate, envelope-decode and version checks and whose type is not PING,
LOGIN_REQ or RECONNECT_REQ makes the dispatcher reply
`ERROR_RESP{401, "not logged in"}` (queued for the connection when the body
marshals and the open queue has room) and has no other effect: the matchmaker
channel, the rooms and the sessions are unchanged, and every connection keeps
its player id and its queue, but for the reply. -/
theorem not_logged_in_reply (L : protocol.Lib) (A : auth.Manager) (w : Server) (cid : Nat)
    (env : protocol.Envelope protocol.InBody) (now : Int) (uuidName uuidPlayer : String)
    (c : Client) (hc : gomap.get cid w.clients = some c)
    (hrate : (c.AllowMessage now w.MaxMsgPerSecond).2 = true)
    (hver : env.Version = 0 ∨ env.Version = protocol.CurrentVersion)
    (h1 : env.Typ ≠ protocol.MsgPing) (h2 : env.Typ ≠ protocol.MsgLoginReq)
    (h3 : env.Typ ≠ protocol.MsgReconnectReq) (hpid : c.playerID = "") :
    w.handleMessage L A cid (some env) now uuidName uuidPlayer =
        (w.rateChecked cid now).sendError L cid 401 "not logged in" ∧
    (w.handleMessage L A cid (some env) now uuidName uuidPlayer).enqueueCh = w.enqueueCh ∧
    (w.handleMessage L A cid (some env) now uuidName uuidPlayer).rooms = w.rooms ∧
    (w.handleMessage L A cid (some env) now uuidName uuidPlayer).sessions = w.sessions ∧
    (∀ k c', gomap.get k
        (w.handleMessage L A cid (some env) now uuidName uuidPlayer).clients = some c' →
      ∃ c0, gomap.get k w.clients = some c0 ∧ c'.playerID = c0.playerID ∧
        (c'.send = c0.send ∨ (k = cid ∧ c'.send = c0.send ++
          [{ Typ := protocol.MsgErrorResp, Seq := 0,
             Body := some (.errorResp { Code := 401, Message := "not logged in" }),
             Version := protocol.CurrentVersion }]))) ∧
    (L.marshalOK (.errorResp { Code := 401, Message := "not logged in" }) = true →
      c.sendClosed = false → c.send.length < c.sendCap →
      ∃ c', gomap.get cid
          (w.handleMessage L A cid (some env) now uuidName uuidPlayer).clients = some c' ∧
        c'.send = c.send ++
          [{ Typ := protocol.MsgErrorResp, Seq := 0,
             Body := some (.errorResp { Code := 401, Message := "not logged in" }),
             Version := protocol.CurrentVersion }]) := by
  have heq := handleMessage_not_logged_in L A w cid env now uuidName uuidPlayer c hc hrate hver
    h1 h2 h3 hpid
  obtain ⟨hs, he, hr, hcl, hreply⟩ := sendError_effect L (w.rateChecked cid now) cid 401
    "not logged in"
  rw [heq]
  refine ⟨rfl, he, hr, hs, ?_, ?_⟩
  · intro k c' hk
    obtain ⟨c0', h0', hcase⟩ := hcl k c' hk
    rw [rateChecked_get] at h0'
    cases hg : gomap.get k w.clients with
    | none => rw [hg] at h0'; cases h0'
    | some c0 =>
      rw [hg] at h0'
      simp only [Option.map_some', Option.some.injEq] at h0'
      have hf : c0'.playerID = c0.playerID ∧ c0'.send = c0.send := by
        rw [← h0']
        split_ifs
        · exact ⟨(AllowMessage_fields c0 now w.MaxMsgPerSecond).1,
            (AllowMessage_fields c0 now w.MaxMsgPerSecond).2.1⟩
        · exact ⟨rfl, rfl⟩
      refine ⟨c0, rfl, ?_, ?_⟩
      · rcases hcase with rfl | ⟨_, rfl⟩
        · exact hf.1
        · exact hf.1
      · rcases hcase with rfl | ⟨hkc, rfl⟩
        · exact Or.inl hf.2
        · exact Or.inr ⟨hkc, by rw [← hf.2]⟩
  · intro hm hopen hroom
    have hf := AllowMessage_fields c now w.MaxMsgPerSecond
    have hget : gomap.get cid (w.rateChecked cid now).clients =
        some (c.AllowMessage now w.MaxMsgPerSecond).1 := by
      rw [rateChecked_get, hc]
      simp
    refine ⟨_, hreply _ hget hm (by rw [hf.2.2.2.1]; exact hopen)
      (by rw [hf.2.1, hf.2.2.1]; exact hroom), ?_⟩
    simp only [hf.2.1]

/-- Witness of `not_logged_in_reply`: a MATCH_REQ on a fresh connection is
answered with the 401 error and nothing is enqueued in the matchmaker. -/
theorem not_logged_in_reply_witness :
    (scenario.server0.handleMessage scenario.lib scenario.authMgr 1 (some scenario.matchFrame)
        0 "u1" "p1").enqueueCh = [] ∧
      ∃ c', gomap.get 1
          (scenario.server0.handleMessage scenario.lib scenario.authMgr 1
            (some scenario.matchFrame) 0 "u1" "p1").clients = some c' ∧
        c'.send = [] ++
          [{ Typ := protocol.MsgErrorResp, Seq := 0,
             Body := some (.errorResp { Code := 401, Message := "not logged in" }),
             Version := protocol.CurrentVersion }] :=
  have h := not_logged_in_reply scenario.lib scenario.authMgr scenario.server0 1
    scenario.matchFrame 0 "u1" "p1" (NewClient 256 0) (by decide) (by decide) (by decide)
    (by decide) (by decide) (by decide) (by decide)
  ⟨h.2.1, h.2.2.2.2.2 (by decide) (by decide) (by decide)⟩

end netws

namespace scenario

/-- C19 (counterexample): on a fresh connection, which is not logged in, a
frame of the unknown type 99 that passes the rate, decode and version checks
is answered with `ERROR_RESP{401, "not logged in"}`, not with code 400. -/
theorem unknown_type_before_login_gets_401 :
    (gomap.get 1
        (server0.handleMessage lib authMgr 1 (some unknownFrame) 0 "u1" "p1").clients).map
        (fun c => (c.playerID, c.send.map (fun f => (f.Typ, f.Body)))) =
      some ("", [(protocol.MsgErrorResp,
        some (.errorResp { Code := 401, Message := "not logged in" }))]) := by
  decide

end scenario

namespace netws

/-- C19 (amended): a frame that passes the rate, envelope-decode and version
checks and whose type is none of PING, LOGIN_REQ, RECONNECT_REQ, MATCH_REQ,
PLAYER_INPUT and SKILL_CAST (any other tag, 0 included) is answered with
`ERROR_RESP{400, "unknown message"}` when the connection is logged in, and
with `ERROR_RESP{401, "not logged in"}` when it is not; in both cases nothing
else is done. -/
theorem unknown_type_reply (L : protocol.Lib) (A : auth.Manager) (w : Server) (cid : Nat)
    (env : protocol.Envelope protocol.InBody) (now : Int) (uuidName uuidPlayer : String)
    (c : Client) (hc : gomap.get cid w.clients = some c)
    (hrate : (c.AllowMessage now w.MaxMsgPerSecond).2 = true)
    (hver : env.Version = 0 ∨ env.Version = protocol.CurrentVersion)
    (h1 : env.Typ ≠ protocol.MsgPing) (h2 : env.Typ ≠ protocol.MsgLoginReq)
    (h3 : env.Typ ≠ protocol.MsgReconnectReq) (h4 : env.Typ ≠ protocol.MsgMatchReq)
    (h5 : env.Typ ≠ protocol.MsgPlayerInput) (h6 : env.Typ ≠ protocol.MsgSkillCast) :
    (c.playerID ≠ "" →
      w.handleMessage L A cid (some env) now uuidName uuidPlayer =
          (w.rateChecked cid now).sendError L cid 400 "unknown message" ∧
        (L.marshalOK (.errorResp { Code := 400, Message := "unknown message" }) = true →
          c.sendClosed = false → c.send.length < c.sendCap →
          ∃ c', gomap.get cid
              (w.handleMessage L A cid (some env) now uuidName uuidPlayer).clients = some c' ∧
            c'.send = c.send ++
              [{ Typ := protocol.MsgErrorResp, Seq := 0,
                 Body := some (.errorResp { Code := 400, Message := "unknown message" }),
                 Version := protocol.CurrentVersion }])) ∧
    (c.playerID = "" →
      w.handleMessage L A cid (some env) now uuidName uuidPlayer =
        (w.rateChecked cid now).sendError L cid 401 "not logged in") := by
  refine ⟨fun hpid => ?_, fun hpid =>
    handleMessage_not_logged_in L A w cid env now uuidName uuidPlayer c hc hrate hver h1 h2 h3
      hpid⟩
  have heq := handleMessage_unknown L A w cid env now uuidName uuidPlayer c hc hrate hver
    h1 h2 h3 h4 h5 h6 hpid
  refine ⟨heq, ?_⟩
  intro hm hopen hroom
  rw [heq]
  have hf := AllowMessage_fields c now w.MaxMsgPerSecond
  have hget : gomap.get cid (w.rateChecked cid now).clients =
      some (c.AllowMessage now w.MaxMsgPerSecond).1 := by
    rw [rateChecked_get, hc]
    simp
  refine ⟨_, (sendError_effect L (w.rateChecked cid now) cid 400 "unknown message").2.2.2.2 _
    hget hm (by rw [hf.2.2.2.1]; exact hopen) (by rw [hf.2.1, hf.2.2.1]; exact hroom), ?_⟩
  simp only [hf.2.1]

/-- Witness of `unknown_type_reply`: after its login, connection 1 sends a
frame of type 99 and gets `ERROR_RESP{400, "unknown message"}` queued behind
the LOGIN_RESP. -/
theorem unknown_type_reply_witness :
    ∃ c', gomap.get 1
        (scenario.afterLogin.handleMessage scenario.lib scenario.authMgr 1
          (some scenario.unknownFrame) 5 "u2" "p2").clients = some c' ∧
      c'.send = scenario.loggedInClient.send ++
        [{ Typ := protocol.MsgErrorResp, Seq := 0,
           Body := some (.errorResp { Code := 400, Message := "unknown message" }),
           Version := protocol.CurrentVersion }] :=
  ((unknown_type_reply scenario.lib scenario.authMgr scenario.afterLogin 1
    scenario.unknownFrame 5 "u2" "p2" scenario.loggedInClient (by decide) (by decide)
    (by decide) (by decide) (by decide) (by decide) (by decide) (by decide) (by decide)).1
    (by decide)).2 (by decide) (by decide) (by decide)

end netws

namespace scenario

set_option maxRecDepth 100000 in
/-- C16 (counterexample): on the connection created at time 0 with a limit of
60 messages per second, 61 PINGs arrive within 50 ms, thirty at 950 ms and
thirty-one at 1000 ms; the window is restarted at 1000 ms, so the 61st is the
31st message of its window: it is allowed and answered with a PONG, and no
ERROR_RESP is queued. -/
theorem sixty_first_allowed_across_windows :
    (gomap.get 1 afterBurst.clients).map
        (fun c => (c.winStart, c.winCount, c.send.length,
          c.send.all (fun f => decide (f.Typ = protocol.MsgPong)))) =
      some (1000000000, 31, 61, true) := by
  decide

end scenario

namespace netws

/-- The answer of `AllowMessage` and the window it leaves depend only on the
window of the connection. -/
theorem AllowMessage_window_congr (c1 c2 : Client) (now limit : Int)
    (h : c1.window = c2.window) :
    (c1.AllowMessage now limit).1.window = (c2.AllowMessage now limit).1.window ∧
      (c1.AllowMessage now limit).2 = (c2.AllowMessage now limit).2 := by
  simp only [Client.window, Prod.mk.injEq] at h
  obtain ⟨h1, h2⟩ := h
  unfold Client.AllowMessage
  simp only [Client.window, h1, h2]
  split_ifs <;> simp [h1, h2]

theorem allowAll_window_congr (limit : Int) (ts : List Int) (c1 c2 : Client)
    (h : c1.window = c2.window) :
    (c1.allowAll limit ts).1.window = (c2.allowAll limit ts).1.window ∧
      (c1.allowAll limit ts).2 = (c2.allowAll limit ts).2 := by
  induction ts generalizing c1 c2 with
  | nil => exact ⟨h, rfl⟩
  | cons t rest ih =>
    obtain ⟨hw, hr⟩ := AllowMessage_window_congr c1 c2 t limit h
    obtain ⟨hw', hr'⟩ := ih _ _ hw
    simp only [Client.allowAll]
    exact ⟨hw', by rw [hr, hr']⟩

/-- The rate window of a connection after consecutive inbound frames is the
one that the calls of `AllowMessage` alone produce, and the limit is kept. -/
theorem handleAll_window (L : protocol.Lib) (A : auth.Manager) (cid : Nat)
    (msgs : List Inbound) (w : Server) (c : Client) (hc : gomap.get cid w.clients = some c) :
    (w.handleAll L A cid msgs).MaxMsgPerSecond = w.MaxMsgPerSecond ∧
      ∃ c', gomap.get cid (w.handleAll L A cid msgs).clients = some c' ∧
        c'.window = (c.allowAll w.MaxMsgPerSecond (msgs.map (fun m => m.now))).1.window := by
  induction msgs generalizing w c with
  | nil => exact ⟨rfl, c, hc, rfl⟩
  | cons msg rest ih =>
    obtain ⟨hmax, hwin⟩ := handleMessage_SameWindows L A w cid msg.data msg.now msg.uuidName
      msg.uuidPlayer c hc
    have hmax' : (w.handleMessage L A cid msg.data msg.now msg.uuidName
        msg.uuidPlayer).MaxMsgPerSecond = w.MaxMsgPerSecond := hmax
    have h1 := hwin cid
    rw [rateChecked_get, hc] at h1
    simp only [Option.map_some', if_true] at h1
    cases hg : gomap.get cid
        (w.handleMessage L A cid msg.data msg.now msg.uuidName msg.uuidPlayer).clients with
    | none => rw [hg] at h1; cases h1
    | some c1 =>
      rw [hg] at h1
      simp only [Option.map_some', Option.some.injEq] at h1
      obtain ⟨hm2, c', hc', hw'⟩ := ih _ c1 hg
      refine ⟨hm2.trans hmax', c', hc', ?_⟩
      rw [hw', hmax']
      simp only [List.map_cons, Client.allowAll]
      exact (allowAll_window_congr _ _ _ _ h1).1

/-- The counter after a message and further messages that all fall into the
window in which the first is counted. -/
theorem allowAll_one_window (c : Client) (limit : Int) (hlimit : 0 < limit) (t : Int)
    (ts : List Int)
    (hwin : ∀ t' ∈ ts, t' - (if t - c.winStart ≥ second then t else c.winStart) < second) :
    (c.allowAll limit (t :: ts)).1.window =
      (if t - c.winStart ≥ second then t else c.winStart,
        (if t - c.winStart ≥ second then 0 else c.winCount) + 1 + (ts.length : Int)) := by
  by_cases hreset : t - c.winStart ≥ second
  · simp only [if_pos hreset] at hwin ⊢
    have h1 := AllowMessage_new_window c t limit hlimit hreset
    have h2 := (allowAll_same_window limit hlimit ts { c with winStart := t, winCount := 1 }
      hwin).2
    simp only [Client.allowAll, h1, h2, Client.window, zero_add]
  · simp only [if_neg hreset] at hwin ⊢
    have h1 := AllowMessage_same_window c t limit hlimit (not_le.1 hreset)
    have h2 := (allowAll_same_window limit hlimit ts { c with winCount := c.winCount + 1 }
      hwin).2
    simp only [Client.allowAll, h1, h2, Client.window]

/-- C16 (amended): with a limit of 60 messages per second, for 61 consecutive
inbound messages of a connection that are counted in one rate window (every
message after the first arrives less than 1 s after the start of the window
in which the first is counted, which is the arrival time of the first when it
restarts the window and the current window start otherwise), the 61st is
rejected by `AllowMessage` and answered with `ERROR_RESP{429, "rate limited"}`
and nothing else. -/
theorem sixty_first_in_window_rejected (L : protocol.Lib) (A : auth.Manager) (w : Server)
    (cid : Nat) (c : Client) (first : Inbound) (rest : List Inbound) (last : Inbound)
    (hc : gomap.get cid w.clients = some c) (hmax : w.MaxMsgPerSecond = 60)
    (hcount : 0 ≤ c.winCount) (hlen : rest.length = 59)
    (hwin : ∀ m ∈ rest ++ [last],
      m.now - (if first.now - c.winStart ≥ second then first.now else c.winStart) < second) :
    ∃ c60, gomap.get cid (w.handleAll L A cid (first :: rest)).clients = some c60 ∧
      (c60.AllowMessage last.now 60).2 = false ∧
      (w.handleAll L A cid (first :: rest)).handleMessage L A cid last.data last.now
          last.uuidName last.uuidPlayer =
        ((w.handleAll L A cid (first :: rest)).rateChecked cid last.now).sendError L cid 429
          "rate limited" := by
  obtain ⟨hmax60, c60, hc60, hw60⟩ := handleAll_window L A cid (first :: rest) w c hc
  rw [hmax] at hmax60 hw60
  have hwin' : ∀ t' ∈ rest.map (fun m => m.now),
      t' - (if first.now - c.winStart ≥ second then first.now else c.winStart) < second := by
    intro t' ht'
    obtain ⟨m, hm, rfl⟩ := List.mem_map.1 ht'
    exact hwin m (List.mem_append_left _ hm)
  have hone := allowAll_one_window c 60 (by norm_num) first.now (rest.map (fun m => m.now)) hwin'
  simp only [List.map_cons] at hw60
  rw [hone] at hw60
  simp only [Client.window, Prod.mk.injEq, List.length_map, hlen] at hw60
  obtain ⟨hstart, hcnt⟩ := hw60
  have hlast := hwin last (List.mem_append_right _ (List.mem_singleton_self _))
  rw [← hstart] at hlast
  have hfalse : (c60.AllowMessage last.now 60).2 = false := by
    rw [AllowMessage_same_window c60 last.now 60 (by norm_num) hlast]
    simp only [decide_eq_false_iff_not, not_le]
    rw [hcnt]
    split_ifs <;> omega
  refine ⟨c60, hc60, hfalse, ?_⟩
  apply handleMessage_rate_limited L A _ cid last.data last.now last.uuidName last.uuidPlayer c60
    hc60
  rw [hmax60]
  exact hfalse

end netws

namespace netws

/-- Witness of `sixty_first_in_window_rejected`: on the connection created at
time 0, sixty PINGs at 100 ms and a 61st at 900 ms fall into the window opened
at creation, and the 61st is refused. -/
theorem sixty_first_in_window_rejected_witness :
    ∃ c60, gomap.get 1
        (scenario.server0.handleAll scenario.lib scenario.authMgr 1
          (scenario.pingAt 100000000 ::
            List.replicate 59 (scenario.pingAt 100000000))).clients = some c60 ∧
      (c60.AllowMessage (scenario.pingAt 900000000).now 60).2 = false ∧
      (scenario.server0.handleAll scenario.lib scenario.authMgr 1
          (scenario.pingAt 100000000 ::
            List.replicate 59 (scenario.pingAt 100000000))).handleMessage scenario.lib
          scenario.authMgr 1 (scenario.pingAt 900000000).data (scenario.pingAt 900000000).now
          (scenario.pingAt 900000000).uuidName (scenario.pingAt 900000000).uuidPlayer =
        ((scenario.server0.handleAll scenario.lib scenario.authMgr 1
          (scenario.pingAt 100000000 ::
            List.replicate 59 (scenario.pingAt 100000000))).rateChecked 1
          (scenario.pingAt 900000000).now).sendError scenario.lib 1 429 "rate limited" :=
  sixty_first_in_window_rejected scenario.lib scenario.authMgr scenario.server0 1
    (NewClient 256 0) (scenario.pingAt 100000000)
    (List.replicate 59 (scenario.pingAt 100000000)) (scenario.pingAt 900000000)
    (by decide) (by decide) (by decide) (by simp)
    (by
      intro m hm
      simp only [List.mem_append, List.mem_replicate, List.mem_singleton] at hm
      rcases hm with ⟨_, rfl⟩ | rfl <;> decide)

end netws

/-! ## The matchmaker is first in, first out -/

namespace matcher

theorem answers_append (l1 l2 : List Step) : answers (l1 ++ l2) = answers l1 ++ answers l2 := by
  induction l1 with
  | nil => rfl
  | cons e rest ih => cases e <;> simp [answers, ih]

theorem roomsOf_append (l1 l2 : List Step) : roomsOf (l1 ++ l2) = roomsOf l1 ++ roomsOf l2 := by
  induction l1 with
  | nil => rfl
  | cons e rest ih => cases e <;> simp [roomsOf, ih]

theorem answers_checks (sc : List (String × Bool)) : answers (checks sc) = sc := by
  induction sc with
  | nil => rfl
  | cons x rest ih =>
    have : answers (checks rest) = rest := ih
    simp [checks, answers] at this ⊢
    exact this

theorem roomsOf_checks (sc : List (String × Bool)) : roomsOf (checks sc) = [] := by
  induction sc with
  | nil => rfl
  | cons x rest ih =>
    have : roomsOf (checks rest) = [] := ih
    simp [checks, roomsOf] at this ⊢
    exact this

theorem Answered_nil (online : Oracle) (log : List Step) : Answered online log [] := by
  intro pre p b post h
  simp at h

theorem Answered_append (online : Oracle) (log l1 l2 : List Step)
    (h1 : Answered online log l1) (h2 : Answered online (log ++ l1) l2) :
    Answered online log (l1 ++ l2) := by
  intro pre p b post h
  rcases List.append_eq_append_iff.1 h with ⟨a, rfl, ha⟩ | ⟨c, hc, hc2⟩
  · have := h2 a p b post ha
    simpa [List.append_assoc] using this
  · cases c with
    | nil =>
      simp only [List.append_nil] at hc
      simp only [List.nil_append] at hc2
      have := h2 [] p b post hc2.symm
      simpa [hc] using this
    | cons e c =>
      simp only [List.cons_append, List.cons.injEq] at hc2
      obtain ⟨rfl, _⟩ := hc2
      exact h1 pre p b c hc

theorem Answered_room (online : Oracle) (log : List Step) (ps : List String) :
    Answered online log [Step.room ps] := by
  intro pre p b post h
  cases pre with
  | nil => simp at h
  | cons e pre =>
    simp only [List.cons_append, List.cons.injEq] at h
    have := h.2
    simp at this

theorem Answered_check (online : Oracle) (log : List Step) (p : String) :
    Answered online log [Step.checked p (online log p)] := by
  intro pre q b post h
  cases pre with
  | nil =>
    simp only [List.nil_append, List.cons.injEq, Step.checked.injEq] at h
    obtain ⟨⟨rfl, rfl⟩, _⟩ := h
    simp
  | cons e pre =>
    simp only [List.cons_append, List.cons.injEq] at h
    have := h.2
    simp at this

end matcher

namespace matcher

theorem scan_fifo (N : Int) (online : Oracle) (queue : List String) :
    ∀ (players enq : List String) (log : List Step),
      ∃ (sc : List (String × Bool)) (rest : List String),
        queue = sc.map Prod.fst ++ rest ∧
        (scan N online queue players enq log).queue = rest ∧
        (scan N online queue players enq log).players = players ++ onlineIds sc ∧
        (scan N online queue players enq log).log = log ++ checks sc ∧
        Answered online log (checks sc) ∧
        (∀ q, q ∈ (scan N online queue players enq log).enqueuedAt ↔ q ∈ enq ∧ (q, false) ∉ sc) ∧
        (((scan N online queue players enq log).players.length : Int) < N → rest = []) ∧
        ((players.length : Int) ≤ N →
          ((scan N online queue players enq log).players.length : Int) ≤ N) := by
  induction queue with
  | nil =>
    intro players enq log
    exact ⟨[], [], by simp [scan, onlineIds, checks, Answered_nil]⟩
  | cons p queue ih =>
    intro players enq log
    by_cases hlen : (players.length : Int) < N
    · by_cases hon : online log p = true
      · obtain ⟨sc, rest, hq, hqueue, hplayers, hlog, hans, henq, hshort, hle⟩ :=
          ih (players ++ [p]) enq (log ++ [Step.checked p true])
        have hscan : scan N online (p :: queue) players enq log =
            scan N online queue (players ++ [p]) enq (log ++ [Step.checked p true]) := by
          simp [scan, hlen, hon]
        rw [hscan]
        refine ⟨(p, true) :: sc, rest, by simp [hq], hqueue, ?_, ?_, ?_, ?_, hshort, ?_⟩
        · rw [hplayers]; simp [onlineIds]
        · rw [hlog]; simp [checks]
        · have h1 : Answered online log [Step.checked p true] := by
            have := Answered_check online log p
            rwa [hon] at this
          exact Answered_append online log [Step.checked p true] (checks sc) h1 hans
        · intro q
          rw [henq q]
          simp
        · intro _
          apply hle
          simp only [List.length_append, List.length_singleton]
          push_cast
          omega
      · have hoff : online log p = false := by
          cases h : online log p
          · rfl
          · exact absurd h hon
        obtain ⟨sc, rest, hq, hqueue, hplayers, hlog, hans, henq, hshort, hle⟩ :=
          ih players (enq.filter (fun q => decide (q ≠ p))) (log ++ [Step.checked p false])
        have hscan : scan N online (p :: queue) players enq log =
            scan N online queue players (enq.filter (fun q => decide (q ≠ p)))
              (log ++ [Step.checked p false]) := by
          simp [scan, hlen, hoff]
        rw [hscan]
        refine ⟨(p, false) :: sc, rest, by simp [hq], hqueue, ?_, ?_, ?_, ?_, hshort, hle⟩
        · rw [hplayers]; simp [onlineIds]
        · rw [hlog]; simp [checks]
        · have h1 : Answered online log [Step.checked p false] := by
            have := Answered_check online log p
            rwa [hoff] at this
          exact Answered_append online log [Step.checked p false] (checks sc) h1 hans
        · intro q
          rw [henq q]
          simp only [List.mem_filter, decide_eq_true_eq, List.mem_cons, Prod.mk.injEq, and_true,
            not_or]
          tauto
    · have hscan : scan N online (p :: queue) players enq log =
          { queue := p :: queue, players := players, enqueuedAt := enq, log := log } := by
        simp [scan, hlen]
      rw [hscan]
      refine ⟨[], p :: queue, by simp, rfl, by simp [onlineIds], by simp [checks],
        Answered_nil online log, by simp, ?_, fun h => h⟩
      intro h
      exact absurd h hlen

theorem mem_onlineIds (sc : List (String × Bool)) (q : String) :
    q ∈ onlineIds sc ↔ (q, true) ∈ sc := by
  simp [onlineIds]

theorem mem_map_fst (sc : List (String × Bool)) (q : String) :
    q ∈ sc.map Prod.fst ↔ (q, true) ∈ sc ∨ (q, false) ∈ sc := by
  simp only [List.mem_map, Prod.exists, exists_and_right, exists_eq_right, Bool.exists_bool]
  tauto

theorem not_both (sc : List (String × Bool)) (h : (sc.map Prod.fst).Nodup) (q : String)
    (ht : (q, true) ∈ sc) : (q, false) ∉ sc := by
  intro hf
  have := List.inj_on_of_nodup_map h ht hf rfl
  simp at this

theorem kept_iff (sc : List (String × Bool)) (rest : List String)
    (h : (sc.map Prod.fst ++ rest).Nodup) (q : String) :
    (q ∈ sc.map Prod.fst ++ rest ∧ (q, false) ∉ sc) ↔ q ∈ onlineIds sc ++ rest := by
  have hnd := (List.nodup_append.1 h).1
  rw [List.mem_append, List.mem_append, mem_onlineIds, mem_map_fst]
  constructor
  · rintro ⟨h1 | h1, h2⟩
    · rcases h1 with h1 | h1
      · exact Or.inl h1
      · exact absurd h1 h2
    · exact Or.inr h1
  · rintro (h1 | h1)
    · exact ⟨Or.inl (Or.inl h1), not_both sc hnd q h1⟩
    · refine ⟨Or.inr h1, fun hf => ?_⟩
      have hq : q ∈ sc.map Prod.fst := (mem_map_fst sc q).2 (Or.inr hf)
      exact (List.nodup_append.1 h).2.2 hq h1

end matcher

namespace matcher

theorem formBatches_fifo (N : Int) (hN : 1 ≤ N) (online : Oracle) :
    ∀ (fuel : Nat) (queue enq : List String) (log : List Step),
      queue.length ≤ fuel → queue.Nodup → (∀ p, p ∈ enq ↔ p ∈ queue) →
      ∃ (new : List Step) (surv rest : List String),
        (formBatches N online fuel queue enq log).log = log ++ new ∧
        (∀ e ∈ new, (∃ p b, e = Step.checked p b) ∨ ∃ ps, e = Step.room ps) ∧
        Answered online log new ∧
        queue = (answers new).map Prod.fst ++ rest ∧
        onlineIds (answers new) = (roomsOf new).flatten ++ surv ∧
        (∀ r ∈ roomsOf new, (r.length : Int) = N) ∧
        (formBatches N online fuel queue enq log).queue = surv ++ rest ∧
        (((formBatches N online fuel queue enq log).queue.length : Int) < N) ∧
        (formBatches N online fuel queue enq log).stuck = false ∧
        (∀ p, p ∈ (formBatches N online fuel queue enq log).enqueuedAt ↔
          p ∈ (formBatches N online fuel queue enq log).queue) := by
  intro fuel
  induction fuel with
  | zero =>
    intro queue enq log hfuel _ henq
    have hq : queue = [] := List.length_eq_zero.1 (Nat.le_zero.1 hfuel)
    subst hq
    refine ⟨[], [], [], by simp [formBatches], by simp, Answered_nil online log,
      by simp [answers], by simp [answers, roomsOf, onlineIds], by simp [roomsOf],
      by simp [formBatches], ?_, ?_, ?_⟩
    · simp only [formBatches, List.length_nil]
      push_cast
      omega
    · simp only [formBatches, List.length_nil, decide_eq_false_iff_not]
      push_cast
      omega
    · simpa [formBatches] using henq
  | succ fuel ih =>
    intro queue enq log hfuel hnd henq
    by_cases hlen : (queue.length : Int) ≥ N
    · obtain ⟨sc, rest1, hq, hqueue, hplayers, hlog, hans, henq1, hshort, hle⟩ :=
        scan_fifo N online queue [] enq log
      rw [List.nil_append] at hplayers
      have hnd1 : (sc.map Prod.fst ++ rest1).Nodup := by rw [← hq]; exact hnd
      have hkept : ∀ q, q ∈ (scan N online queue [] enq log).enqueuedAt ↔
          q ∈ onlineIds sc ++ rest1 := by
        intro q
        rw [henq1 q, henq q, ← kept_iff sc rest1 hnd1 q, ← hq]
      by_cases hp : ((scan N online queue [] enq log).players.length : Int) < N
      · have hform : formBatches N online (fuel + 1) queue enq log =
            { enqueuedAt := (scan N online queue [] enq log).enqueuedAt,
              queue := (scan N online queue [] enq log).players ++
                (scan N online queue [] enq log).queue,
              log := (scan N online queue [] enq log).log, stuck := false } := by
          simp [formBatches, hlen, hp]
        have hrest : rest1 = [] := hshort hp
        rw [hform]
        refine ⟨checks sc, onlineIds sc, [], hlog, ?_, hans, ?_, ?_, ?_, ?_, ?_, rfl, ?_⟩
        · intro e he
          simp only [checks, List.mem_map] at he
          obtain ⟨x, _, rfl⟩ := he
          exact Or.inl ⟨x.1, x.2, rfl⟩
        · rw [answers_checks, hq, hrest]
        · rw [answers_checks, roomsOf_checks]; simp
        · rw [roomsOf_checks]; simp
        · simp only [hplayers, hqueue, hrest]
        · simp only [hqueue, hrest, List.append_nil]
          exact hp
        · intro q
          simp only [hplayers, hqueue]
          exact hkept q
      · have hfull : ((scan N online queue [] enq log).players.length : Int) = N := by
          have := hle (by simp; omega)
          omega
        have hform : formBatches N online (fuel + 1) queue enq log =
            formBatches N online fuel (scan N online queue [] enq log).queue
              ((scan N online queue [] enq log).players.foldl
                (fun enq p => enq.filter (fun q => decide (q ≠ p)))
                (scan N online queue [] enq log).enqueuedAt)
              ((scan N online queue [] enq log).log ++
                [Step.room (scan N online queue [] enq log).players]) := by
          simp [formBatches, hlen, hp]
        have hsub : (onlineIds sc).length ≤ sc.length := by
          simp only [onlineIds, List.length_map]
          exact List.length_filter_le _ _
        have hlenq : queue.length = sc.length + rest1.length := by
          rw [hq]; simp
        have hpl : ((onlineIds sc).length : Int) = N := by rw [← hplayers]; exact hfull
        have hfuel1 : rest1.length ≤ fuel := by omega
        have hndr : rest1.Nodup := (List.nodup_append.1 hnd1).2.1
        have hdisj : ∀ q, q ∈ rest1 → q ∉ onlineIds sc := by
          intro q hq1 hq2
          have : q ∈ sc.map Prod.fst :=
            (mem_map_fst sc q).2 (Or.inl ((mem_onlineIds sc q).1 hq2))
          exact (List.nodup_append.1 hnd1).2.2 this hq1
        have henq2 : ∀ q, q ∈ (scan N online queue [] enq log).players.foldl
            (fun enq p => enq.filter (fun q => decide (q ≠ p)))
            (scan N online queue [] enq log).enqueuedAt ↔ q ∈ rest1 := by
          intro q
          rw [mem_foldl_filter, hkept q, hplayers, List.mem_append]
          constructor
          · rintro ⟨h1 | h1, h2⟩
            · exact absurd h1 h2
            · exact h1
          · intro h1
            exact ⟨Or.inr h1, hdisj q h1⟩
        rw [hform]
        rw [hqueue]
        obtain ⟨new2, surv, rest, hlog2, hsteps2, hans2, hq2, hon2, hrooms2, hqueue2, hlt2, hstuck2,
          hiff2⟩ := ih rest1 _ ((scan N online queue [] enq log).log ++
            [Step.room (scan N online queue [] enq log).players]) hfuel1 hndr henq2
        refine ⟨checks sc ++ Step.room (onlineIds sc) :: new2, surv, rest, ?_, ?_, ?_, ?_, ?_, ?_,
          hqueue2, hlt2, hstuck2, hiff2⟩
        · rw [hlog2, hlog, hplayers]; simp
        · intro e he
          rcases List.mem_append.1 he with he | he
          · simp only [checks, List.mem_map] at he
            obtain ⟨x, _, rfl⟩ := he
            exact Or.inl ⟨x.1, x.2, rfl⟩
          · rcases List.mem_cons.1 he with he | he
            · exact Or.inr ⟨_, he⟩
            · exact hsteps2 e he
        · apply Answered_append online log (checks sc) _ hans
          have h3 : Answered online (log ++ checks sc) [Step.room (onlineIds sc)] :=
            Answered_room online _ _
          have h4 := Answered_append online (log ++ checks sc) [Step.room (onlineIds sc)] new2 h3
            (by rw [hlog, hplayers] at hans2; exact hans2)
          simpa using h4
        · rw [answers_append, answers_checks]
          simp only [answers, List.map_append, List.append_assoc]
          rw [← hq2]
          exact hq
        · rw [answers_append, answers_checks, roomsOf_append, roomsOf_checks]
          simp only [answers, roomsOf, List.nil_append, List.flatten_cons, List.append_assoc]
          rw [← hon2]
          simp [onlineIds]
        · rw [roomsOf_append, roomsOf_checks]
          simp only [roomsOf, List.nil_append, List.mem_cons]
          rintro r (rfl | hr)
          · exact hpl
          · exact hrooms2 r hr
    · have hform : formBatches N online (fuel + 1) queue enq log =
          { enqueuedAt := enq, queue := queue, log := log, stuck := false } := by
        simp only [formBatches, if_neg hlen]
      rw [hform]
      refine ⟨[], [], queue, by simp, by simp, Answered_nil online log,
        by simp [answers], by simp [answers, roomsOf, onlineIds], by simp [roomsOf],
        by simp, ?_, rfl, henq⟩
      simp only
      omega

end matcher

namespace matcher

theorem onlineIds_sublist (sc : List (String × Bool)) :
    List.Sublist (onlineIds sc) (sc.map Prod.fst) :=
  List.Sublist.map _ (List.filter_sublist _)

theorem fifo_consequences (sc : List (String × Bool)) (rooms : List (List String))
    (surv rest : List String) (hnd : (sc.map Prod.fst ++ rest).Nodup)
    (hon : onlineIds sc = rooms.flatten ++ surv) :
    (surv ++ rest).Nodup ∧ (∀ r ∈ rooms, r.Nodup) ∧ ∀ p, (p, false) ∈ sc → p ∉ surv ++ rest := by
  have hsurv : List.Sublist surv (sc.map Prod.fst) := by
    refine List.Sublist.trans ?_ (onlineIds_sublist sc)
    rw [hon]
    exact List.sublist_append_right _ _
  refine ⟨List.Nodup.sublist (List.Sublist.append hsurv (List.Sublist.refl rest)) hnd, ?_, ?_⟩
  · intro r hr
    have h1 : List.Sublist r (onlineIds sc) := by
      rw [hon]
      exact List.Sublist.trans (List.sublist_flatten_of_mem hr) (List.sublist_append_left _ _)
    exact List.Nodup.sublist (List.Sublist.trans h1 (onlineIds_sublist sc))
      (List.nodup_append.1 hnd).1
  · intro p hp hmem
    rcases List.mem_append.1 hmem with h | h
    · have h1 : p ∈ onlineIds sc := by
        rw [hon]
        exact List.mem_append_right _ h
      exact not_both sc (List.nodup_append.1 hnd).1 p ((mem_onlineIds sc p).1 h1) hp
    · exact (List.nodup_append.1 hnd).2.2 ((mem_map_fst sc p).2 (Or.inr hp)) h

theorem consume_fresh (N : Int) (online : Oracle) (fuel : Nat) (m : Matcher) (pid : String)
    (hstuck : m.stuck = false) (hpid : pid ∉ m.enqueuedAt) :
    consume N online fuel m pid =
      formBatches N online fuel (m.queue ++ [pid]) (m.enqueuedAt ++ [pid])
        (m.log ++ [Step.appended pid]) := by
  simp [consume, hstuck, hpid]

theorem consume_queue_inv (N : Int) (hN : 1 ≤ N) (online : Oracle) (fuel : Nat) (m : Matcher)
    (pid : String) (hstuck : m.stuck = false) (hnd : m.queue.Nodup)
    (henq : ∀ p, p ∈ m.enqueuedAt ↔ p ∈ m.queue) (hlen : (m.queue.length : Int) < N)
    (hfuel : N ≤ fuel) :
    (consume N online fuel m pid).stuck = false ∧ (consume N online fuel m pid).queue.Nodup ∧
      (∀ p, p ∈ (consume N online fuel m pid).enqueuedAt ↔
        p ∈ (consume N online fuel m pid).queue) ∧
      (((consume N online fuel m pid).queue.length : Int) < N) := by
  by_cases hpid : pid ∈ m.enqueuedAt
  · have hc : consume N online fuel m pid = { m with log := m.log ++ [Step.discarded pid] } := by
      simp [consume, hstuck, hpid]
    rw [hc]
    exact ⟨hstuck, hnd, henq, hlen⟩
  · rw [consume_fresh N online fuel m pid hstuck hpid]
    have hnd1 : (m.queue ++ [pid]).Nodup := by
      rw [List.nodup_append]
      refine ⟨hnd, by simp, ?_⟩
      intro a ha hb
      rw [List.mem_singleton] at hb
      subst hb
      exact hpid ((henq a).2 ha)
    have henq1 : ∀ p, p ∈ m.enqueuedAt ++ [pid] ↔ p ∈ m.queue ++ [pid] := by
      intro p
      simp [henq p]
    have hfuel1 : (m.queue ++ [pid]).length ≤ fuel := by
      simp only [List.length_append, List.length_singleton]
      omega
    obtain ⟨new, surv, rest, _, _, _, hq, hon, _, hqueue, hlt, hst, hiff⟩ :=
      formBatches_fifo N hN online fuel (m.queue ++ [pid]) (m.enqueuedAt ++ [pid])
        (m.log ++ [Step.appended pid]) hfuel1 hnd1 henq1
    refine ⟨hst, ?_, hiff, hlt⟩
    rw [hqueue]
    exact (fifo_consequences (answers new) (roomsOf new) surv rest (by rw [← hq]; exact hnd1) hon).1

/-- For rooms of at least one player and enough fuel, the matchmaker loop is
never stuck, and between two passes its queue has no duplicate, holds fewer
ids than a room takes, and its ids are the keys of `enqueuedAt`. -/
theorem loop_queue_inv (N : Int) (hN : 1 ≤ N) (online : Oracle) (fuel : Nat) (hfuel : N ≤ fuel)
    (ids : List String) :
    (loop N online fuel ids).stuck = false ∧ (loop N online fuel ids).queue.Nodup ∧
      (∀ p, p ∈ (loop N online fuel ids).enqueuedAt ↔ p ∈ (loop N online fuel ids).queue) ∧
      (((loop N online fuel ids).queue.length : Int) < N) := by
  have hneg : ¬ N < 0 := by omega
  simp only [loop, if_neg hneg]
  have key : ∀ (ids : List String) (m : Matcher),
      (m.stuck = false ∧ m.queue.Nodup ∧ (∀ p, p ∈ m.enqueuedAt ↔ p ∈ m.queue) ∧
        ((m.queue.length : Int) < N)) →
      ((ids.foldl (consume N online fuel) m).stuck = false ∧
        (ids.foldl (consume N online fuel) m).queue.Nodup ∧
        (∀ p, p ∈ (ids.foldl (consume N online fuel) m).enqueuedAt ↔
          p ∈ (ids.foldl (consume N online fuel) m).queue) ∧
        (((ids.foldl (consume N online fuel) m).queue.length : Int) < N)) := by
    intro ids
    induction ids with
    | nil => intro m h; exact h
    | cons pid rest ih =>
      intro m h
      rw [List.foldl_cons]
      exact ih _ (consume_queue_inv N hN online fuel m pid h.1 h.2.1 h.2.2.1 h.2.2.2 hfuel)
  apply key
  refine ⟨rfl, List.nodup_nil, by simp, ?_⟩
  simp only [List.length_nil]
  push_cast
  omega

/-- C11: for `playersPerRoom` at least 1, a pending queue without duplicates
whose ids are the keys of `enqueuedAt`, and every online oracle, one pass of
the matchmaker on the id `pid` is first in, first out with offline eviction.
If `pid` is already pending it is discarded and nothing else changes.
Otherwise the pass appends it, then only calls `IsOnline` and creates rooms:
the ids checked are a front part of the queue, in queue order, each answered
by the oracle at the time of the call; the ids answered online are, in queue
order, the players of the created rooms one room after the other followed by
the survivors; every room has exactly `playersPerRoom` distinct ids; the
queue left is the survivors followed by the ids not checked; every id
answered offline is in neither the queue nor `enqueuedAt`; and afterwards the
queue has no duplicate, holds fewer than `playersPerRoom` ids, and its ids are
exactly the keys of `enqueuedAt`. -/
theorem consume_strict_fifo (playersPerRoom : Int) (online : Oracle) (fuel : Nat) (m : Matcher)
    (pid : String) (hN : 1 ≤ playersPerRoom) (hstuck : m.stuck = false) (hnd : m.queue.Nodup)
    (henq : ∀ p, p ∈ m.enqueuedAt ↔ p ∈ m.queue) (hfuel : m.queue.length < fuel) :
    (pid ∈ m.queue →
      consume playersPerRoom online fuel m pid =
        { m with log := m.log ++ [Step.discarded pid] }) ∧
    (pid ∉ m.queue → ∃ (new : List Step) (surv rest : List String),
      (consume playersPerRoom online fuel m pid).log = m.log ++ Step.appended pid :: new ∧
      (∀ e ∈ new, (∃ p b, e = Step.checked p b) ∨ ∃ ps, e = Step.room ps) ∧
      Answered online (m.log ++ [Step.appended pid]) new ∧
      m.queue ++ [pid] = (answers new).map Prod.fst ++ rest ∧
      onlineIds (answers new) = (roomsOf new).flatten ++ surv ∧
      (∀ r ∈ roomsOf new, (r.length : Int) = playersPerRoom ∧ r.Nodup) ∧
      (consume playersPerRoom online fuel m pid).queue = surv ++ rest ∧
      (∀ p, (p, false) ∈ answers new →
        p ∉ (consume playersPerRoom online fuel m pid).queue ∧
          p ∉ (consume playersPerRoom online fuel m pid).enqueuedAt) ∧
      (((consume playersPerRoom online fuel m pid).queue.length : Int) < playersPerRoom) ∧
      (consume playersPerRoom online fuel m pid).queue.Nodup ∧
      (consume playersPerRoom online fuel m pid).stuck = false ∧
      (∀ p, p ∈ (consume playersPerRoom online fuel m pid).enqueuedAt ↔
        p ∈ (consume playersPerRoom online fuel m pid).queue)) := by
  constructor
  · intro hpid
    simp [consume, hstuck, (henq pid).2 hpid]
  · intro hpid
    have hpid1 : pid ∉ m.enqueuedAt := fun h => hpid ((henq pid).1 h)
    rw [consume_fresh playersPerRoom online fuel m pid hstuck hpid1]
    have hnd1 : (m.queue ++ [pid]).Nodup := by
      rw [List.nodup_append]
      refine ⟨hnd, by simp, ?_⟩
      intro a ha hb
      rw [List.mem_singleton] at hb
      subst hb
      exact hpid ha
    have henq1 : ∀ p, p ∈ m.enqueuedAt ++ [pid] ↔ p ∈ m.queue ++ [pid] := by
      intro p
      simp [henq p]
    have hfuel1 : (m.queue ++ [pid]).length ≤ fuel := by
      simp only [List.length_append, List.length_singleton]
      omega
    obtain ⟨new, surv, rest, hlog, hsteps, hans, hq, hon, hrooms, hqueue, hlt, hst, hiff⟩ :=
      formBatches_fifo playersPerRoom hN online fuel (m.queue ++ [pid]) (m.enqueuedAt ++ [pid])
        (m.log ++ [Step.appended pid]) hfuel1 hnd1 henq1
    obtain ⟨hnd2, hrnd, hoff⟩ :=
      fifo_consequences (answers new) (roomsOf new) surv rest (by rw [← hq]; exact hnd1) hon
    refine ⟨new, surv, rest, by rw [hlog]; simp, hsteps, hans, hq, hon,
      fun r hr => ⟨hrooms r hr, hrnd r hr⟩, hqueue, ?_, hlt, by rw [hqueue]; exact hnd2, hst, hiff⟩
    intro p hp
    have h1 := hoff p hp
    rw [← hqueue] at h1
    exact ⟨h1, fun h => h1 ((hiff p).1 h)⟩

/-- Witness of `consume_strict_fifo`: rooms of two, a and b pending, b offline;
c is enqueued, b is evicted and the room is made of a and c. -/
theorem consume_strict_fifo_witness :
    (1 : Int) ≤ 2 ∧ scenario.pendingAB.queue.Nodup ∧
      (consume 2 scenario.offlineB 5 scenario.pendingAB "c").log =
        [Step.appended "c", Step.checked "a" true, Step.checked "b" false,
          Step.checked "c" true, Step.room ["a", "c"]] ∧
      ("a" ∈ scenario.pendingAB.queue →
        consume 2 scenario.offlineB 5 scenario.pendingAB "a" =
          { scenario.pendingAB with log := scenario.pendingAB.log ++ [Step.discarded "a"] }) :=
  ⟨by decide, by decide, by decide,
    (consume_strict_fifo 2 scenario.offlineB 5 scenario.pendingAB "a" (by decide) rfl
      (by decide) (fun _ => Iff.rfl) (by decide)).1⟩

end matcher

/-! ## Reconnecting to a room of two -/

namespace scenario

/-- C20: a failing run.  Players p1 and p2 are in the running room R, which
has sent p1 two snapshots; the socket of p1 closes, the room handles the
resulting Leave event and ticks once, and p1, whose session still exists,
reconnects on a new socket within the reconnect window with its valid token.
The room has already ended and left the registry, the session of p1 has lost
its room id, and the reply is RECONNECT_RESP with ok = true and an empty
room id: no snapshot of R can reach the new connection. -/
theorem reconnect_after_drop_finds_room_closed :
    ((gomap.get "R" inRoom.1.rooms).map (fun r => r.players) = some ["p1", "p2"] ∧
      (inRoom.1.sessions.Get "p1").map (fun s => (s.RoomID, s.Online, s.sender)) =
        some ("R", true, some 1) ∧
      (gomap.get 1 inRoom.1.clients).map (fun c => c.send.map (fun f => f.Typ)) =
        some [protocol.MsgLoginResp, protocol.MsgMatchResp, protocol.MsgRoomSnapshot,
          protocol.MsgRoomSnapshot]) ∧
    ((gomap.get "R" (inRoom.1.socketClosed 1 120000000).rooms).map
        (fun r => r.events.map (fun e => (e.Typ, e.PlayerID))) =
      some [(room.EventType.EventLeave, "p1")]) ∧
    ((afterDrop.1.sessions.Get "p1").map (fun s => (s.RoomID, s.Online, s.LastSeen)) =
        some ("", false, 120000000) ∧
      gomap.get "R" afterDrop.1.rooms = none ∧
      (gomap.get 2 afterDrop.1.clients).map (fun c => c.send.map (fun f => f.Typ)) =
        some [protocol.MsgLoginResp, protocol.MsgMatchResp, protocol.MsgRoomSnapshot,
          protocol.MsgRoomSnapshot, protocol.MsgRoomSnapshot, protocol.MsgRoomOver] ∧
      (gomap.get 2 afterDrop.1.clients).map (fun c => (c.send.drop 5).map (fun f => f.Body)) =
        some [some (.roomOver { RoomId := "R", WinnerId := "p2" })]) ∧
    ((gomap.get 3 afterReconnect.clients).map (fun c => c.send.map (fun f => (f.Typ, f.Body))) =
        some [(protocol.MsgReconnectResp,
          some (.reconnectResp { PlayerId := "p1", RoomId := "", Ok := true, Reason := "" }))] ∧
      gomap.get "R" afterReconnect.rooms = none ∧
      (afterReconnect.sessions.Get "p1").map (fun s => (s.RoomID, s.Online, s.sender)) =
        some ("", true, some 3)) := by
  refine ⟨by decide, by decide, ?_, by decide⟩
  decide

end scenario

namespace room

/-- In a battle of two players, once the Leave event of one of them is
handled, `Winner` finds the match over at the next tick. -/
theorem leave_ends_battle_of_two (s : battle.State) (a b : String) (pa pb : battle.PlayerState)
    (hs : s.Players = [(a, pa), (b, pb)]) (pid : String) (hpid : pid = a ∨ pid = b) :
    (battle.Winner (battle.TickForward
      (handleEvent s { Typ := .EventLeave, PlayerID := pid, Input := none, Skill := none }))).2 =
      true := by
  by_cases ha : a = pid
  · simp only [handleEvent, battle.TickForward, battle.Winner, hs, gomap.modify, ha, if_true,
      List.map_cons, List.map_nil, battle.winnerLoop]
    split_ifs <;> simp_all
  · have hb : b = pid := by
      rcases hpid with h | h
      · exact absurd h.symm ha
      · exact h.symm
    simp only [handleEvent, battle.TickForward, battle.Winner, hs, gomap.modify, ha, hb, if_true,
      if_false, List.map_cons, List.map_nil, battle.winnerLoop]
    split_ifs <;> simp_all

end room

/-! ## A Leave event on a full queue -/

namespace room

/-- A room loop that only receives events handles the whole queue, in order. -/
theorem loop_events {σ : Type} (I : store.Idempotency σ) (st : σ) (evs : List Event) :
    ∀ (r : Room) (extra : Nat), r.events = evs →
      r.loop I st (List.replicate (evs.length + extra) Select.event) =
        { room := { r with events := [], state := evs.foldl handleEvent r.state },
          idem := st, sent := [], settlements := 0, returned := false } := by
  induction evs with
  | nil =>
    intro r extra hr
    induction extra with
    | zero =>
      simp only [List.length_nil, List.replicate, Room.loop, List.foldl_nil]
      rw [← hr]
    | succ n ih =>
      simp only [List.length_nil, Nat.zero_add] at ih ⊢
      simp only [List.replicate, Room.loop, hr]
      exact ih
  | cons ev evs ih =>
    intro r extra hr
    have hlen : (ev :: evs).length + extra = (evs.length + extra) + 1 := by
      simp only [List.length_cons]; omega
    rw [hlen]
    simp only [List.replicate, Room.loop, hr]
    rw [ih { r with events := evs, state := handleEvent r.state ev } extra rfl]
    rfl

end room

namespace scenario

end scenario

namespace room

end room

/-! ## Ticks and the cooldown -/

namespace gomap

variable {κ : Type} {α : Type} [DecidableEq κ]

theorem get_map_values (k : κ) (f : α → α) (m : List (κ × α)) :
    get k (m.map (fun e => (e.1, f e.2))) = (get k m).map f := by
  induction m with
  | nil => rfl
  | cons e rest ih =>
    obtain ⟨k', v⟩ := e
    by_cases h : k' = k
    · simp [get, h]
    · simp only [List.map_cons, get, h, if_false]
      exact ih

end gomap

namespace battle

theorem cd_modify (k c : String) (f : PlayerState → PlayerState)
    (hf : ∀ v, (f v).SkillCD = v.SkillCD) (m : List (String × PlayerState)) (p : PlayerState)
    (h : gomap.get c m = some p) :
    ∃ q, gomap.get c (gomap.modify k f m) = some q ∧ q.SkillCD = p.SkillCD := by
  by_cases hk : c = k
  · subst hk
    rw [gomap.get_modify_self, h]
    exact ⟨f p, rfl, hf p⟩
  · rw [gomap.get_modify_ne _ _ _ _ hk]
    exact ⟨p, h, rfl⟩

theorem ApplyInput_cd (s : State) (pid c : String) (inp : Option protocol.PlayerInput)
    (p : PlayerState) (h : gomap.get c s.Players = some p) :
    ∃ q, gomap.get c (ApplyInput s pid inp).Players = some q ∧ q.SkillCD = p.SkillCD := by
  unfold ApplyInput
  split
  · split
    · exact ⟨p, h, rfl⟩
    · dsimp only
      exact cd_modify pid c _ (by intro v; rfl) _ p h
  · exact ⟨p, h, rfl⟩

theorem ApplySkill_cooling (s : State) (c : String) (sk : Option protocol.SkillCast)
    (p : PlayerState) (h : gomap.get c s.Players = some p) (hcd : 0 < p.SkillCD) :
    ApplySkill s c sk = s := by
  cases sk with
  | none => simp [ApplySkill]
  | some sk => simp [ApplySkill, h, hcd]

theorem ApplySkill_cd_other (s : State) (cid c : String) (sk : Option protocol.SkillCast)
    (hne : c ≠ cid) (p : PlayerState) (h : gomap.get c s.Players = some p) :
    ∃ q, gomap.get c (ApplySkill s cid sk).Players = some q ∧ q.SkillCD = p.SkillCD := by
  unfold ApplySkill
  split
  · split
    · exact ⟨p, h, rfl⟩
    · split
      · exact ⟨p, h, rfl⟩
      · split
        · exact ⟨p, h, rfl⟩
        · split
          · exact ⟨p, h, rfl⟩
          · split
            · exact ⟨p, h, rfl⟩
            · split
              · exact ⟨p, h, rfl⟩
              · dsimp only
                rw [gomap.get_modify_ne _ _ _ _ hne]
                exact cd_modify _ c _ (by intro v; rfl) _ p h
  · exact ⟨p, h, rfl⟩

theorem ApplySkill_cd (s : State) (cid c : String) (sk : Option protocol.SkillCast)
    (p : PlayerState) (h : gomap.get c s.Players = some p) (hcd : 0 < p.SkillCD) :
    ∃ q, gomap.get c (ApplySkill s cid sk).Players = some q ∧ q.SkillCD = p.SkillCD := by
  by_cases hne : c = cid
  · subst hne
    rw [ApplySkill_cooling s c sk p h hcd]
    exact ⟨p, h, rfl⟩
  · exact ApplySkill_cd_other s cid c sk hne p h

theorem TickForward_get (s : State) (k : String) :
    gomap.get k (TickForward s).Players =
      (gomap.get k s.Players).map
        (fun p => if p.SkillCD > 0 then { p with SkillCD := p.SkillCD - 1 } else p) := by
  simp only [TickForward]
  exact gomap.get_map_values k
    (fun p => if p.SkillCD > 0 then { p with SkillCD := p.SkillCD - 1 } else p) s.Players

theorem applyOp_cd (s : State) (op : Op) (c : String) (p : PlayerState)
    (h : gomap.get c s.Players = some p) (hcd : 0 < p.SkillCD) :
    ∃ q, gomap.get c (applyOp s op).Players = some q ∧
      q.SkillCD = p.SkillCD - (ticks [op] : Int) := by
  cases op with
  | input pid inp =>
    simpa [applyOp, ticks] using ApplyInput_cd s pid c inp p h
  | skill cid sk =>
    simpa [applyOp, ticks] using ApplySkill_cd s cid c sk p h hcd
  | tick =>
    refine ⟨{ p with SkillCD := p.SkillCD - 1 }, ?_, by simp [ticks]⟩
    simp only [applyOp]
    rw [TickForward_get, h]
    simp [hcd]
  | event ev =>
    simp only [applyOp, ticks, room.handleEvent, Nat.cast_zero, sub_zero]
    cases hty : ev.Typ with
    | EventJoin => exact ⟨p, h, rfl⟩
    | EventLeave =>
      dsimp only
      exact cd_modify _ c _ (by intro v; rfl) _ p h
    | EventInput => exact ApplyInput_cd s _ c _ p h
    | EventSkill => exact ApplySkill_cd s _ c _ p h hcd

theorem ticks_cons (op : Op) (ops : List Op) : ticks (op :: ops) = ticks [op] + ticks ops := by
  cases op <;> simp [ticks, Nat.add_comm]

theorem ticks_append (l1 l2 : List Op) : ticks (l1 ++ l2) = ticks l1 + ticks l2 := by
  induction l1 with
  | nil => simp [ticks]
  | cons op rest ih =>
    rw [List.cons_append, ticks_cons, ih, ticks_cons op rest]
    omega

/-- While fewer ticks have elapsed than the cooldown of a player, any
operations leave that cooldown at its value less the ticks. -/
theorem foldl_applyOp_cd (c : String) (ops : List Op) :
    ∀ (s : State) (p : PlayerState), gomap.get c s.Players = some p →
      (ticks ops : Int) < p.SkillCD →
      ∃ q, gomap.get c (ops.foldl applyOp s).Players = some q ∧
        q.SkillCD = p.SkillCD - (ticks ops : Int) := by
  induction ops with
  | nil =>
    intro s p h _
    exact ⟨p, h, by simp [ticks]⟩
  | cons op rest ih =>
    intro s p h hlt
    rw [ticks_cons] at hlt
    push_cast at hlt
    obtain ⟨q, hq, hqcd⟩ := applyOp_cd s op c p h (by omega)
    obtain ⟨q2, hq2, hq2cd⟩ := ih (applyOp s op) q hq (by omega)
    refine ⟨q2, by rw [List.foldl_cons]; exact hq2, ?_⟩
    have hc := ticks_cons op rest
    rw [hq2cd, hqcd, hc]
    push_cast
    omega

end battle

namespace battle

/-- A cast that changed the state has put the caster on the full cooldown. -/
theorem ApplySkill_landed_cd (s : State) (c : String) (sk : Option protocol.SkillCast)
    (hland : ApplySkill s c sk ≠ s) :
    ∃ p, gomap.get c (ApplySkill s c sk).Players = some p ∧ p.SkillCD = skillCooldown := by
  cases sk with
  | none => exact absurd (by simp [ApplySkill]) hland
  | some sk =>
    cases hc : gomap.get c s.Players with
    | none => exact absurd (ApplySkill_caster_absent s c _ hc) hland
    | some cst =>
      cases ht : gomap.get sk.TargetId s.Players with
      | none => exact absurd (ApplySkill_target_absent s c sk ht) hland
      | some t =>
        rw [ApplySkill_eq s c sk cst t hc ht] at hland ⊢
        split_ifs at hland ⊢ with hcond
        · exact absurd rfl hland
        · have hne : c ≠ sk.TargetId := by
            intro h
            exact hcond (Or.inr (Or.inr (Or.inr (Or.inl h.symm))))
          dsimp only
          rw [gomap.get_modify_self, gomap.get_modify_ne _ _ _ _ hne, hc]
          exact ⟨_, rfl, rfl⟩

/-- A run of `n` ticks takes the tick counter `n` further, as long as it stays
inside `int64`. -/
theorem ticks_advance (n : Nat) :
    ∀ s : State, -(2 : Int) ^ 63 ≤ s.Tick → s.Tick + n ≤ 2 ^ 63 - 1 →
      ((List.replicate n Op.tick).foldl applyOp s).Tick = s.Tick + n := by
  induction n with
  | zero => intro s _ _; simp
  | succ n ih =>
    intro s hlo hhi
    push_cast at hhi
    have hstep : (applyOp s Op.tick).Tick = s.Tick + 1 := by
      simp only [applyOp, TickForward, wrapInt64]
      have h1 : 0 ≤ s.Tick + 1 + 2 ^ 63 := by omega
      have h2 : s.Tick + 1 + 2 ^ 63 < 2 ^ 64 := by omega
      rw [Int.emod_eq_of_lt h1 h2]
      omega
    rw [List.replicate_succ, List.foldl_cons, ih (applyOp s Op.tick) (by omega) (by omega), hstep]
    push_cast
    omega

/-- C22 fails at the top of `int64`: in the battle of a and b, after a run of
2^63 - 1 ticks the tick counter is 2^63 - 1, and one more `TickForward` wraps
it to -2^63 instead of increasing it by 1. -/
theorem TickForward_wraps_at_max :
    (run ["a", "b"] (List.replicate 9223372036854775807 Op.tick)).Tick = 9223372036854775807 ∧
      (TickForward (run ["a", "b"] (List.replicate 9223372036854775807 Op.tick))).Tick =
        -9223372036854775808 ∧
      (TickForward (run ["a", "b"] (List.replicate 9223372036854775807 Op.tick))).Tick ≠
        (run ["a", "b"] (List.replicate 9223372036854775807 Op.tick)).Tick + 1 := by
  have h : (run ["a", "b"] (List.replicate 9223372036854775807 Op.tick)).Tick =
      9223372036854775807 := by
    have h0 := ticks_advance 9223372036854775807 (NewState ["a", "b"])
      (by simp [NewState]) (by simp [NewState])
    simp only [run]
    rw [h0]
    simp [NewState]
  have h2 : (TickForward (run ["a", "b"] (List.replicate 9223372036854775807 Op.tick))).Tick =
      -9223372036854775808 := by
    simp only [TickForward, wrapInt64, h]
    norm_num
  refine ⟨h, h2, ?_⟩
  rw [h2, h]
  norm_num

/-- C22, amended: for every battle state whose tick is below the largest
`int64`, `TickForward` increases the tick by exactly 1; for every battle state
it keeps the keys of the player map and the id, x, y and hp of every player,
lowers by exactly 1 every skill_cd that is above 0 and leaves every other
skill_cd (0 included) as it is.  Consequently, after a cast of `c` that landed,
no cast of `c` has any effect while fewer than 20 `TickForward` calls have
elapsed, whatever else happens, and right after the 20th the skill_cd of `c`
is 0. -/
theorem TickForward_contract (s : State) :
    (-(2 : Int) ^ 63 ≤ s.Tick → s.Tick < 2 ^ 63 - 1 → (TickForward s).Tick = s.Tick + 1) ∧
    gomap.keys (TickForward s).Players = gomap.keys s.Players ∧
    (∀ k p, gomap.get k s.Players = some p →
      ∃ q, gomap.get k (TickForward s).Players = some q ∧
        q.ID = p.ID ∧ q.X = p.X ∧ q.Y = p.Y ∧ q.HP = p.HP ∧
        (p.SkillCD > 0 → q.SkillCD = p.SkillCD - 1) ∧
        (p.SkillCD = 0 → q.SkillCD = 0) ∧ (p.SkillCD ≤ 0 → q.SkillCD = p.SkillCD)) ∧
    (∀ c sk, ApplySkill s c sk ≠ s →
      (∀ ops, ticks ops < 20 → ∀ sk2,
        ApplySkill (ops.foldl applyOp (ApplySkill s c sk)) c sk2 =
          ops.foldl applyOp (ApplySkill s c sk)) ∧
      (∀ ops, ticks ops = 19 →
        ∃ q, gomap.get c ((ops ++ [Op.tick]).foldl applyOp (ApplySkill s c sk)).Players =
          some q ∧ q.SkillCD = 0)) := by
  refine ⟨?_, ?_, ?_, ?_⟩
  · intro hlo hhi
    simp only [TickForward, wrapInt64]
    have h1 : 0 ≤ s.Tick + 1 + 2 ^ 63 := by omega
    have h2 : s.Tick + 1 + 2 ^ 63 < 2 ^ 64 := by omega
    rw [Int.emod_eq_of_lt h1 h2]
    omega
  · simp only [TickForward, gomap.keys, List.map_map]
    rfl
  · intro k p hk
    rw [TickForward_get, hk]
    by_cases hcd : p.SkillCD > 0
    · refine ⟨{ p with SkillCD := p.SkillCD - 1 }, by simp [hcd], rfl, rfl, rfl, rfl,
        fun _ => rfl, fun h0 => ?_, fun hle => ?_⟩
      · omega
      · omega
    · refine ⟨p, by simp [hcd], rfl, rfl, rfl, rfl, fun h => absurd h hcd, fun h0 => h0,
        fun _ => rfl⟩
  · intro c sk hland
    obtain ⟨p, hp, hpcd⟩ := ApplySkill_landed_cd s c sk hland
    have h20 : p.SkillCD = 20 := by rw [hpcd]; rfl
    constructor
    · intro ops hops sk2
      obtain ⟨q, hq, hqcd⟩ := foldl_applyOp_cd c ops (ApplySkill s c sk) p hp (by omega)
      exact ApplySkill_cooling _ c sk2 q hq (by omega)
    · intro ops hops
      obtain ⟨q, hq, hqcd⟩ := foldl_applyOp_cd c ops (ApplySkill s c sk) p hp (by omega)
      rw [List.foldl_append]
      obtain ⟨q2, hq2, hq2cd⟩ := applyOp_cd (ops.foldl applyOp (ApplySkill s c sk)) Op.tick c q hq
        (by omega)
      refine ⟨q2, by simpa using hq2, ?_⟩
      rw [hq2cd, hqcd, h20, hops]
      simp [ticks]

/-- Witness of `TickForward_contract`: the first tick of a battle of a and b
takes the tick from 0 to 1. -/
theorem TickForward_contract_witness :
    -(2 : Int) ^ 63 ≤ (NewState ["a", "b"]).Tick ∧ (NewState ["a", "b"]).Tick < 2 ^ 63 - 1 ∧
      (TickForward (NewState ["a", "b"])).Tick = (NewState ["a", "b"]).Tick + 1 :=
  ⟨by decide, by decide,
    (TickForward_contract (NewState ["a", "b"])).1 (by decide) (by decide)⟩

end battle

/-! ## Reconnect tokens -/

namespace auth

end auth

/-! ## The closure of a superseded connection -/

namespace session

/-- After a rebind, `MarkOffline` for the same player leaves the rebound
session offline and without sender. -/
theorem MarkOffline_after_Bind (m : Manager) (pid : String) (s : Session) (c2 : Nat)
    (t1 t2 : Int) (h : m.Get pid = some s) :
    ((m.Bind pid c2 t1).1.MarkOffline pid t2).Get pid =
      some { s with sender := none, Online := false, LastSeen := t2 } := by
  simp only [Manager.Get] at h
  simp only [Manager.Bind, h, Manager.MarkOffline, Manager.Get, gomap.get_modify_self,
    Option.map_some', Session.SetSender, Session.ClearSender]

end session

namespace scenario

/-- C24: a failing run.  The session of p1 is online with sender connection 1
in the room R; a RECONNECT_REQ on connection 3 rebinds it, which installs
connection 3 and closes connection 1, still holding the player id p1.  The
socket-closure handling of connection 1 then posts `Leave(p1)` to R and marks
the session offline with no sender, so nothing reaches connection 3 any
more. -/
theorem superseded_closure_marks_offline :
    ((inRoom.1.sessions.Get "p1").map (fun s => (s.RoomID, s.Online, s.sender)) =
        some ("R", true, some 1)) ∧
    ((rebound.sessions.Get "p1").map (fun s => (s.RoomID, s.Online, s.sender)) =
        some ("R", true, some 3) ∧
      (gomap.get 1 rebound.clients).map (fun c => (c.playerID, c.connClosed)) =
        some ("p1", true) ∧
      (gomap.get "R" rebound.rooms).map (fun r => r.events.map (fun e => (e.Typ, e.PlayerID))) =
        some [(room.EventType.EventJoin, "p1")]) ∧
    ((afterSuperseded.sessions.Get "p1").map (fun s => (s.RoomID, s.Online, s.sender)) =
        some ("R", false, none) ∧
      (gomap.get "R" afterSuperseded.rooms).map
          (fun r => r.events.map (fun e => (e.Typ, e.PlayerID))) =
        some [(room.EventType.EventJoin, "p1"), (room.EventType.EventLeave, "p1")] ∧
      afterSuperseded.sessions.IsOnline "p1" = false ∧
      (netws.Server.sessionsSend lib afterSuperseded "p1" protocol.MsgPong
          (.pong { ClientTs := 0, ServerTs := 0 })).2 = some netws.Err.sessionOffline) := by
  refine ⟨by decide, by decide, by decide⟩

end scenario

/-! ## Inputs that are not numbers -/

namespace battle.ieee

theorem clampFloat32_fin (v lo hi : ℚ) :
    clampFloat32 (.fin v) (.fin lo) (.fin hi) = .fin (battle.clampFloat32 v lo hi) := by
  unfold clampFloat32 battle.clampFloat32
  by_cases h1 : v < lo
  · simp [Float.lt, h1]
  · by_cases h2 : v > hi
    · simp only [Float.lt, h1, decide_False, if_false, Bool.false_eq_true]
      simp [h2]
    · have h3 : ¬ hi < v := h2
      simp [Float.lt, h1, h2, h3]

theorem clampFloat32_nan (lo hi : Float) : clampFloat32 .nan lo hi = .nan := by
  simp [clampFloat32, Float.lt]
  cases hi <;> simp [Float.lt]

end battle.ieee

namespace scenario

/-- C25: a failing run.  In the battle of p1 and p2, placed 100 apart, a cast
of p1 on p2 is out of range and changes nothing.  After a PLAYER_INPUT of p1
whose dx is not a number the x of p1 is not a number, hence neither finite nor
inside the arena, and the same cast of p1 now takes 10 hp from p2: the range
test compares a distance that is not a number. -/
theorem nan_input_leaves_arena_and_range :
    (battle.ieee.ApplySkill (battle.ieee.NewState ["p1", "p2"]) "p1"
        (some { SkillId := 0, TargetId := "p2" }) = battle.ieee.NewState ["p1", "p2"]) ∧
    ((gomap.get "p1" afterNaN.Players).map (fun p => p.X) = some battle.ieee.Float.nan ∧
      (gomap.get "p1" afterNaN.Players).map (fun p => p.X.inArena) = some false ∧
      (gomap.get "p2" afterNaN.Players).map (fun p => (p.X, p.Y, p.HP)) =
        some (.fin 50, .fin 0, 100)) ∧
    ((gomap.get "p2"
        (battle.ieee.ApplySkill afterNaN "p1"
          (some { SkillId := 0, TargetId := "p2" })).Players).map (fun p => p.HP) = some 90 ∧
      battle.ieee.distanceSq .nan (.fin 0) (.fin 50) (.fin 0) = .nan) := by
  refine ⟨?_, ⟨?_, ?_, ?_⟩, ?_, ?_⟩
  · simp [battle.ieee.ApplySkill, battle.ieee.NewState, battle.ieee.newStateLoop, gomap.put,
      gomap.get, battle.defaultHP, battle.ieee.outOfRange, battle.ieee.distanceSq,
      battle.ieee.Float.sub, battle.ieee.Float.neg, battle.ieee.Float.add, battle.ieee.Float.mul,
      battle.ieee.Float.lt, battle.skillRange]
    norm_num
  · simp [afterNaN, battle.ieee.ApplyInput, battle.ieee.NewState, battle.ieee.newStateLoop,
      gomap.put, gomap.get, gomap.modify, battle.defaultHP, battle.ieee.clampFloat32_nan,
      battle.ieee.Float.add]
  · simp [afterNaN, battle.ieee.ApplyInput, battle.ieee.NewState, battle.ieee.newStateLoop,
      gomap.put, gomap.get, gomap.modify, battle.defaultHP, battle.ieee.clampFloat32_nan,
      battle.ieee.Float.add, battle.ieee.Float.inArena]
  · simp [afterNaN, battle.ieee.ApplyInput, battle.ieee.NewState, battle.ieee.newStateLoop,
      gomap.put, gomap.get, gomap.modify, battle.defaultHP]
    norm_num
  · simp [afterNaN, battle.ieee.ApplyInput, battle.ieee.ApplySkill, battle.ieee.NewState,
      battle.ieee.newStateLoop, gomap.put, gomap.get, gomap.modify, battle.defaultHP,
      battle.ieee.clampFloat32_nan, battle.ieee.Float.add, battle.ieee.outOfRange,
      battle.ieee.distanceSq, battle.ieee.Float.sub, battle.ieee.Float.neg,
      battle.ieee.Float.mul, battle.ieee.Float.lt, battle.skillDamage]
  · simp [battle.ieee.distanceSq, battle.ieee.Float.sub, battle.ieee.Float.neg,
      battle.ieee.Float.add, battle.ieee.Float.mul]

end scenario

/-! ## The batch loop terminates -/

namespace matcher

/-- A batch selection takes the ids it selects, and those it evicts, off the
queue, and selects at most a room of them. -/
theorem scan_lengths (N : Int) (hN : 0 ≤ N) (online : Oracle) (queue enq : List String)
    (log : List Step) :
    (scan N online queue [] enq log).queue.length +
        (scan N online queue [] enq log).players.length ≤ queue.length ∧
      ((scan N online queue [] enq log).players.length : Int) ≤ N ∧
      roomsOf (scan N online queue [] enq log).log = roomsOf log := by
  obtain ⟨sc, rest, hq, hqueue, hplayers, hlog, _, _, _, hle⟩ := scan_fifo N online queue [] enq log
  refine ⟨?_, hle (by simpa using hN), ?_⟩
  · rw [hqueue, hplayers, hq]
    have := (onlineIds_sublist sc).length_le
    simp only [List.nil_append, List.length_append, List.length_map] at this ⊢
    omega
  · rw [hlog, roomsOf_append, roomsOf_checks, List.append_nil]

theorem formBatches_bound (N : Int) (hN : 1 ≤ N) (online : Oracle) :
    ∀ (fuel : Nat) (queue enq : List String) (log : List Step), queue.length ≤ fuel →
      (formBatches N online fuel queue enq log).stuck = false ∧
      (((roomsOf (formBatches N online fuel queue enq log).log).length : Int) * N ≤
        ((roomsOf log).length : Int) * N + queue.length) ∧
      ∀ k, formBatches N online (fuel + k) queue enq log =
        formBatches N online fuel queue enq log := by
  intro fuel
  induction fuel with
  | zero =>
    intro queue enq log hfuel
    have hq : queue = [] := List.length_eq_zero.1 (Nat.le_zero.1 hfuel)
    subst hq
    have hlt : ¬ ((0 : Int) ≥ N) := by omega
    refine ⟨by simp [formBatches, hlt], by simp [formBatches], ?_⟩
    intro k
    cases k with
    | zero => rfl
    | succ k => simp [formBatches, hlt]
  | succ fuel ih =>
    intro queue enq log hfuel
    have hstep : ∀ k, fuel + 1 + k = (fuel + k) + 1 := fun k => by omega
    by_cases hlen : (queue.length : Int) ≥ N
    · obtain ⟨hshort, hle, hrooms⟩ := scan_lengths N (by omega) online queue enq log
      by_cases hp : ((scan N online queue [] enq log).players.length : Int) < N
      · refine ⟨by simp [formBatches, hlen, hp], ?_, ?_⟩
        · simp only [formBatches, if_pos hlen, if_pos hp, hrooms]
          omega
        · intro k
          rw [hstep k]
          simp [formBatches, hlen, hp]
      · have hfuel1 : (scan N online queue [] enq log).queue.length ≤ fuel := by omega
        obtain ⟨hst, hcount, hk⟩ := ih (scan N online queue [] enq log).queue
          ((scan N online queue [] enq log).players.foldl
            (fun enq p => enq.filter (fun q => decide (q ≠ p)))
            (scan N online queue [] enq log).enqueuedAt)
          ((scan N online queue [] enq log).log ++
            [Step.room (scan N online queue [] enq log).players]) hfuel1
        have hform : ∀ f, formBatches N online (f + 1) queue enq log =
            formBatches N online f (scan N online queue [] enq log).queue
              ((scan N online queue [] enq log).players.foldl
                (fun enq p => enq.filter (fun q => decide (q ≠ p)))
                (scan N online queue [] enq log).enqueuedAt)
              ((scan N online queue [] enq log).log ++
                [Step.room (scan N online queue [] enq log).players]) := by
          intro f
          simp [formBatches, hlen, hp]
        refine ⟨by rw [hform]; exact hst, ?_, ?_⟩
        · rw [hform]
          have hr : ((roomsOf ((scan N online queue [] enq log).log ++
              [Step.room (scan N online queue [] enq log).players])).length : Int) =
              (roomsOf log).length + 1 := by
            rw [roomsOf_append, hrooms]
            simp [roomsOf]
          rw [hr] at hcount
          have hq : ((scan N online queue [] enq log).queue.length : Int) + N ≤ queue.length := by
            omega
          linarith [add_mul ((roomsOf log).length : Int) 1 N]
        · intro k
          rw [hstep k, hform, hform]
          exact hk k
    · refine ⟨by simp [formBatches, hlen], ?_, ?_⟩
      · simp only [formBatches, if_neg hlen]
        omega
      · intro k
        rw [hstep k]
        simp [formBatches, hlen]

end matcher

namespace matcher

/-- One pass of the matchmaker on an enqueued id is never stuck and creates at
most as many rooms as the queue with the new id holds full batches. -/
theorem consume_terminates (N : Int) (hN : 1 ≤ N) (online : Oracle) (fuel : Nat) (m : Matcher)
    (pid : String) (hstuck : m.stuck = false) (hfuel : m.queue.length < fuel) :
    (consume N online fuel m pid).stuck = false ∧
      ((roomsOf (consume N online fuel m pid).log).length : Int) ≤
        (roomsOf m.log).length + ((m.queue.length : Int) + 1) / N := by
  have hpos : (0 : Int) < N := by omega
  by_cases hpid : pid ∈ m.enqueuedAt
  · have hc : consume N online fuel m pid = { m with log := m.log ++ [Step.discarded pid] } := by
      simp [consume, hstuck, hpid]
    rw [hc]
    refine ⟨hstuck, ?_⟩
    simp only [roomsOf_append, roomsOf, List.append_nil]
    have : (0 : Int) ≤ ((m.queue.length : Int) + 1) / N := Int.ediv_nonneg (by omega) (by omega)
    omega
  · rw [consume_fresh N online fuel m pid hstuck hpid]
    obtain ⟨hst, hcount, _⟩ := formBatches_bound N hN online fuel (m.queue ++ [pid])
      (m.enqueuedAt ++ [pid]) (m.log ++ [Step.appended pid])
      (by simp only [List.length_append, List.length_singleton]; omega)
    refine ⟨hst, ?_⟩
    simp only [roomsOf_append, roomsOf, List.append_nil, List.length_append,
      List.length_singleton] at hcount
    have h2 : (((roomsOf (formBatches N online fuel (m.queue ++ [pid]) (m.enqueuedAt ++ [pid])
        (m.log ++ [Step.appended pid])).log).length : Int) - (roomsOf m.log).length) ≤
        ((m.queue.length : Int) + 1) / N := by
      rw [Int.le_ediv_iff_mul_le hpos]
      push_cast at hcount
      linarith [sub_mul ((roomsOf (formBatches N online fuel (m.queue ++ [pid])
        (m.enqueuedAt ++ [pid]) (m.log ++ [Step.appended pid])).log).length : Int)
        ((roomsOf m.log).length : Int) N]
    omega

/-- C26: for `playersPerRoom` at least 1, every queue and every online oracle,
the batch loop of the matchmaker terminates: with fuel for as many iterations
as the queue has ids it is not stuck, and more fuel does not change its
result.  Every iteration that runs either stops the loop, when the batch
selection found fewer than `playersPerRoom` online ids, or has selected exactly
`playersPerRoom` ids, creates one room and goes on with a queue shorter by at
least `playersPerRoom` ids.  The loop creates at most
`len(queue) / playersPerRoom` rooms, rounded down. -/
theorem batch_loop_terminates (playersPerRoom : Int) (online : Oracle) (fuel : Nat)
    (queue enq : List String) (log : List Step) (hN : 1 ≤ playersPerRoom)
    (hfuel : queue.length ≤ fuel) :
    (formBatches playersPerRoom online fuel queue enq log).stuck = false ∧
    (∀ k, formBatches playersPerRoom online (fuel + k) queue enq log =
      formBatches playersPerRoom online fuel queue enq log) ∧
    ((queue.length : Int) ≥ playersPerRoom →
      (((scan playersPerRoom online queue [] enq log).players.length : Int) < playersPerRoom ∧
        formBatches playersPerRoom online (fuel + 1) queue enq log =
          { enqueuedAt := (scan playersPerRoom online queue [] enq log).enqueuedAt,
            queue := (scan playersPerRoom online queue [] enq log).players ++
              (scan playersPerRoom online queue [] enq log).queue,
            log := (scan playersPerRoom online queue [] enq log).log, stuck := false } ∧
        roomsOf (scan playersPerRoom online queue [] enq log).log = roomsOf log) ∨
      (((scan playersPerRoom online queue [] enq log).players.length : Int) = playersPerRoom ∧
        ((scan playersPerRoom online queue [] enq log).queue.length : Int) + playersPerRoom ≤
          queue.length ∧
        formBatches playersPerRoom online (fuel + 1) queue enq log =
          formBatches playersPerRoom online fuel
            (scan playersPerRoom online queue [] enq log).queue
            ((scan playersPerRoom online queue [] enq log).players.foldl
              (fun enq p => enq.filter (fun q => decide (q ≠ p)))
              (scan playersPerRoom online queue [] enq log).enqueuedAt)
            ((scan playersPerRoom online queue [] enq log).log ++
              [Step.room (scan playersPerRoom online queue [] enq log).players]))) ∧
    ((roomsOf (formBatches playersPerRoom online fuel queue enq log).log).length : Int) ≤
      (roomsOf log).length + (queue.length : Int) / playersPerRoom := by
  have hpos : (0 : Int) < playersPerRoom := by omega
  obtain ⟨hst, hcount, hk⟩ := formBatches_bound playersPerRoom hN online fuel queue enq log hfuel
  refine ⟨hst, hk, ?_, ?_⟩
  · intro hlen
    obtain ⟨hshort, hle, hrooms⟩ := scan_lengths playersPerRoom (by omega) online queue enq log
    by_cases hp : ((scan playersPerRoom online queue [] enq log).players.length : Int) <
        playersPerRoom
    · exact Or.inl ⟨hp, by simp [formBatches, hlen, hp], hrooms⟩
    · refine Or.inr ⟨by omega, by omega, ?_⟩
      simp [formBatches, hlen, hp]
  · have h2 : (((roomsOf (formBatches playersPerRoom online fuel queue enq log).log).length :
        Int) - (roomsOf log).length) ≤ (queue.length : Int) / playersPerRoom := by
      rw [Int.le_ediv_iff_mul_le hpos]
      linarith [sub_mul
        ((roomsOf (formBatches playersPerRoom online fuel queue enq log).log).length : Int)
        ((roomsOf log).length : Int) playersPerRoom]
    omega

/-- Witness of `batch_loop_terminates`: rooms of two and the queue a, b, c, d,
e with everyone online; the loop makes the rooms of a, b and of c, d and
leaves e. -/
theorem batch_loop_terminates_witness :
    (1 : Int) ≤ 2 ∧ ["a", "b", "c", "d", "e"].length ≤ 5 ∧
      roomsOf (formBatches 2 (fun _ _ => true) 5 ["a", "b", "c", "d", "e"]
        ["a", "b", "c", "d", "e"] []).log = [["a", "b"], ["c", "d"]] ∧
      (formBatches 2 (fun _ _ => true) 5 ["a", "b", "c", "d", "e"]
        ["a", "b", "c", "d", "e"] []).stuck = false :=
  ⟨by decide, by decide, by decide,
    (batch_loop_terminates 2 (fun _ _ => true) 5 ["a", "b", "c", "d", "e"]
      ["a", "b", "c", "d", "e"] [] (by decide) (by decide)).1⟩

end matcher

/-! ## A queued Leave under every schedule -/

namespace battle

end battle

namespace room

end room

namespace room

end room

namespace room

end room

/-! ## Send on a connection that is being closed -/

namespace scenario

/-- C17: a failing run.  Connection 1 of p1 has capacity 256 and holds 4
messages when the end of `ServeHTTP` closes its outbound channel; the session
of p1 is still online with connection 1 as its sender, so the next tick of the
room R sends its snapshot through the session to connection 1, and that `Send`
is a send on a closed channel: it panics instead of queueing the message and
returning no error.  Once `MarkOffline` has run the same send is refused by
the session and never reaches the connection. -/
theorem send_on_closing_connection_panics :
    ((gomap.get 1 closing.clients).map (fun c => (c.send.length, c.sendCap, c.sendClosed)) =
        some (4, 256, true) ∧
      (closing.sessions.Get "p1").map (fun s => (s.Online, s.sender)) = some (true, some 1)) ∧
    (netws.Server.sessionsSend lib closing "p1" protocol.MsgRoomSnapshot thirdSnapshot).2 =
      some netws.Err.panic ∧
    (gomap.get 1 (netws.Server.sessionsSend lib closing "p1" protocol.MsgRoomSnapshot
        thirdSnapshot).1.clients).map (fun c => c.send.length) = some 4 ∧
    (netws.Server.sessionsSend lib (inRoom.1.socketClosed 1 120000000) "p1"
        protocol.MsgRoomSnapshot thirdSnapshot).2 = some netws.Err.sessionOffline := by
  refine ⟨by decide, by decide, by decide, by decide⟩

end scenario

/-! ## Concurrent sends on one session -/

namespace scenario

/-- C8: a failing run.  On the session of p1 as its login leaves it, online on
connection 1 with the counter at 1, the matchmaker and the read loop call
`Send` at the same time; the first call draws seq 2, the second draws seq 3 and
hands its envelope to the connection before the first does: the connection is
handed seq 3, then seq 2.  The seq values are drawn in order, the envelopes
are not handed over in that order. -/
theorem concurrent_sends_hand_off_out_of_order :
    afterLogin.sessions.Get "p1" = some freshSession ∧
      ((session.Run.init freshSession).steps lib racingSends).drawn = [2, 3] ∧
      ((session.Run.init freshSession).steps lib racingSends).handed.map
          (fun x => (x.1, x.2.Typ, x.2.Seq)) =
        [(1, protocol.MsgErrorResp, 3), (1, protocol.MsgMatchResp, 2)] ∧
      ((session.Run.init freshSession).steps lib racingSends).handedSeqs = [3, 2] ∧
      ¬ ((session.Run.init freshSession).steps lib racingSends).handedSeqs.Pairwise
          (fun a b => a < b) := by
  decide

end scenario

namespace session

theorem mem_drawn_bounds (a n : Nat) (hb : a + n < 2 ^ 64) (x : Nat)
    (hx : x ∈ (List.range n).map (fun i => (a + i + 1) % 2 ^ 64)) : a < x ∧ x ≤ a + n := by
  rw [List.mem_map] at hx
  obtain ⟨i, hi, rfl⟩ := hx
  rw [List.mem_range] at hi
  rw [Nat.mod_eq_of_lt (by omega)]
  omega

theorem Inv_init (s : Session) : (Run.init s).Inv s.seq := by
  refine ⟨by simp [Run.init], by simp [Run.init], by simp [Run.init], by simp [Run.init], ?_⟩
  intro _
  simp [Run.init, Run.handedSeqs]

theorem Inv_session (a : Nat) (r : Run) (s2 : Session) (h : r.Inv a) (hs : s2.seq = r.session.seq) :
    Run.Inv a { r with session := s2 } := by
  obtain ⟨h1, h2, h3, h4, h5⟩ := h
  exact ⟨by rw [hs]; exact h1, h2, h3, h4, h5⟩

theorem Inv_start (a : Nat) (r : Run) (call c : Nat) (msgType : Int)
    (msg : Option protocol.Message) (h : r.Inv a) :
    Run.Inv a { r with inflight := fun k => if k = call then some (.checked c msgType msg)
                                            else r.inflight k } := by
  obtain ⟨h1, h2, h3, h4, h5⟩ := h
  have hold : ∀ k c2 p, (if k = call then some (InFlight.checked c msgType msg)
      else r.inflight k) = some (InFlight.encoded c2 p) → r.inflight k = some (.encoded c2 p) := by
    intro k c2 p hk
    by_cases hkc : k = call
    · rw [if_pos hkc] at hk
      cases hk
    · rw [if_neg hkc] at hk
      exact hk
  refine ⟨h1, h2, h3, ?_, ?_⟩
  · intro k c2 p hk
    exact h4 k c2 p (hold k c2 p hk)
  · intro hb
    obtain ⟨hnd, hnot, hdist⟩ := h5 hb
    refine ⟨hnd, ?_, ?_⟩
    · intro k c2 p hk
      exact hnot k c2 p (hold k c2 p hk)
    · intro k1 k2 c1 p1 c2 p2 hne hk1 hk2
      exact hdist k1 k2 c1 p1 c2 p2 hne (hold k1 c1 p1 hk1) (hold k2 c2 p2 hk2)

end session

namespace session

theorem Inv_draw (L : protocol.Lib) (a : Nat) (r : Run) (call c : Nat) (msgType : Int)
    (msg : Option protocol.Message) (h : r.Inv a) :
    Run.Inv a
      { r with
        session := { r.session with seq := (r.session.seq + 1) % 2 ^ 64 },
        drawn := r.drawn ++ [(r.session.seq + 1) % 2 ^ 64],
        inflight := fun k =>
          if k = call then
            (protocol.Encode L msgType msg ((r.session.seq + 1) % 2 ^ 64)).map
              (fun p => InFlight.encoded c p)
          else r.inflight k } := by
  obtain ⟨h1, h2, h3, h4, h5⟩ := h
  have hseq : (r.session.seq + 1) % 2 ^ 64 = (a + r.drawn.length + 1) % 2 ^ 64 := by
    rw [h1]
    split_ifs with h0
    · rw [h0]
    · rw [Nat.add_mod, Nat.mod_mod, ← Nat.add_mod]
  have hnew : ∀ k c2 p,
      (if k = call then
          (protocol.Encode L msgType msg ((r.session.seq + 1) % 2 ^ 64)).map
            (fun p => InFlight.encoded c p)
        else r.inflight k) = some (InFlight.encoded c2 p) →
      (k = call ∧ p.Seq = (a + r.drawn.length + 1) % 2 ^ 64) ∨
        (k ≠ call ∧ r.inflight k = some (.encoded c2 p)) := by
    intro k c2 p hk
    by_cases hkc : k = call
    · rw [if_pos hkc] at hk
      left
      refine ⟨hkc, ?_⟩
      cases henc : protocol.Encode L msgType msg ((r.session.seq + 1) % 2 ^ 64) with
      | none => rw [henc] at hk; simp at hk
      | some f =>
        rw [henc] at hk
        simp only [Option.map_some', Option.some.injEq, InFlight.encoded.injEq] at hk
        rw [← hk.2, protocol.Encode_seq L _ _ _ f henc, hseq]
    · rw [if_neg hkc] at hk
      exact Or.inr ⟨hkc, hk⟩
  have hlast : (a + r.drawn.length + 1) % 2 ^ 64 ∈ r.drawn ++ [(r.session.seq + 1) % 2 ^ 64] := by
    rw [hseq]; simp
  refine ⟨?_, ?_, ?_, ?_, ?_⟩
  · simp only [List.length_append, List.length_singleton]
    rw [if_neg (by omega), hseq, Nat.add_assoc]
  · simp only [List.length_append, List.length_singleton, List.range_succ, List.map_append,
      List.map_cons, List.map_nil]
    rw [← h2, hseq]
  · intro x hx
    exact List.mem_append_left _ (h3 x hx)
  · intro k c2 p hk
    rcases hnew k c2 p hk with ⟨_, hp⟩ | ⟨_, hold⟩
    · rw [hp]; exact hlast
    · exact List.mem_append_left _ (h4 k c2 p hold)
  · intro hb
    simp only [List.length_append, List.length_singleton] at hb
    have hb0 : a + r.drawn.length < 2 ^ 64 := by omega
    obtain ⟨hnd, hnot, hdist⟩ := h5 hb0
    have hval : (a + r.drawn.length + 1) % 2 ^ 64 = a + r.drawn.length + 1 :=
      Nat.mod_eq_of_lt (by omega)
    have hle : ∀ x ∈ r.drawn, x ≤ a + r.drawn.length := by
      intro x hx
      rw [h2] at hx
      exact (mem_drawn_bounds a _ hb0 x hx).2
    refine ⟨hnd, ?_, ?_⟩
    · intro k c2 p hk
      rcases hnew k c2 p hk with ⟨_, hp⟩ | ⟨_, hold⟩
      · intro hmem
        simp only [Run.handedSeqs, List.mem_map] at hmem
        obtain ⟨x, hx, hxp⟩ := hmem
        have := hle _ (h3 x hx)
        rw [hxp, hp, hval] at this
        omega
      · exact hnot k c2 p hold
    · intro k1 k2 c1 p1 c2 p2 hne hk1 hk2
      rcases hnew k1 c1 p1 hk1 with ⟨hc1, hp1⟩ | ⟨_, hold1⟩
      · rcases hnew k2 c2 p2 hk2 with ⟨hc2, _⟩ | ⟨_, hold2⟩
        · exact absurd (hc1.trans hc2.symm) hne
        · have := hle _ (h4 k2 c2 p2 hold2)
          rw [hp1, hval]
          omega
      · rcases hnew k2 c2 p2 hk2 with ⟨_, hp2⟩ | ⟨_, hold2⟩
        · have := hle _ (h4 k1 c1 p1 hold1)
          rw [hp2, hval]
          omega
        · exact hdist k1 k2 c1 p1 c2 p2 hne hold1 hold2

theorem Inv_handoff (a : Nat) (r : Run) (call c : Nat) (payload : protocol.Frame) (h : r.Inv a)
    (hcall : r.inflight call = some (.encoded c payload)) :
    Run.Inv a
      { r with
        inflight := fun k => if k = call then none else r.inflight k,
        handed := r.handed ++ [(c, payload)] } := by
  obtain ⟨h1, h2, h3, h4, h5⟩ := h
  have hold : ∀ k c2 p, (if k = call then none else r.inflight k) = some (InFlight.encoded c2 p) →
      k ≠ call ∧ r.inflight k = some (.encoded c2 p) := by
    intro k c2 p hk
    by_cases hkc : k = call
    · rw [if_pos hkc] at hk
      cases hk
    · rw [if_neg hkc] at hk
      exact ⟨hkc, hk⟩
  refine ⟨h1, h2, ?_, ?_, ?_⟩
  · intro x hx
    rcases List.mem_append.1 hx with hx | hx
    · exact h3 x hx
    · simp only [List.mem_singleton] at hx
      rw [hx]
      exact h4 call c payload hcall
  · intro k c2 p hk
    exact h4 k c2 p (hold k c2 p hk).2
  · intro hb
    obtain ⟨hnd, hnot, hdist⟩ := h5 hb
    refine ⟨?_, ?_, ?_⟩
    · simp only [Run.handedSeqs, List.map_append, List.map_cons, List.map_nil]
      rw [List.nodup_append]
      refine ⟨hnd, by simp, ?_⟩
      intro x hx1 hx2
      simp only [List.mem_singleton] at hx2
      rw [hx2] at hx1
      exact hnot call c payload hcall hx1
    · intro k c2 p hk
      obtain ⟨hkc, hk2⟩ := hold k c2 p hk
      simp only [Run.handedSeqs, List.map_append, List.map_cons, List.map_nil, List.mem_append,
        List.mem_singleton, not_or]
      exact ⟨hnot k c2 p hk2, hdist k call c2 p c payload hkc hk2 hcall⟩
    · intro k1 k2 c1 p1 c2 p2 hne hk1 hk2
      exact hdist k1 k2 c1 p1 c2 p2 hne (hold k1 c1 p1 hk1).2 (hold k2 c2 p2 hk2).2

theorem Inv_step (L : protocol.Lib) (a : Nat) (r : Run) (x : Step) (h : r.Inv a) :
    (r.step L x).Inv a := by
  cases x with
  | start call msgType msg =>
    simp only [Run.step]
    split
    · exact h
    · split
      · exact Inv_start a r call _ msgType msg h
      · exact h
  | draw call =>
    simp only [Run.step]
    split
    · exact Inv_draw L a r call _ _ _ h
    · exact h
  | handoff call =>
    simp only [Run.step]
    split
    · rename_i c payload hcall
      exact Inv_handoff a r call c payload h hcall
    · exact h
  | setSender sender now => exact Inv_session a r _ h rfl
  | clearSender now => exact Inv_session a r _ h rfl

theorem Inv_steps (L : protocol.Lib) (a : Nat) (l : List Step) :
    ∀ r : Run, r.Inv a → (r.steps L l).Inv a := by
  induction l with
  | nil => intro r h; exact h
  | cons x rest ih =>
    intro r h
    exact ih _ (Inv_step L a r x h)

end session

namespace session

/-- A call of `Send` whose three steps run without any other step in between
does what `Session.Send` does. -/
theorem steps_of_one_call (L : protocol.Lib) (r : Run) (call : Nat) (msgType : Int)
    (msg : Option protocol.Message) (hfree : r.inflight call = none) :
    (r.steps L [Step.start call msgType msg, Step.draw call, Step.handoff call]).session =
        (r.session.Send L msgType msg).1 ∧
      (r.steps L [Step.start call msgType msg, Step.draw call, Step.handoff call]).handed =
        r.handed ++
          (match (r.session.Send L msgType msg).2 with
            | .handed c payload => [(c, payload)]
            | _ => []) := by
  cases hon : r.session.Online with
  | false =>
    simp [Run.steps, Run.step, hfree, hon, Session.Send]
  | true =>
    cases hs : r.session.sender with
    | none => simp [Run.steps, Run.step, hfree, hon, hs, Session.Send]
    | some c =>
      simp only [Run.steps, List.foldl_cons, List.foldl_nil, Run.step, hfree, hon, hs,
        Session.Send, if_true]
      cases protocol.Encode L msgType msg ((r.session.seq + 1) % 2 ^ 64) with
      | none => simp
      | some payload => simp

/-- C9, amended: for every session and every interleaving of the steps of any
number of `Send` calls with `SetSender` and `ClearSender`, below the
wrap-around of the `uint64` counter: the seq values are drawn in strictly
increasing order, one after the other from the counter the session started
with; every envelope handed to a sender carries a seq that was drawn, greater
than that counter, and no two envelopes handed over carry the same seq.  The
order of the hand-offs is promised nothing.  Every envelope that `sendDirect`
or `sendError` puts on a connection, whether or not its player_id is set,
carries seq 0. -/
theorem session_seqs_drawn_in_order_direct_seq_zero (L : protocol.Lib) (s : Session)
    (l : List Step)
    (hbound : s.seq + ((Run.init s).steps L l).drawn.length < 2 ^ 64) :
    ((Run.init s).steps L l).drawn =
        List.range' (s.seq + 1) ((Run.init s).steps L l).drawn.length ∧
    ((Run.init s).steps L l).drawn.Pairwise (fun a b => a < b) ∧
    (∀ x ∈ ((Run.init s).steps L l).handed,
      x.2.Seq ∈ ((Run.init s).steps L l).drawn ∧ s.seq < x.2.Seq) ∧
    ((Run.init s).steps L l).handedSeqs.Nodup ∧
    (∀ (w : netws.Server) (cid : Nat) (msgType : Int) (msg : protocol.Message) (k : Nat)
        (c : netws.Client),
      gomap.get k (w.sendDirect L cid msgType msg).1.clients = some c →
      ∃ c0, gomap.get k w.clients = some c0 ∧
        (c.send = c0.send ∨
          (k = cid ∧ ∃ f : protocol.Frame, c.send = c0.send ++ [f] ∧ f.Seq = 0 ∧
            f.Typ = msgType ∧ f.Body = some msg))) ∧
    (∀ (w : netws.Server) (cid : Nat) (code : Int) (message : String) (k : Nat)
        (c : netws.Client),
      gomap.get k (w.sendError L cid code message).clients = some c →
      ∃ c0, gomap.get k w.clients = some c0 ∧
        (c.send = c0.send ∨
          (k = cid ∧ ∃ f : protocol.Frame, c.send = c0.send ++ [f] ∧ f.Seq = 0 ∧
            f.Typ = protocol.MsgErrorResp ∧
            f.Body = some (.errorResp { Code := code, Message := message })))) := by
  obtain ⟨_, h2, h3, _, h5⟩ := Inv_steps L s.seq l (Run.init s) (Inv_init s)
  have hdrawn : ((Run.init s).steps L l).drawn =
      List.range' (s.seq + 1) ((Run.init s).steps L l).drawn.length := by
    conv_lhs => rw [h2]
    rw [List.range'_eq_map_range]
    apply List.map_congr_left
    intro k hk
    rw [List.mem_range] at hk
    rw [Nat.mod_eq_of_lt (by omega)]
    omega
  refine ⟨hdrawn, ?_, ?_, (h5 hbound).1, ?_, ?_⟩
  · rw [hdrawn]
    exact List.pairwise_lt_range' _ _
  · intro x hx
    refine ⟨h3 x hx, ?_⟩
    have := h3 x hx
    rw [h2] at this
    exact (mem_drawn_bounds s.seq _ hbound _ this).1
  · intro w cid msgType msg k c h
    exact netws.Server.sendDirect_queues L w cid msgType msg k c h
  · intro w cid code message k c h
    exact netws.Server.sendDirect_queues L w cid _ _ k c h

/-- Witness of `session_seqs_drawn_in_order_direct_seq_zero`: in the race of
the matchmaker and the read loop the seq values 2 and 3 are drawn in order and
the two envelopes handed over carry different seq values. -/
theorem session_seqs_drawn_in_order_direct_seq_zero_witness :
    scenario.freshSession.seq +
        ((Run.init scenario.freshSession).steps scenario.lib scenario.racingSends).drawn.length <
      2 ^ 64 ∧
      ((Run.init scenario.freshSession).steps scenario.lib scenario.racingSends).drawn.Pairwise
        (fun a b => a < b) ∧
      ((Run.init scenario.freshSession).steps scenario.lib scenario.racingSends).handedSeqs.Nodup :=
  have h := session_seqs_drawn_in_order_direct_seq_zero scenario.lib scenario.freshSession
    scenario.racingSends (by decide)
  ⟨by decide, h.2.1, h.2.2.2.1⟩

end session

/-! ## The range test under rounding -/

namespace scenario

/-- C1 fails under the rounding of `float32`: in the battle of a and b the
moves of `walkToRange`, none of which rounds, put a at x = -2^-33 and b at
x = 20, both at y = 0, so the euclidean distance between them is greater than
20.  The `float32` difference of the two x rounds to 20, `distance` returns
exactly 20, the guard `distance > skillRange` does not fire, and the cast of a
on b takes 10 hp from b and puts a on cooldown instead of leaving the state
unchanged. -/
theorem cast_lands_beyond_range :
    (battle.fp.run ["a", "b"] walkToRange = battle.run ["a", "b"] walkToRange ∧
      gomap.get "a" (battle.fp.run ["a", "b"] walkToRange).Players =
        some { ID := "a", X := -(1 / 8589934592), Y := 0, HP := 100, SkillCD := 0 } ∧
      gomap.get "b" (battle.fp.run ["a", "b"] walkToRange).Players =
        some { ID := "b", X := 20, Y := 0, HP := 100, SkillCD := 0 }) ∧
    Real.sqrt ((((-(1 / 8589934592) - 20) ^ 2 + (0 - 0) ^ 2 : ℚ)) : ℝ) > 20 ∧
    (battle.fp.round 24 (-(1 / 8589934592) - 20) = -20 ∧
      battle.fp.distance (-(1 / 8589934592)) 0 20 0 = 20) ∧
    (gomap.get "b"
        (battle.fp.ApplySkill (battle.fp.run ["a", "b"] walkToRange) "a" (some castAB)).Players =
        some { ID := "b", X := 20, Y := 0, HP := 90, SkillCD := 0 } ∧
      gomap.get "a"
        (battle.fp.ApplySkill (battle.fp.run ["a", "b"] walkToRange) "a" (some castAB)).Players =
        some { ID := "a", X := -(1 / 8589934592), Y := 0, HP := 100, SkillCD := 20 } ∧
      battle.fp.ApplySkill (battle.fp.run ["a", "b"] walkToRange) "a" (some castAB) ≠
        battle.fp.run ["a", "b"] walkToRange) := by
  refine ⟨by decide!, ?_, by decide!, by decide!⟩
  exact (battle.sqrt_distanceSq_gt_iff (-(1 / 8589934592)) 0 20 0).2 (by decide!)

end scenario

/-! ## Reconnect tokens under HS256 -/

namespace auth

end auth

namespace scenario

end scenario

namespace auth

end auth

/-! ## The contract of `ApplySkill` under rounding -/

namespace battle.fp

/-- Unfolding of the rounded `ApplySkill` once caster and target are known. -/
theorem ApplySkill_rounded_eq (s : State) (casterID : String) (sk : protocol.SkillCast)
    (c t : PlayerState) (hc : gomap.get casterID s.Players = some c)
    (ht : gomap.get sk.TargetId s.Players = some t) :
    ApplySkill s casterID (some sk) =
      if c.HP ≤ 0 ∨ c.SkillCD > 0 ∨ sk.TargetId = "" ∨ sk.TargetId = casterID ∨ t.HP ≤ 0 ∨
          distance c.X c.Y t.X t.Y > skillRange then s
      else
        { s with
          Players := gomap.modify casterID (fun c => { c with SkillCD := skillCooldown })
            (gomap.modify sk.TargetId
              (fun t => { t with
                HP := if t.HP - skillDamage < 0 then 0 else t.HP - skillDamage })
              s.Players) } := by
  simp only [ApplySkill, hc, ht]
  by_cases h1 : c.HP ≤ 0
  · simp [h1]
  by_cases h2 : c.SkillCD > 0
  · simp [h1, h2]
  by_cases h3 : sk.TargetId = ""
  · simp [h1, h2, h3]
  by_cases h4 : sk.TargetId = casterID
  · simp [h1, h2, h4]
  by_cases h5 : t.HP ≤ 0
  · simp [h1, h2, h3, h4, h5]
  by_cases h6 : distance c.X c.Y t.X t.Y > skillRange
  · simp [h1, h2, h3, h4, h5, h6]
  · simp [h1, h2, h3, h4, h5, h6]

/-- With the roundings of `float32` and `float64`, on finite coordinates: the
rounded `ApplySkill` leaves the whole state unchanged if the caster is absent,
dead or on cooldown, if the target id is empty or the caster's own, if the
target is absent or dead, or if the distance that `distance` computes is
greater than 20; in every other case the target's hp becomes `max (hp - 10) 0`,
the caster's skill_cd becomes 20, and every other field, every other player,
the key set and the tick are kept. -/
theorem ApplySkill_rounded (s : State) (casterID : String) (sk : protocol.SkillCast) :
    (gomap.get casterID s.Players = none → ApplySkill s casterID (some sk) = s) ∧
    (gomap.get sk.TargetId s.Players = none → ApplySkill s casterID (some sk) = s) ∧
    (∀ c t, gomap.get casterID s.Players = some c →
      gomap.get sk.TargetId s.Players = some t →
      (c.HP ≤ 0 ∨ c.SkillCD > 0 ∨ sk.TargetId = "" ∨ sk.TargetId = casterID ∨ t.HP ≤ 0 ∨
        distance c.X c.Y t.X t.Y > 20) →
      ApplySkill s casterID (some sk) = s) ∧
    (∀ c t, gomap.get casterID s.Players = some c →
      gomap.get sk.TargetId s.Players = some t →
      0 < c.HP → c.SkillCD ≤ 0 → sk.TargetId ≠ "" → sk.TargetId ≠ casterID → 0 < t.HP →
      distance c.X c.Y t.X t.Y ≤ 20 →
      gomap.get sk.TargetId (ApplySkill s casterID (some sk)).Players =
          some { t with HP := max (t.HP - 10) 0 } ∧
        gomap.get casterID (ApplySkill s casterID (some sk)).Players =
          some { c with SkillCD := 20 } ∧
        (∀ q, q ≠ casterID → q ≠ sk.TargetId →
          gomap.get q (ApplySkill s casterID (some sk)).Players =
            gomap.get q s.Players) ∧
        gomap.keys (ApplySkill s casterID (some sk)).Players = gomap.keys s.Players ∧
        (ApplySkill s casterID (some sk)).Tick = s.Tick) := by
  refine ⟨?_, ?_, ?_, ?_⟩
  · intro hc
    simp [ApplySkill, hc]
  · intro ht
    unfold ApplySkill
    cases hc : gomap.get casterID s.Players with
    | none => rfl
    | some c =>
      simp only [ht]
      split_ifs <;> rfl
  · intro c t hc ht h
    rw [ApplySkill_rounded_eq s casterID sk c t hc ht, if_pos (by simpa [skillRange] using h)]
  · intro c t hc ht h1 h2 h3 h4 h5 h6
    have hguard : ¬ (c.HP ≤ 0 ∨ c.SkillCD > 0 ∨ sk.TargetId = "" ∨ sk.TargetId = casterID ∨
        t.HP ≤ 0 ∨ distance c.X c.Y t.X t.Y > skillRange) := by
      rintro (h | h | h | h | h | h)
      · exact absurd h (not_le.2 h1)
      · exact absurd h (not_lt.2 h2)
      · exact h3 h
      · exact h4 h
      · exact absurd h (not_le.2 h5)
      · exact absurd h (not_lt.2 (by simpa [skillRange] using h6))
    rw [ApplySkill_rounded_eq s casterID sk c t hc ht, if_neg hguard]
    refine ⟨?_, ?_, ?_, ?_, rfl⟩
    · rw [gomap.get_modify_ne _ _ _ _ h4, gomap.get_modify_self, ht]
      simp only [Option.map_some', skillDamage]
      by_cases hlt : t.HP - 10 < 0
      · rw [if_pos hlt, max_eq_right hlt.le]
      · rw [if_neg hlt, max_eq_left (not_lt.1 hlt)]
    · rw [gomap.get_modify_self,
        gomap.get_modify_ne _ _ _ _ (Ne.symm h4), hc]
      rfl
    · intro q hq1 hq2
      rw [gomap.get_modify_ne _ _ _ _ hq1, gomap.get_modify_ne _ _ _ _ hq2]
    · rw [gomap.keys_modify, gomap.keys_modify]

end battle.fp

namespace battle

/-- C1, amended: for every battle state with finite coordinates, caster id and
SkillCast.  Over exact arithmetic `ApplySkill` leaves the whole state unchanged
if the caster is absent, dead or on cooldown, if the target id is empty or the
caster's own, if the target is absent or dead, or if the euclidean distance
between the two is greater than 20; in every other case (a distance of exactly
20 included) the target's hp becomes `max (hp - 10) 0`, the caster's skill_cd
becomes 20, and every other field, every other player, the key set and the
tick are kept.  With the roundings of `float32` and `float64` the same holds
with the distance that `distance` computes, from the rounded differences of
the coordinates, in the place of the euclidean distance. -/
theorem ApplySkill_exact_and_rounded (s : State) (casterID : String) (sk : protocol.SkillCast) :
    ((gomap.get casterID s.Players = none → ApplySkill s casterID (some sk) = s) ∧
      (∀ c, gomap.get casterID s.Players = some c → c.HP ≤ 0 →
        ApplySkill s casterID (some sk) = s) ∧
      (∀ c, gomap.get casterID s.Players = some c → c.SkillCD > 0 →
        ApplySkill s casterID (some sk) = s) ∧
      (sk.TargetId = "" → ApplySkill s casterID (some sk) = s) ∧
      (sk.TargetId = casterID → ApplySkill s casterID (some sk) = s) ∧
      (gomap.get sk.TargetId s.Players = none → ApplySkill s casterID (some sk) = s) ∧
      (∀ t, gomap.get sk.TargetId s.Players = some t → t.HP ≤ 0 →
        ApplySkill s casterID (some sk) = s) ∧
      (∀ c t, gomap.get casterID s.Players = some c →
        gomap.get sk.TargetId s.Players = some t →
        Real.sqrt (((c.X - t.X) ^ 2 + (c.Y - t.Y) ^ 2 : ℚ) : ℝ) > 20 →
        ApplySkill s casterID (some sk) = s) ∧
      (∀ c t, gomap.get casterID s.Players = some c →
        gomap.get sk.TargetId s.Players = some t →
        0 < c.HP → c.SkillCD ≤ 0 → sk.TargetId ≠ "" → sk.TargetId ≠ casterID → 0 < t.HP →
        Real.sqrt (((c.X - t.X) ^ 2 + (c.Y - t.Y) ^ 2 : ℚ) : ℝ) ≤ 20 →
        gomap.get sk.TargetId (ApplySkill s casterID (some sk)).Players =
            some { t with HP := max (t.HP - 10) 0 } ∧
          gomap.get casterID (ApplySkill s casterID (some sk)).Players =
            some { c with SkillCD := 20 } ∧
          (∀ q, q ≠ casterID → q ≠ sk.TargetId →
            gomap.get q (ApplySkill s casterID (some sk)).Players =
              gomap.get q s.Players) ∧
          gomap.keys (ApplySkill s casterID (some sk)).Players = gomap.keys s.Players ∧
          (ApplySkill s casterID (some sk)).Tick = s.Tick)) ∧
    ((gomap.get casterID s.Players = none → fp.ApplySkill s casterID (some sk) = s) ∧
      (gomap.get sk.TargetId s.Players = none → fp.ApplySkill s casterID (some sk) = s) ∧
      (∀ c t, gomap.get casterID s.Players = some c →
        gomap.get sk.TargetId s.Players = some t →
        (c.HP ≤ 0 ∨ c.SkillCD > 0 ∨ sk.TargetId = "" ∨ sk.TargetId = casterID ∨ t.HP ≤ 0 ∨
          fp.distance c.X c.Y t.X t.Y > 20) →
        fp.ApplySkill s casterID (some sk) = s) ∧
      (∀ c t, gomap.get casterID s.Players = some c →
        gomap.get sk.TargetId s.Players = some t →
        0 < c.HP → c.SkillCD ≤ 0 → sk.TargetId ≠ "" → sk.TargetId ≠ casterID → 0 < t.HP →
        fp.distance c.X c.Y t.X t.Y ≤ 20 →
        gomap.get sk.TargetId (fp.ApplySkill s casterID (some sk)).Players =
            some { t with HP := max (t.HP - 10) 0 } ∧
          gomap.get casterID (fp.ApplySkill s casterID (some sk)).Players =
            some { c with SkillCD := 20 } ∧
          (∀ q, q ≠ casterID → q ≠ sk.TargetId →
            gomap.get q (fp.ApplySkill s casterID (some sk)).Players =
              gomap.get q s.Players) ∧
          gomap.keys (fp.ApplySkill s casterID (some sk)).Players = gomap.keys s.Players ∧
          (fp.ApplySkill s casterID (some sk)).Tick = s.Tick)) :=
  ⟨ApplySkill_contract s casterID sk, fp.ApplySkill_rounded s casterID sk⟩

/-- Witness of `ApplySkill_exact_and_rounded`: caster A at (30,0) and target B
at (50,0) are exactly 20 apart, and 20 is the distance computed; the cast lands
with and without rounding: B.hp becomes 90 and A.skill_cd becomes 20. -/
theorem ApplySkill_exact_and_rounded_witness :
    (gomap.get "B"
        (ApplySkill
          { Players := [("A", { ID := "A", X := 30, Y := 0, HP := 100, SkillCD := 0 }),
                        ("B", { ID := "B", X := 50, Y := 0, HP := 100, SkillCD := 0 })],
            Tick := 7 }
          "A" (some { SkillId := 1, TargetId := "B" })).Players =
        some { ID := "B", X := 50, Y := 0, HP := 90, SkillCD := 0 } ∧
      gomap.get "A"
        (ApplySkill
          { Players := [("A", { ID := "A", X := 30, Y := 0, HP := 100, SkillCD := 0 }),
                        ("B", { ID := "B", X := 50, Y := 0, HP := 100, SkillCD := 0 })],
            Tick := 7 }
          "A" (some { SkillId := 1, TargetId := "B" })).Players =
        some { ID := "A", X := 30, Y := 0, HP := 100, SkillCD := 20 }) ∧
    (fp.distance 30 0 50 0 ≤ 20 ∧
      gomap.get "B"
        (fp.ApplySkill
          { Players := [("A", { ID := "A", X := 30, Y := 0, HP := 100, SkillCD := 0 }),
                        ("B", { ID := "B", X := 50, Y := 0, HP := 100, SkillCD := 0 })],
            Tick := 7 }
          "A" (some { SkillId := 1, TargetId := "B" })).Players =
        some { ID := "B", X := 50, Y := 0, HP := 90, SkillCD := 0 } ∧
      gomap.get "A"
        (fp.ApplySkill
          { Players := [("A", { ID := "A", X := 30, Y := 0, HP := 100, SkillCD := 0 }),
                        ("B", { ID := "B", X := 50, Y := 0, HP := 100, SkillCD := 0 })],
            Tick := 7 }
          "A" (some { SkillId := 1, TargetId := "B" })).Players =
        some { ID := "A", X := 30, Y := 0, HP := 100, SkillCD := 20 }) := by
  have h := ApplySkill_exact_and_rounded
    { Players := [("A", { ID := "A", X := 30, Y := 0, HP := 100, SkillCD := 0 }),
                  ("B", { ID := "B", X := 50, Y := 0, HP := 100, SkillCD := 0 })],
      Tick := 7 }
    "A" { SkillId := 1, TargetId := "B" }
  have hd : fp.distance 30 0 50 0 ≤ 20 := by decide!
  have h1 := h.1.2.2.2.2.2.2.2.2
    { ID := "A", X := 30, Y := 0, HP := 100, SkillCD := 0 }
    { ID := "B", X := 50, Y := 0, HP := 100, SkillCD := 0 }
    (by decide) (by decide) (by decide) (by decide) (by decide) (by decide) (by decide)
    (by
      refine not_lt.1 fun hgt => ?_
      have := (sqrt_distanceSq_gt_iff 30 0 50 0).1 hgt
      simp [outOfRange, distanceSq, skillRange] at this
      norm_num at this)
  have h2 := h.2.2.2.2
    { ID := "A", X := 30, Y := 0, HP := 100, SkillCD := 0 }
    { ID := "B", X := 50, Y := 0, HP := 100, SkillCD := 0 }
    (by decide) (by decide) (by decide) (by decide) (by decide) (by decide) (by decide) hd
  exact ⟨⟨h1.1, h1.2.1⟩, hd, h2.1, h2.2.1⟩

end battle
